import Mathlib

/-!
The a1fs file system: an extent-based file system over a flat storage image.

A shallow embedding of `src/A1/mkfs.c`, `src/A1/helpers.c` and `src/A1/a1fs.c`.

Conventions of the embedding

* A region of memory is a function `Nat → Nat` from byte offsets to byte values.
* `uint32_t` / `uint64_t` values are `Nat`; every C operation that can wrap is
  followed by an explicit `% 2^32` (`u32`) or `% 2^64` (`u64`).  `int` values
  are `Int`; a conversion from `uint32_t` to `int` is `i32`.
* The formatter `mkfs` works on the raw image, because it lays the regions out
  itself.  The mounted engine works through the five pointers of `fs_ctx`
  (superblock, inode bitmap, block bitmap, inode table, data region), which are
  modelled as five separate components.
* `clock_gettime` is an input: operations that stamp `mtime` take the time
  as an argument.
* Loops whose trip count is known on entry recurse on that count; a `while`
  loop that can spin takes a `fuel` argument and yields `none` when
  it is used up.  `none` also stands for a call that cannot return (a `memset`
  whose `size_t` length comes from a negative `int`) and for the use of an
  inode number the path lookup never produced.
-/

namespace A1fs

/-! ## Constants (a1fs.h, sys/stat.h, errno.h) -/

def A1FS_BLOCK_SIZE : Nat := 4096

def A1FS_MAGIC : Nat := 0xC5C369A1C5C369A1

def A1FS_NAME_MAX : Nat := 252

/-- The directory bit of `mode_t`: octal 0040000. -/
def S_IFDIR : Nat := 0o40000

/-- The regular-file bits of `mode_t`: octal 0100000. -/
def S_IFREG : Nat := 0o100000

def ENOENT : Int := 2

def ENOMEM : Int := 12

def ENOTDIR : Int := 20

def ENOSPC : Int := 28

def ENAMETOOLONG : Int := 36

def ENOTEMPTY : Int := 39

/-- The value of `sizeof(a1fs_inode)` on LP64: 4+4+4+4+16+8+4+16 = 60, rounded up to the
8-byte alignment of the record; `static_assert(A1FS_BLOCK_SIZE % sizeof(a1fs_inode) == 0)`. -/
def sizeof_inode : Nat := 64

/-- The value of `sizeof(a1fs_superblock)` on LP64: 2*8 + 9*4 = 52, rounded up to 56. -/
def sizeof_superblock : Nat := 56

/-- The value of `sizeof(a1fs_extent)`. -/
def sizeof_extent : Nat := 8

/-- The value of `sizeof(a1fs_dentry)`; `static_assert(sizeof(a1fs_dentry) == 256)`. -/
def sizeof_dentry : Nat := 256

/-! ## Machine integers -/

/-- Reduction of an integer to `uint32_t`. -/
def u32 (x : Int) : Nat := (x % 4294967296).toNat

/-- Reduction of an integer to `uint64_t` / `size_t`. -/
def u64 (x : Int) : Nat := (x % 18446744073709551616).toNat

/-- Conversion of a `uint32_t` value to `int`. -/
def i32 (x : Nat) : Int :=
  if x % 4294967296 < 2147483648 then ((x % 4294967296 : Nat) : Int)
  else ((x % 4294967296 : Nat) : Int) - 4294967296

/-! ## Byte memory -/

abbrev Mem := Nat → Nat

/-- Byte `i` of the little-endian representation of `v`. -/
def byte_of (v i : Nat) : Nat := v / 256 ^ i % 256

/-- A `uint32_t` load. -/
def read32 (m : Mem) (a : Nat) : Nat :=
  m a % 256 + 256 * (m (a + 1) % 256) + 65536 * (m (a + 2) % 256) + 16777216 * (m (a + 3) % 256)

/-- A `uint64_t` load. -/
def read64 (m : Mem) (a : Nat) : Nat := read32 m a + 4294967296 * read32 m (a + 4)

/-- A `uint32_t` store. -/
def write32 (m : Mem) (a v : Nat) : Mem :=
  fun x => if a ≤ x ∧ x < a + 4 then byte_of v (x - a) else m x

/-- The call `memset(m + a, c, n)`. -/
def memset (m : Mem) (a c n : Nat) : Mem :=
  fun x => if a ≤ x ∧ x < a + n then c else m x

/-- The call `memcpy(m + a, src, n)`. -/
def memcpy (m : Mem) (a : Nat) (src : Nat → Nat) (n : Nat) : Mem :=
  fun x => if a ≤ x ∧ x < a + n then src (x - a) else m x

/-- The bytes of a list as a source buffer (zero past its end). -/
def buf_of (l : List Nat) : Nat → Nat := fun i => l.getD i 0

/-- The `n` bytes of `m` starting at `a`. -/
def read_bytes (m : Mem) (a : Nat) : Nat → List Nat
  | 0 => []
  | n + 1 => m a :: read_bytes m (a + 1) n

/-! ## Records (a1fs.h) -/

structure a1fs_superblock where
  magic : Nat
  size : Nat
  s_inodes_count : Nat
  s_blocks_count : Nat
  s_inode_bitmap : Nat
  s_block_bitmap : Nat
  s_first_inode_block : Nat
  s_first_data_block : Nat
  s_dir_count : Nat
  s_free_blocks_count : Nat
  s_free_inodes_count : Nat
deriving DecidableEq, Repr

structure a1fs_extent where
  start : Nat
  count : Nat
deriving DecidableEq, Repr

structure timespec where
  tv_sec : Nat
  tv_nsec : Nat
deriving DecidableEq, Repr

structure a1fs_inode where
  mode : Nat
  ino_idx : Nat
  s_extent_block : Nat
  links : Nat
  mtime : timespec
  size : Nat
  i_extents_count : Nat
deriving DecidableEq, Repr

/-- A directory entry: the inode number and the name as a C string (the bytes before the
terminator). -/
structure a1fs_dentry where
  ino : Nat
  name : List Nat
deriving DecidableEq, Repr

/-- The 56 bytes of a superblock record; bytes 52..55 are the trailing padding, whose
content `pad` is whatever the stack held. -/
def superblock_bytes (sb : a1fs_superblock) (pad : Nat → Nat) (i : Nat) : Nat :=
  if i < 8 then byte_of sb.magic i
  else if i < 16 then byte_of sb.size (i - 8)
  else if i < 20 then byte_of sb.s_inodes_count (i - 16)
  else if i < 24 then byte_of sb.s_blocks_count (i - 20)
  else if i < 28 then byte_of sb.s_inode_bitmap (i - 24)
  else if i < 32 then byte_of sb.s_block_bitmap (i - 28)
  else if i < 36 then byte_of sb.s_first_inode_block (i - 32)
  else if i < 40 then byte_of sb.s_first_data_block (i - 36)
  else if i < 44 then byte_of sb.s_dir_count (i - 40)
  else if i < 48 then byte_of sb.s_free_blocks_count (i - 44)
  else if i < 52 then byte_of sb.s_free_inodes_count (i - 48)
  else pad i

/-- The superblock record stored at byte `a`. -/
def read_superblock (m : Mem) (a : Nat) : a1fs_superblock :=
  { magic := read64 m a
    size := read64 m (a + 8)
    s_inodes_count := read32 m (a + 16)
    s_blocks_count := read32 m (a + 20)
    s_inode_bitmap := read32 m (a + 24)
    s_block_bitmap := read32 m (a + 28)
    s_first_inode_block := read32 m (a + 32)
    s_first_data_block := read32 m (a + 36)
    s_dir_count := read32 m (a + 40)
    s_free_blocks_count := read32 m (a + 44)
    s_free_inodes_count := read32 m (a + 48) }

/-- The 64 bytes of an inode record whose padding is zero (`a1fs_inode root = {0}`). -/
def inode_bytes (ino : a1fs_inode) (i : Nat) : Nat :=
  if i < 4 then byte_of ino.mode i
  else if i < 8 then byte_of ino.ino_idx (i - 4)
  else if i < 12 then byte_of ino.s_extent_block (i - 8)
  else if i < 16 then byte_of ino.links (i - 12)
  else if i < 24 then byte_of ino.mtime.tv_sec (i - 16)
  else if i < 32 then byte_of ino.mtime.tv_nsec (i - 24)
  else if i < 40 then byte_of ino.size (i - 32)
  else if i < 44 then byte_of ino.i_extents_count (i - 40)
  else 0

/-- The inode record stored at byte `a`. -/
def read_inode (m : Mem) (a : Nat) : a1fs_inode :=
  { mode := read32 m a
    ino_idx := read32 m (a + 4)
    s_extent_block := read32 m (a + 8)
    links := read32 m (a + 12)
    mtime := { tv_sec := read64 m (a + 16), tv_nsec := read64 m (a + 24) }
    size := read64 m (a + 32)
    i_extents_count := read32 m (a + 40) }

/-! ## The formatter (mkfs.c) -/

/-- Modelled from the spec: `pos_ceil` is declared in `util.h`, which is not among the
sources; the formatter "computes N1..N3 from the requested inode count and total image
size", each the number of blocks that holds the items, that is the ceiling of `x / y`. -/
def pos_ceil (x y : Int) : Int := (x + y - 1) / y

/-- Bit `i` (counted from the start of the region) of a bitmap that starts at byte `a`. -/
def image_bit (m : Mem) (a i : Nat) : Bool := (m (a + i / 8)).testBit (i % 8)

/-- The function `mkfs(image, size, opts)`: the return value and the image afterwards.
`now` is what `clock_gettime` delivers and `pad` the padding bytes of the local superblock
record.  `none`: a `memset` length is negative, or one of the stores (the superblock, the
two `memset` calls, the two bitmap bytes, the root inode) does not lie inside the `size`
bytes of the image. -/
def mkfs (image : Mem) (size n_inodes : Nat) (now : timespec) (pad : Nat → Nat) :
    Option (Bool × Mem) :=
  if n_inodes < 1 then some (false, image) else
  let num_blk_inode_bitmap : Int := pos_ceil n_inodes (8 * A1FS_BLOCK_SIZE)
  let num_blk_inode_table : Int := pos_ceil (n_inodes * sizeof_inode) A1FS_BLOCK_SIZE
  let min_num_blks : Int := 2 + num_blk_inode_bitmap + num_blk_inode_table
  if size < u64 min_num_blks then some (false, image) else
  let s_blocks_count := u32 ((u64 ((size / A1FS_BLOCK_SIZE : Nat) - 1) : Nat))
  let num_data_block : Int :=
    i32 (u32 (s_blocks_count - 1 - num_blk_inode_bitmap - num_blk_inode_table))
  let num_blk_bitmap : Int := pos_ceil num_data_block (8 * A1FS_BLOCK_SIZE)
  let s_block_bitmap := u32 (2 + num_blk_bitmap)
  let s_first_inode_block := u32 (s_block_bitmap + num_blk_bitmap)
  let s_first_data_block := u32 (s_first_inode_block + num_blk_inode_table)
  let sb : a1fs_superblock :=
    { magic := A1FS_MAGIC
      size := u64 size
      s_inodes_count := u32 n_inodes
      s_blocks_count := s_blocks_count
      s_dir_count := 1
      s_free_inodes_count := u32 ((n_inodes : Int) - 1)
      s_inode_bitmap := 2
      s_block_bitmap := s_block_bitmap
      s_first_inode_block := s_first_inode_block
      s_first_data_block := s_first_data_block
      s_free_blocks_count := u32 ((s_blocks_count : Int) - s_first_data_block + 1) }
  let image1 := memcpy image A1FS_BLOCK_SIZE (superblock_bytes sb pad) sizeof_superblock
  let inode_bitmap := u32 (sb.s_inode_bitmap * A1FS_BLOCK_SIZE)
  let data_bitmap := u32 (sb.s_block_bitmap * A1FS_BLOCK_SIZE)
  if num_blk_inode_bitmap * A1FS_BLOCK_SIZE < 0 ∨ num_blk_bitmap * A1FS_BLOCK_SIZE < 0 then none
  else if size < A1FS_BLOCK_SIZE + sizeof_superblock
      ∨ size < inode_bitmap + (num_blk_inode_bitmap * A1FS_BLOCK_SIZE).toNat
      ∨ size < data_bitmap + (num_blk_bitmap * A1FS_BLOCK_SIZE).toNat
      ∨ size < inode_bitmap + 1 ∨ size < data_bitmap + 1
      ∨ size < u32 (sb.s_first_inode_block * A1FS_BLOCK_SIZE) + sizeof_inode then none
  else
  let image2 := memset image1 inode_bitmap 0 (num_blk_inode_bitmap * A1FS_BLOCK_SIZE).toNat
  let image3 := memset image2 data_bitmap 0 (num_blk_bitmap * A1FS_BLOCK_SIZE).toNat
  let image4 := memset image3 inode_bitmap 1 1
  let image5 := memset image4 data_bitmap 0 1
  let root : a1fs_inode :=
    { mode := S_IFDIR ||| 0o777
      links := 2
      size := 0
      mtime := now
      s_extent_block := 0
      i_extents_count := 0
      ino_idx := 0 }
  some (true, memcpy image5 (u32 (sb.s_first_inode_block * A1FS_BLOCK_SIZE)) (inode_bytes root)
    sizeof_inode)

/-! ## The mounted file system (fs_ctx) -/

/-- Modelled from the spec: `fs_ctx` is declared in `fs_ctx.h`, which is not among the
sources.  The engine reaches the image through its fields `sb`, `inode_bitmap`,
`block_bitmap`, `root_ino` (the inode table) and `data_blk` (the first data block): "all
memory accessed (superblock, bitmaps, inode table, extents, dentries) is reached via offset
arithmetic into one shared byte buffer".  The five regions are separate components here;
block numbers stored in extents and bit numbers of the block bitmap count from `data_blk`. -/
structure fs_ctx where
  sb : a1fs_superblock
  inode_bitmap : Mem
  block_bitmap : Mem
  root_ino : Nat → a1fs_inode
  data_blk : Mem

/-- Modelled from the spec: `fs_ctx_init` is defined in `fs_ctx.c`, which is not among the
sources.  The superblock is block 1 of the image, and the superblock names the first block
of the inode bitmap, of the block bitmap, of the inode table and of the data region. -/
def fs_ctx_init (image : Mem) : fs_ctx :=
  let sb := read_superblock image A1FS_BLOCK_SIZE
  { sb := sb
    inode_bitmap := fun i => image (sb.s_inode_bitmap * A1FS_BLOCK_SIZE + i)
    block_bitmap := fun i => image (sb.s_block_bitmap * A1FS_BLOCK_SIZE + i)
    root_ino := fun i => read_inode image (sb.s_first_inode_block * A1FS_BLOCK_SIZE + sizeof_inode * i)
    data_blk := fun i => image (sb.s_first_data_block * A1FS_BLOCK_SIZE + i) }

/-- The assignment `fs->root_ino[i] = ino`. -/
def set_inode (fs : fs_ctx) (i : Nat) (ino : a1fs_inode) : fs_ctx :=
  { fs with root_ino := fun j => if j = i then ino else fs.root_ino j }

/-- The byte offset `blk * A1FS_BLOCK_SIZE` from `fs->data_blk`: a `uint32_t` product. -/
def blk_addr (blk : Nat) : Nat := u32 (blk * A1FS_BLOCK_SIZE)

/-- The extent record stored at byte `a` of the data region. -/
def read_extent (m : Mem) (a : Nat) : a1fs_extent :=
  { start := read32 m a, count := read32 m (a + 4) }

/-- The store of an extent record at byte `a` of the data region. -/
def write_extent_at (m : Mem) (a : Nat) (e : a1fs_extent) : Mem :=
  write32 (write32 m a e.start) (a + 4) e.count

/-! ## Bitmap allocator (helpers.c) -/

/-- The function `divide_ceil(x, y)` on `uint32_t`. -/
def divide_ceil (x y : Nat) : Nat := u32 (x / y + (if x % y ≠ 0 then 1 else 0 : Nat))

/-- The test `bitmap[i / 8] & (1 << (i % 8))` is non-zero. -/
def bit_set (bitmap : Mem) (i : Nat) : Bool := bitmap (i / 8) &&& (1 <<< (i % 8)) ≠ 0

/-- The inner loop of `search_inode_bitmap`: the first `bit` in `bit .. bit + k - 1` with
`!(b & (1 << bit))`. -/
def first_clear_bit (b : Nat) : Nat → Nat → Option Nat
  | 0, _ => none
  | k + 1, bit => if b &&& (1 <<< bit) = 0 then some bit else first_clear_bit b k (bit + 1)

/-- The outer loop of `search_inode_bitmap` over the bytes `byte .. byte + k - 1`. -/
def search_inode_bitmap_loop (fs : fs_ctx) : Nat → Nat → Nat × fs_ctx
  | 0, _ => (0, fs)
  | k + 1, byte =>
    match first_clear_bit (fs.inode_bitmap byte) 8 0 with
    | some bit =>
      (u32 (byte * 8 + bit),
       { fs with
         inode_bitmap := fun x =>
           if x = byte then (fs.inode_bitmap byte ||| (1 <<< bit)) % 256 else fs.inode_bitmap x
         sb := { fs.sb with s_free_inodes_count := u32 ((fs.sb.s_free_inodes_count : Int) - 1) } })
    | none => search_inode_bitmap_loop fs k (byte + 1)

/-- The function `search_inode_bitmap(fs)`: the inode number returned and the state. -/
def search_inode_bitmap (fs : fs_ctx) : Nat × fs_ctx :=
  search_inode_bitmap_loop fs (fs.sb.s_inodes_count / 8) 0

/-- The function `create_inode(fs, mode)`. -/
def create_inode (fs : fs_ctx) (mode : Nat) (now : timespec) : Nat × fs_ctx :=
  let r := search_inode_bitmap fs
  let inode_i := r.1
  let inode := r.2.root_ino inode_i
  (inode_i,
   set_inode r.2 inode_i
     { inode with
       ino_idx := inode_i, i_extents_count := 0, links := 0, mode := mode, mtime := now,
       s_extent_block := 0, size := 0 })

/-- The loop `for (i = index; i < index + size; i++) bitmap[i / 8] |= 1 << (i % 8)`, with
`k` iterations left. -/
def set_bits (bitmap : Mem) : Nat → Nat → Mem
  | 0, _ => bitmap
  | k + 1, i =>
    set_bits (fun x => if x = i / 8 then (bitmap x ||| (1 <<< (i % 8))) % 256 else bitmap x) k (i + 1)

/-- The loop `for (i = index; i < index + size; i++) bitmap[i / 8] &= ~(1 << (i % 8))`,
with `k` iterations left. -/
def clear_bits (bitmap : Mem) : Nat → Nat → Mem
  | 0, _ => bitmap
  | k + 1, i =>
    clear_bits (fun x => if x = i / 8 then bitmap x &&& (255 ^^^ (1 <<< (i % 8))) else bitmap x) k
      (i + 1)

/-- The trip count of `for (uint32_t i = index; i < index + size; i++)`: the bound
`index + size` is a `uint32_t` sum. -/
def loop_count (index size : Nat) : Nat := u32 (index + size) - index

/-- The function `set_bitmap(map, index, size, fs)`. -/
def set_bitmap (map : Char) (index size : Nat) (fs : fs_ctx) : fs_ctx :=
  if map = 'i' then
    { fs with
      sb := { fs.sb with s_free_inodes_count := u32 ((fs.sb.s_free_inodes_count : Int) - size) }
      inode_bitmap := set_bits fs.inode_bitmap (loop_count index size) index }
  else
    { fs with
      sb := { fs.sb with s_free_blocks_count := u32 ((fs.sb.s_free_blocks_count : Int) - size) }
      block_bitmap := set_bits fs.block_bitmap (loop_count index size) index }

/-- The function `unset_bitmap(map, index, size, fs)`. -/
def unset_bitmap (map : Char) (index size : Nat) (fs : fs_ctx) : fs_ctx :=
  if map = 'i' then
    { fs with
      sb := { fs.sb with s_free_inodes_count := u32 ((fs.sb.s_free_inodes_count : Int) + size) }
      inode_bitmap := clear_bits fs.inode_bitmap (loop_count index size) index }
  else
    { fs with
      sb := { fs.sb with s_free_blocks_count := u32 ((fs.sb.s_free_blocks_count : Int) + size) }
      block_bitmap := clear_bits fs.block_bitmap (loop_count index size) index }

/-! ## Extent / block allocator (helpers.c) -/

/-- The value `fs->sb->s_blocks_count - fs->sb->s_first_data_block + 1`. -/
def num_data_blk (fs : fs_ctx) : Nat :=
  u32 ((fs.sb.s_blocks_count : Int) - fs.sb.s_first_data_block + 1)

/-- The local variables of the scan in `search_blk_bitmap`: the current run (`start`,
`count`) and the largest finished run (`extent`). -/
structure scan_state where
  count : Nat
  start : Nat
  extent : a1fs_extent
deriving DecidableEq, Repr

/-- The two nested loops of `search_blk_bitmap`.  Byte `byte` is scanned for the bits
`0 .. end_bit - 1`, where `end_bit` is 8 except in a last partial byte, so the pair
(`byte`, `bit`) runs through the bit numbers `i = 8 * byte + bit` below `num_data_blk` in
increasing order, and `bit_iterated` is `i + 1` once it is incremented.  `k` bits are left
to scan.  The result is `inl extent` when a run of `size` bits is found (the `return`
inside the loop) and `inr` of the final locals otherwise. -/
def search_blk_scan (bitmap : Mem) (size : Nat) : Nat → Nat → scan_state → a1fs_extent ⊕ scan_state
  | 0, _, st => Sum.inr st
  | k + 1, i, st =>
    if bitmap (i / 8) &&& (1 <<< (i % 8)) = 0 then
      if size = st.count + 1 then Sum.inl { start := st.start, count := st.count + 1 }
      else search_blk_scan bitmap size k (i + 1) { st with count := st.count + 1 }
    else
      search_blk_scan bitmap size k (i + 1)
        { count := 0
          start := i + 1
          extent := if st.count > st.extent.count then { start := st.start, count := st.count }
                    else st.extent }

/-- The function `search_blk_bitmap(size, fs, extent)`: the extent stored through the
pointer and the state.  When no run of `size` bits is found the function ends with
`set_bitmap('d', extent->count, extent->start, fs)`. -/
def search_blk_bitmap (size : Nat) (fs : fs_ctx) : a1fs_extent × fs_ctx :=
  match search_blk_scan fs.block_bitmap size (num_data_blk fs) 0
      { count := 0, start := 0, extent := { start := 0, count := 0 } } with
  | Sum.inl e => (e, set_bitmap 'd' e.start e.count fs)
  | Sum.inr st => (st.extent, set_bitmap 'd' st.extent.count st.extent.start fs)

/-- The loop of `search_blk_bitmap_at_idx`: some `idx` in `idx .. idx + k - 1` has
`(bitmap[idx / 8] & (1 << (idx % 8))) == 1`. -/
def at_idx_taken (bitmap : Mem) : Nat → Nat → Bool
  | 0, _ => false
  | k + 1, idx =>
    if bitmap (idx / 8) &&& (1 <<< (idx % 8)) = 1 then true else at_idx_taken bitmap k (idx + 1)

/-- The function `search_blk_bitmap_at_idx(preferred_start_index, size, fs)`. -/
def search_blk_bitmap_at_idx (preferred_start_index size : Nat) (fs : fs_ctx) : Int × fs_ctx :=
  if u32 (preferred_start_index + size) > num_data_blk fs then (-1, fs)
  else if at_idx_taken fs.block_bitmap (loop_count preferred_start_index size) preferred_start_index
  then (-1, fs)
  else (0, set_bitmap 'd' preferred_start_index size fs)

/-- The function `write_extent(ino_i, extent, fs)`. -/
def write_extent (ino_i : Nat) (extent : a1fs_extent) (fs : fs_ctx) : Int × fs_ctx :=
  let ino := fs.root_ino ino_i
  if ino.i_extents_count = 512 then (-1, fs)
  else
    let ptr := blk_addr ino.s_extent_block
    let fs1 := { fs with
      data_blk := write_extent_at fs.data_blk (ptr + sizeof_extent * ino.i_extents_count) extent }
    (0, set_inode fs1 ino_i { ino with i_extents_count := u32 (ino.i_extents_count + 1) })

/-! ## Directory entries (helpers.c) -/

/-- The 256 bytes of a directory entry made by `create_dentry`: the record is zeroed, then
the inode number and the name are stored. -/
def dentry_bytes (d : a1fs_dentry) (i : Nat) : Nat :=
  if i < 4 then byte_of d.ino i else d.name.getD (i - 4) 0

/-- The function `create_dentry(ino, name)`: `strncpy` keeps at most `A1FS_NAME_MAX - 1`
bytes of the name. -/
def create_dentry (ino : Nat) (name : List Nat) : a1fs_dentry :=
  { ino := ino, name := name.take (A1FS_NAME_MAX - 1) }

/-- The C string stored at byte `a`, read for at most `k` bytes. -/
def read_cstr (m : Mem) (a : Nat) : Nat → List Nat
  | 0 => []
  | k + 1 => if m a = 0 then [] else m a :: read_cstr m (a + 1) k

/-- The directory entry stored at byte `a` of the data region. -/
def read_dentry (m : Mem) (a : Nat) : a1fs_dentry :=
  { ino := read32 m a, name := read_cstr m (a + 4) A1FS_NAME_MAX }

/-- The test `strcmp(p, name) == 0` for the C string at byte `a`; `name` holds the bytes
before the terminator of the other string. -/
def cstr_eq (m : Mem) (a : Nat) : List Nat → Bool
  | [] => m a = 0
  | c :: cs => m a = c && cstr_eq m (a + 1) cs

/-- What one pass over a directory reports: the byte offset of the entry with the wanted
name, the end of the entries (`num_dentry == 0`), or the entries still to visit. -/
inductive scan_result where
  | found (addr : Nat)
  | stop
  | next (num_dentry : Nat)
deriving DecidableEq, Repr

/-- The innermost loop of the directory scan (`find_inode_from_dir`, `replace_dentry`):
entries `dentry_i .. dentry_i + k - 1` of the block at byte `base`. -/
def scan_block (m : Mem) (name : List Nat) (base : Nat) : Nat → Nat → Nat → scan_result
  | 0, _, n => scan_result.next n
  | k + 1, dentry_i, n =>
    if n = 0 then scan_result.stop
    else if cstr_eq m (base + sizeof_dentry * dentry_i + 4) name then
      scan_result.found (base + sizeof_dentry * dentry_i)
    else scan_block m name base k (dentry_i + 1) (n - 1)

/-- The middle loop of the directory scan: blocks `j .. j + k - 1` of an extent. -/
def scan_extent (m : Mem) (name : List Nat) (extent_start : Nat) : Nat → Nat → Nat → scan_result
  | 0, _, n => scan_result.next n
  | k + 1, j, n =>
    match scan_block m name (blk_addr (extent_start + j)) (A1FS_BLOCK_SIZE / 256) 0 n with
    | scan_result.next n1 => scan_extent m name extent_start k (j + 1) n1
    | r => r

/-- The outer loop of the directory scan: extents `i .. i + k - 1` of the extent list at
byte `ext`.  `int blk_count = s_extent[i].count`. -/
def scan_dir (m : Mem) (name : List Nat) (ext : Nat) : Nat → Nat → Nat → scan_result
  | 0, _, n => scan_result.next n
  | k + 1, i, n =>
    let e := read_extent m (ext + sizeof_extent * i)
    match scan_extent m name e.start (i32 e.count).toNat 0 n with
    | scan_result.next n1 => scan_dir m name ext k (i + 1) n1
    | r => r

/-- The function `find_inode_from_dir(ino_i, file, fs)`: the return value and `*ino_i`. -/
def find_inode_from_dir (ino_i : Nat) (file : List Nat) (fs : fs_ctx) : Int × Nat :=
  let inode := fs.root_ino ino_i
  if inode.mode &&& S_IFDIR = 0 then (-ENOTDIR, ino_i)
  else if inode.size = 0 then (-ENOENT, ino_i)
  else
    let num_dentry := inode.size / sizeof_dentry
    match scan_dir fs.data_blk file (blk_addr inode.s_extent_block) inode.i_extents_count 0
        num_dentry with
    | scan_result.found a => (0, read32 fs.data_blk a)
    | _ => (-ENOENT, ino_i)

/-- The tokens `strsep(&string, "/")` yields one after the other. -/
def strsep_all : List Nat → List (List Nat)
  | [] => [[]]
  | c :: cs =>
    if c = 47 then [] :: strsep_all cs
    else
      match strsep_all cs with
      | [] => [[c]]
      | t :: ts => (c :: t) :: ts

/-- The loop of `path_lookup` over the tokens. -/
def path_lookup_loop (fs : fs_ctx) : List (List Nat) → Nat → Int × Nat
  | [], ino_i => (0, ino_i)
  | file :: rest, ino_i =>
    let r := find_inode_from_dir ino_i file fs
    if r.1 ≠ 0 then (r.1, ino_i) else path_lookup_loop fs rest r.2

/-- The function `path_lookup(path, fs, inode_i)`: the return value and, when it is 0, the
inode number stored through `inode_i`.  A path is the list of its bytes before the
terminator. -/
def path_lookup (path : List Nat) (fs : fs_ctx) : Int × Nat :=
  match path with
  | [] => (-1, 0)
  | c :: rest =>
    if c ≠ 47 then (-1, 0)
    else if rest = [] then (0, 0)
    else path_lookup_loop fs (strsep_all rest) 0

/-- The index of the last `/` of a path (`strrchr(path, '/') - path`). -/
def strrchr_slash (path : List Nat) : Option Nat :=
  (path.reverse.indexOf? 47).map (fun i => path.length - 1 - i)

/-- The function `get_parent_child_str_from_path(parent, child, path)` when both `malloc`
calls succeed: the pair (`parent`, `child`).  `none`: the path has no `/`. -/
def get_parent_child_str_from_path (path : List Nat) : Option (List Nat × List Nat) :=
  match strrchr_slash path with
  | none => none
  | some idx =>
    let filename := path.drop (idx + 1)
    let parent_size := if idx = 0 then idx + 1 else idx
    some (path.take parent_size, filename)

/-- The function `allocate_blks_for_dir(dir_i, fs)`: the block to write the entry to. -/
def allocate_blks_for_dir (dir_i : Nat) (fs : fs_ctx) : Nat × fs_ctx :=
  let parent_dir := fs.root_ino dir_i
  if parent_dir.size = 0 then
    let r1 := search_blk_bitmap 1 fs
    let extent_blk := r1.1.start
    let fs1 := set_inode r1.2 dir_i { r1.2.root_ino dir_i with s_extent_block := extent_blk }
    let r2 := search_blk_bitmap 1 fs1
    let r3 := write_extent dir_i r2.1 r2.2
    (r2.1.start, r3.2)
  else
    let first_extent := blk_addr parent_dir.s_extent_block
    let last_extent := first_extent + sizeof_extent * u32 ((parent_dir.i_extents_count : Int) - 1)
    let e := read_extent fs.data_blk last_extent
    let end_db := u32 ((e.start : Int) + e.count - 1)
    let r := search_blk_bitmap_at_idx (u32 (end_db + 1)) 1 fs
    if r.1 ≠ -1 then
      (u32 (end_db + 1),
       { r.2 with
         data_blk := write32 r.2.data_blk (last_extent + 4)
           (u32 (read32 r.2.data_blk (last_extent + 4) + 1)) })
    else
      let r2 := search_blk_bitmap 1 r.2
      let r3 := write_extent dir_i r2.1 r2.2
      (r2.1.start, r3.2)

/-- The function `write_dentry(dir_i, blk, index, dentry, fs)`. -/
def write_dentry (dir_i blk index : Nat) (dentry : a1fs_dentry) (fs : fs_ctx) (now : timespec) :
    fs_ctx :=
  let dir := fs.root_ino dir_i
  let fs1 := { fs with
    data_blk := memcpy fs.data_blk (blk_addr blk + sizeof_dentry * index) (dentry_bytes dentry)
      sizeof_dentry }
  set_inode fs1 dir_i
    { dir with size := u64 (dir.size + sizeof_dentry), links := u32 (dir.links + 1), mtime := now }

/-- The function `get_dentry_insertion_point(dir_i, blk, index, fs)`: the pair
(`*blk`, `*index`). -/
def get_dentry_insertion_point (dir_i : Nat) (fs : fs_ctx) : Nat × Nat :=
  let dir := fs.root_ino dir_i
  let index := dir.size / sizeof_dentry % (A1FS_BLOCK_SIZE / sizeof_dentry)
  let first_extent := blk_addr dir.s_extent_block
  let last_extent :=
    read_extent fs.data_blk (first_extent + sizeof_extent * u32 ((dir.i_extents_count : Int) - 1))
  let end_db := u32 ((last_extent.start : Int) + last_extent.count - 1)
  (end_db, index)

/-- The function `add_dentry(dir_i, dentry, fs)`. -/
def add_dentry (dir_i : Nat) (dentry : a1fs_dentry) (fs : fs_ctx) (now : timespec) : fs_ctx :=
  let dir := fs.root_ino dir_i
  if dir.size % A1FS_BLOCK_SIZE = 0 then
    let r := allocate_blks_for_dir dir_i fs
    write_dentry dir_i r.1 0 dentry r.2 now
  else
    let p := get_dentry_insertion_point dir_i fs
    write_dentry dir_i p.1 p.2 dentry fs now

/-- The function `get_last_dentry(dir_i, fs)`.  The entry is `first_dentry[index - 1]`;
`none`: it lies before the data region (`index` is 0 in the block at offset 0). -/
def get_last_dentry (dir_i : Nat) (fs : fs_ctx) : Option a1fs_dentry :=
  let p := get_dentry_insertion_point dir_i fs
  let a : Int := (blk_addr p.1 : Int) + sizeof_dentry * ((p.2 : Int) - 1)
  if a < 0 then none else some (read_dentry fs.data_blk a.toNat)

/-- The stores of `replace_dentry` into the entry at byte `a`: the inode number, then
`strncpy(name, new_dentry.name, A1FS_NAME_MAX - 1)` and the terminator in the last byte. -/
def overwrite_dentry (m : Mem) (a : Nat) (new_dentry : a1fs_dentry) : Mem :=
  memset
    (memcpy (write32 m a new_dentry.ino) (a + 4)
      (buf_of (new_dentry.name.take (A1FS_NAME_MAX - 1))) (A1FS_NAME_MAX - 1))
    (a + 4 + (A1FS_NAME_MAX - 1)) 0 1

/-- The function `replace_dentry(dir_i, name, new_dentry, fs)`. -/
def replace_dentry (dir_i : Nat) (name : List Nat) (new_dentry : a1fs_dentry) (fs : fs_ctx) :
    fs_ctx :=
  let inode := fs.root_ino dir_i
  let num_dentry := inode.size / sizeof_dentry
  match scan_dir fs.data_blk name (blk_addr inode.s_extent_block) inode.i_extents_count 0
      num_dentry with
  | scan_result.found a => { fs with data_blk := overwrite_dentry fs.data_blk a new_dentry }
  | _ => fs

/-- The function `rm_last_dentry(dir_i, fs)`.  `last_extent` is a local copy of the last
extent record, so the decrement of its count stays in the local. -/
def rm_last_dentry (dir_i : Nat) (fs : fs_ctx) (now : timespec) : fs_ctx :=
  let dir := fs.root_ino dir_i
  let last_dentry_i : Int :=
    ((dir.size / sizeof_dentry % (A1FS_BLOCK_SIZE / sizeof_dentry) : Nat) : Int) - 1
  let first_extent := blk_addr dir.s_extent_block
  let last_extent :=
    read_extent fs.data_blk (first_extent + sizeof_extent * u32 ((dir.i_extents_count : Int) - 1))
  let end_db := u32 ((last_extent.start : Int) + last_extent.count - 1)
  let fs1 := if last_dentry_i = 0 then unset_bitmap 'd' end_db 1 fs else fs
  let local_count := if last_dentry_i = 0 then u32 ((last_extent.count : Int) - 1)
                     else last_extent.count
  let dir1 := fs1.root_ino dir_i
  let dir2 := if local_count = 0 then
      { dir1 with i_extents_count := u32 ((dir1.i_extents_count : Int) - 1) }
    else dir1
  set_inode fs1 dir_i
    { dir2 with
      size := u64 ((dir2.size : Int) - sizeof_dentry)
      links := u32 ((dir2.links : Int) - 1)
      mtime := now }

/-- The function `rm_dentry(dir_i, dentry, fs)`. -/
def rm_dentry (dir_i : Nat) (dentry : a1fs_dentry) (fs : fs_ctx) (now : timespec) :
    Option fs_ctx :=
  match get_last_dentry dir_i fs with
  | none => none
  | some last_dentry =>
    let fs1 := if dentry.name ≠ last_dentry.name then
        replace_dentry dir_i dentry.name last_dentry fs
      else fs
    let fs2 := rm_last_dentry dir_i fs1 now
    let dir := fs2.root_ino dir_i
    some (if dir.size = 0 then unset_bitmap 'd' dir.s_extent_block 1 fs2 else fs2)

/-! ## File data (helpers.c) -/

/-- The loop of `find_offset`.  `cur` is the byte offset of `curr_extent` in the data
region and `num_extent` its value before the increment.  The step
`curr_extent + num_extent * sizeof(a1fs_extent)` is pointer arithmetic on `a1fs_extent *`:
it advances by `num_extent * 8` records of 8 bytes. -/
def find_offset_loop (m : Mem) : Nat → Int → Nat → Nat → Int → Option Nat
  | 0, _, _, _, _ => none
  | fuel + 1, block_offset, num_extent, cur, num_block_in_extent =>
    if block_offset - num_block_in_extent > 0 then
      let cur1 := cur + (num_extent + 1) * sizeof_extent * sizeof_extent
      find_offset_loop m fuel (block_offset - num_block_in_extent) (num_extent + 1) cur1
        (i32 (read_extent m cur1).count)
    else some cur

/-- The function `find_offset(ino, fs, offset)`: the byte offset from `fs->data_blk` of the
pointer returned.  `none`: the loop did not end within `fuel` iterations. -/
def find_offset (fuel : Nat) (ino : Nat) (fs : fs_ctx) (offset : Nat) : Option Nat :=
  let inode := fs.root_ino ino
  let curr_extent := blk_addr inode.s_extent_block
  let block_offset : Int := ((offset / A1FS_BLOCK_SIZE : Nat) : Int)
  let remaining_data := offset % A1FS_BLOCK_SIZE
  match find_offset_loop fs.data_blk fuel block_offset 0 curr_extent
      (i32 (read_extent fs.data_blk curr_extent).count) with
  | none => none
  | some cur => some (blk_addr (read_extent fs.data_blk cur).start + remaining_data)

/-- The loop of `delete_file_data` over the extents `extent_idx .. extent_idx + k - 1`. -/
def delete_extents (first_extent : Nat) : Nat → Nat → fs_ctx → fs_ctx
  | 0, _, fs => fs
  | k + 1, extent_idx, fs =>
    let e := read_extent fs.data_blk (first_extent + sizeof_extent * extent_idx)
    delete_extents first_extent k (extent_idx + 1) (unset_bitmap 'd' e.start e.count fs)

/-- The function `delete_file_data(ino, fs)`. -/
def delete_file_data (ino : Nat) (fs : fs_ctx) : fs_ctx :=
  let inode := fs.root_ino ino
  let first_extent := blk_addr inode.s_extent_block
  let fs1 := delete_extents first_extent inode.i_extents_count 0 fs
  let fs2 := unset_bitmap 'd' inode.s_extent_block 1 fs1
  set_inode fs2 ino { fs2.root_ino ino with size := 0 }

/-- The steps that `truncate_file` repeats for the trailing block: clear the bit of the
last block of the record at `first_extent + (i_extents_count - 1) * sizeof(a1fs_extent)`
(pointer arithmetic on `a1fs_extent *`: 64 bytes per unit), take `bytes` off the size,
decrement the count of the record, and drop it from the inode when the count is 0. -/
def truncate_last_block (ino : Nat) (fs : fs_ctx) (bytes : Nat) : fs_ctx :=
  let inode := fs.root_ino ino
  let first_extent := blk_addr inode.s_extent_block
  let last_extent :=
    first_extent + u32 ((inode.i_extents_count : Int) - 1) * sizeof_extent * sizeof_extent
  let e := read_extent fs.data_blk last_extent
  let last_data_block := u32 ((e.start : Int) + e.count - 1)
  let fs1 := unset_bitmap 'd' last_data_block 1 fs
  let count1 := u32 ((e.count : Int) - 1)
  let fs2 := { fs1 with data_blk := write32 fs1.data_blk (last_extent + 4) count1 }
  let inode1 := { inode with size := u64 ((inode.size : Int) - bytes) }
  set_inode fs2 ino
    (if count1 = 0 then
      { inode1 with i_extents_count := u32 ((inode1.i_extents_count : Int) - 1) }
     else inode1)

/-- The loop `while (bytes_to_delete >= A1FS_BLOCK_SIZE)` of `truncate_file`, with `k`
iterations left: the state and the bytes still to delete. -/
def truncate_loop (ino : Nat) : Nat → fs_ctx → Int → fs_ctx × Int
  | 0, fs, bytes_to_delete => (fs, bytes_to_delete)
  | k + 1, fs, bytes_to_delete =>
    if bytes_to_delete ≥ A1FS_BLOCK_SIZE then
      truncate_loop ino k (truncate_last_block ino fs A1FS_BLOCK_SIZE)
        (bytes_to_delete - A1FS_BLOCK_SIZE)
    else (fs, bytes_to_delete)

/-- The function `truncate_file(ino, fs, bytes_to_delete)`.  The loop runs
`bytes_to_delete / A1FS_BLOCK_SIZE` times at most. -/
def truncate_file (ino : Nat) (fs : fs_ctx) (bytes_to_delete : Int) : fs_ctx :=
  let inode := fs.root_ino ino
  let remainder := inode.size % A1FS_BLOCK_SIZE
  if remainder ≠ 0 ∧ bytes_to_delete < remainder then
    set_inode fs ino { inode with size := u64 ((inode.size : Int) - bytes_to_delete) }
  else
    let fs1 := if remainder ≠ 0 then truncate_last_block ino fs remainder else fs
    let btd1 : Int := if remainder ≠ 0 then bytes_to_delete - remainder else bytes_to_delete
    let r := truncate_loop ino (btd1 / A1FS_BLOCK_SIZE).toNat fs1 btd1
    let inode2 := r.1.root_ino ino
    set_inode r.1 ino { inode2 with size := u64 ((inode2.size : Int) - r.2) }

/-- The function `find_last_blk(ino, fs)`: the byte offset from `fs->data_blk` of the
pointer returned. -/
def find_last_blk (ino : Nat) (fs : fs_ctx) : Nat :=
  let inode := fs.root_ino ino
  let first_extent := blk_addr inode.s_extent_block
  let last_extent :=
    read_extent fs.data_blk (first_extent + sizeof_extent * u32 ((inode.i_extents_count : Int) - 1))
  blk_addr last_extent.start + u32 (last_extent.count * A1FS_BLOCK_SIZE)

/-- The function `write_zero_to_blk(ino_i, blk, start, length, fs)`.  `none`: `length` is
negative, so that the `size_t` length of the `memset` exceeds every image. -/
def write_zero_to_blk (ino_i blk : Nat) (start length : Int) (fs : fs_ctx) : Option fs_ctx :=
  let inode := fs.root_ino ino_i
  let fs1 := set_inode fs ino_i { inode with size := u64 ((inode.size : Int) + length) }
  if length < 0 ∨ (blk_addr blk : Int) + start < 0 then none
  else
    some { fs1 with
      data_blk := memset fs1.data_blk ((blk_addr blk : Int) + start).toNat 0 length.toNat }

/-- The loop of `populate_extent_blk`: the return value and the state.  `none`: the loop
did not end within `fuel` iterations, or a `memset` cannot return. -/
def populate_loop (ino_i : Nat) : Nat → Nat → Nat → fs_ctx → Option (Int × fs_ctx)
  | 0, _, _, _ => none
  | fuel + 1, num_db_needed, size_remain, fs =>
    if num_db_needed ≠ 0 then
      let r := search_blk_bitmap num_db_needed fs
      let extent := r.1
      let w := write_extent ino_i extent r.2
      if w.1 = -1 then some (-ENOSPC, w.2)
      else
        let num_db_needed1 := u32 ((num_db_needed : Int) - extent.count)
        if size_remain > u32 (extent.count * A1FS_BLOCK_SIZE) then
          match write_zero_to_blk ino_i extent.start 0 (i32 (u32 (extent.count * A1FS_BLOCK_SIZE)))
              w.2 with
          | none => none
          | some fs1 =>
            populate_loop ino_i fuel num_db_needed1
              (u32 ((size_remain : Int) - u32 (extent.count * A1FS_BLOCK_SIZE))) fs1
        else
          match write_zero_to_blk ino_i extent.start 0 (i32 size_remain) w.2 with
          | none => none
          | some fs1 => some (0, fs1)
    else some (0, fs)

/-- The function `populate_extent_blk(ino_i, size, fs)`. -/
def populate_extent_blk (fuel : Nat) (ino_i size : Nat) (fs : fs_ctx) : Option (Int × fs_ctx) :=
  populate_loop ino_i fuel (divide_ceil size A1FS_BLOCK_SIZE) size fs

/-- The function `get_last_blk(ino, fs)`. -/
def get_last_blk (ino : Nat) (fs : fs_ctx) : Nat :=
  let inode := fs.root_ino ino
  let first_extent := blk_addr inode.s_extent_block
  let last_extent :=
    read_extent fs.data_blk (first_extent + sizeof_extent * u32 ((inode.i_extents_count : Int) - 1))
  u32 ((last_extent.start : Int) + last_extent.count - 1)

/-- The function `extend_file(extend_size, ino_i, fs)`: the return value and the state. -/
def extend_file (fuel : Nat) (extend_size ino_i : Nat) (fs : fs_ctx) : Option (Int × fs_ctx) :=
  let inode := fs.root_ino ino_i
  if inode.size = 0 then
    let r := search_blk_bitmap 1 fs
    let fs1 := set_inode r.2 ino_i { r.2.root_ino ino_i with s_extent_block := r.1.start }
    match populate_extent_blk fuel ino_i extend_size fs1 with
    | none => none
    | some p => if p.1 = -ENOSPC then some (-ENOSPC, p.2) else some (0, p.2)
  else
    let last_blk := get_last_blk ino_i fs
    let last_fill := inode.size % A1FS_BLOCK_SIZE
    if inode.size % A1FS_BLOCK_SIZE ≠ 0 ∧ u32 (last_fill + extend_size) ≤ A1FS_BLOCK_SIZE then
      (write_zero_to_blk ino_i last_blk last_fill (i32 extend_size) fs).map (fun fs1 => (0, fs1))
    else
      let filled :=
        if inode.size % A1FS_BLOCK_SIZE ≠ 0 then
          write_zero_to_blk ino_i last_blk last_fill ((A1FS_BLOCK_SIZE : Int) - last_fill) fs
        else some fs
      let offset_remain :=
        if inode.size % A1FS_BLOCK_SIZE ≠ 0 then
          u32 ((extend_size : Int) - ((A1FS_BLOCK_SIZE : Int) - last_fill))
        else extend_size
      match filled with
      | none => none
      | some fs1 =>
        let num_db_needed := divide_ceil offset_remain A1FS_BLOCK_SIZE
        let r := search_blk_bitmap_at_idx last_blk offset_remain fs1
        if r.1 = 0 then
          match write_zero_to_blk ino_i (u32 (last_blk + 1)) 0 (i32 offset_remain) r.2 with
          | none => none
          | some fs2 =>
            let inode2 := fs2.root_ino ino_i
            let last_extent := blk_addr inode2.s_extent_block +
              sizeof_extent * u32 ((inode2.i_extents_count : Int) - 1)
            some (0, { fs2 with
              data_blk := write32 fs2.data_blk (last_extent + 4)
                (u32 (read32 fs2.data_blk (last_extent + 4) + num_db_needed)) })
        else
          match populate_extent_blk fuel ino_i offset_remain r.2 with
          | none => none
          | some p => if p.1 = -ENOSPC then some (-ENOSPC, p.2) else some (0, p.2)

/-! ## The operations (a1fs.c) -/

/-- Conversion of a `uint64_t` / `size_t` / `ptrdiff_t` value to `int`. -/
def to_int (x : Int) : Int := i32 (u32 x)

/-- The macro `S_ISREG(mode)`: `(mode & S_IFMT) == S_IFREG`. -/
def S_ISREG (mode : Nat) : Bool := mode &&& 0o170000 = S_IFREG

/-- The function `a1fs_mkdir(path, mode)` when `malloc` succeeds: the return value and the
state.  `none`: the parent is not found, so `parent_ino_i` is never assigned. -/
def a1fs_mkdir (path : List Nat) (mode : Nat) (fs : fs_ctx) (now : timespec) :
    Option (Int × fs_ctx) :=
  let mode := mode ||| S_IFDIR
  match get_parent_child_str_from_path path with
  | none => none
  | some (parent_path, new_dir) =>
    let l := path_lookup parent_path fs
    if l.1 ≠ 0 then none
    else
      let parent_ino_i := l.2
      let parent_ino := fs.root_ino parent_ino_i
      let extra_blk := if parent_ino.size % A1FS_BLOCK_SIZE = 0 then 1 else 0
      if fs.sb.s_free_inodes_count = 0 ∨ fs.sb.s_free_blocks_count < u32 (2 + extra_blk)
          ∨ parent_ino.i_extents_count = 512 then
        some (-ENOSPC, fs)
      else
        let c := create_inode fs mode now
        let child_ino_i := c.1
        let fs1 := set_inode c.2 child_ino_i { c.2.root_ino child_ino_i with links := 2 }
        let dentry := create_dentry child_ino_i new_dir
        let fs2 := add_dentry parent_ino_i dentry fs1 now
        some (0, { fs2 with sb := { fs2.sb with s_dir_count := u32 (fs2.sb.s_dir_count + 1) } })

/-- The function `a1fs_rmdir(path)`.  `none`: a lookup fails, so an inode number is never
assigned, or the last entry of the parent lies before the data region. -/
def a1fs_rmdir (path : List Nat) (fs : fs_ctx) (now : timespec) : Option (Int × fs_ctx) :=
  match get_parent_child_str_from_path path with
  | none => none
  | some (parent_path, new_dir) =>
    let lc := path_lookup path fs
    let lp := path_lookup parent_path fs
    if lc.1 ≠ 0 ∨ lp.1 ≠ 0 then none
    else
      let child_ino_i := lc.2
      let parent_ino_i := lp.2
      let child_ino := fs.root_ino child_ino_i
      if child_ino.size > 0 then some (-ENOTEMPTY, fs)
      else
        let child_dentry := create_dentry child_ino_i new_dir
        match rm_dentry parent_ino_i child_dentry fs now with
        | none => none
        | some fs1 => some (0, unset_bitmap 'i' child_ino_i 1 fs1)

/-- The function `a1fs_create(path, mode, fi)` when `malloc` succeeds.  `none`: the
assertion `S_ISREG(mode)` fails or the parent is not found. -/
def a1fs_create (path : List Nat) (mode : Nat) (fs : fs_ctx) (now : timespec) :
    Option (Int × fs_ctx) :=
  if ¬ S_ISREG mode then none
  else
    match get_parent_child_str_from_path path with
    | none => none
    | some (parent_path, new_file) =>
      let l := path_lookup parent_path fs
      if l.1 ≠ 0 then none
      else
        let parent_ino_i := l.2
        let parent_ino := fs.root_ino parent_ino_i
        let extra_blk := if parent_ino.size % A1FS_BLOCK_SIZE = 0 then 1 else 0
        if fs.sb.s_free_inodes_count = 0 ∨ fs.sb.s_free_blocks_count < extra_blk
            ∨ parent_ino.i_extents_count = 512 then
          some (-ENOSPC, fs)
        else
          let c := create_inode fs mode now
          let child_ino_i := c.1
          let fs1 := set_inode c.2 child_ino_i { c.2.root_ino child_ino_i with links := 1 }
          let child_dentry := create_dentry child_ino_i new_file
          some (0, add_dentry parent_ino_i child_dentry fs1 now)

/-- The function `a1fs_unlink(path)`.  `none` as for `a1fs_rmdir`. -/
def a1fs_unlink (path : List Nat) (fs : fs_ctx) (now : timespec) : Option (Int × fs_ctx) :=
  match get_parent_child_str_from_path path with
  | none => none
  | some (parent_path, file) =>
    let lc := path_lookup path fs
    if lc.1 ≠ 0 then none
    else
      let child_ino_i := lc.2
      let inode := fs.root_ino child_ino_i
      let fs1 := if inode.size ≠ 0 then delete_file_data child_ino_i fs else fs
      let fs2 := unset_bitmap 'i' child_ino_i 1 fs1
      let lp := path_lookup parent_path fs2
      if lp.1 ≠ 0 then none
      else
        let parent_ino_i := lp.2
        let child_dentry := create_dentry child_ino_i file
        (rm_dentry parent_ino_i child_dentry fs2 now).map (fun fs3 => (0, fs3))

/-- The assignment `clock_gettime(CLOCK_REALTIME, &(inode->mtime))`. -/
def touch (ino_i : Nat) (fs : fs_ctx) (now : timespec) : fs_ctx :=
  set_inode fs ino_i { fs.root_ino ino_i with mtime := now }

/-- The function `a1fs_truncate(path, size)` for `size >= 0`.  `none`: the path is not
found, or `extend_file` does not return. -/
def a1fs_truncate (fuel : Nat) (path : List Nat) (size : Nat) (fs : fs_ctx) (now : timespec) :
    Option (Int × fs_ctx) :=
  let l := path_lookup path fs
  if l.1 ≠ 0 then none
  else
    let ino_i := l.2
    let inode := fs.root_ino ino_i
    let orig_ino_size := u32 inode.size
    if u32 size > inode.size then
      let offset : Int := to_int ((size : Int) - inode.size)
      let last_fill : Int := ((inode.size % A1FS_BLOCK_SIZE : Nat) : Int)
      let vacant : Int := A1FS_BLOCK_SIZE - last_fill
      let deduct : Int := if last_fill ≠ 0 then vacant else 0
      let add_ex_blk : Int := if inode.size = 0 then 1 else 0
      if (offset > deduct ∧
            fs.sb.s_free_blocks_count
              < u32 (divide_ceil (u32 (offset - deduct)) A1FS_BLOCK_SIZE + add_ex_blk))
          ∨ inode.i_extents_count = 512 then
        some (-ENOSPC, fs)
      else
        match extend_file fuel (u32 offset) ino_i fs with
        | none => none
        | some (error, fs1) =>
          if error ≠ 0 then
            some (error,
              truncate_file ino_i fs1 (to_int (((fs1.root_ino ino_i).size : Int) - orig_ino_size)))
          else some (0, touch ino_i fs1 now)
    else
      let fs1 :=
        if u32 size < inode.size then
          if size = 0 then delete_file_data ino_i fs
          else truncate_file ino_i fs (to_int ((inode.size : Int) - size))
        else fs
      some (0, touch ino_i fs1 now)

/-- The function `a1fs_read(path, buf, size, offset, fi)` for `offset >= 0`: the return
value and the buffer afterwards.  `none`: the path is not found, `find_offset` does not
return, or the length of a `memcpy` / `memset` comes from a negative number. -/
def a1fs_read (fuel : Nat) (path : List Nat) (buf : Mem) (size offset : Nat) (fs : fs_ctx) :
    Option (Int × Mem) :=
  let l := path_lookup path fs
  if l.1 ≠ 0 then none
  else
    let ino_i := l.2
    let inode := fs.root_ino ino_i
    if inode.size = 0 then some (0, memset buf 0 0 1)
    else if u32 offset > inode.size then some (0, memset (memset buf 0 0 size) size 0 1)
    else
      match find_offset fuel ino_i fs (u32 offset) with
      | none => none
      | some start_pos =>
        if u64 (offset + size) ≤ inode.size then
          some (to_int size,
            memset (memcpy buf 0 (fun i => fs.data_blk (start_pos + i)) size) size 0 1)
        else
          let end_pos := find_last_blk ino_i fs
          let difference : Int := to_int ((end_pos : Int) - start_pos)
          if difference < 0 ∨ (size : Int) - difference < 0 then none
          else
            let buf1 := memcpy buf 0 (fun i => fs.data_blk (start_pos + i)) difference.toNat
            let buf2 := memset buf1 difference.toNat 0 (size - difference.toNat)
            some (difference, memset buf2 size 0 1)

/-- The function `a1fs_write(path, buf, size, offset, fi)` for `offset >= 0`, with `size`
the length of `buf`.  `none`: the path is not found, or `extend_file` or `find_offset`
does not return. -/
def a1fs_write (fuel : Nat) (path : List Nat) (buf : List Nat) (offset : Nat) (fs : fs_ctx)
    (now : timespec) : Option (Int × fs_ctx) :=
  let size := buf.length
  let l := path_lookup path fs
  if l.1 ≠ 0 then none
  else
    let ino_i := l.2
    let inode := fs.root_ino ino_i
    match extend_file fuel (u32 ((size : Int) + offset - inode.size)) ino_i fs with
    | none => none
    | some (error, fs1) =>
      if u64 (offset + size) > (fs1.root_ino ino_i).size ∧ error ≠ 0 then some (error, fs1)
      else
        match find_offset fuel ino_i fs1 (u32 offset) with
        | none => none
        | some start_pos =>
          let fs2 := { fs1 with data_blk := memcpy fs1.data_blk start_pos (buf_of buf) size }
          some (to_int size, touch ino_i fs2 now)

/-- The value of `A1FS_PATH_MAX`, that is `PATH_MAX` of `limits.h`. -/
def A1FS_PATH_MAX : Nat := 4096

/-- The fields of `struct stat` that `a1fs_getattr` fills. -/
structure stat where
  st_mode : Nat
  st_nlink : Nat
  st_size : Nat
  st_blocks : Nat
  st_mtim : timespec
deriving DecidableEq, Repr

/-- The function `a1fs_getattr(path, st)`: the return value and `*st` afterwards. -/
def a1fs_getattr (path : List Nat) (st : stat) (fs : fs_ctx) : Int × stat :=
  if path.length ≥ A1FS_PATH_MAX then (-ENAMETOOLONG, st)
  else
    let st0 : stat :=
      { st_mode := 0, st_nlink := 0, st_size := 0, st_blocks := 0,
        st_mtim := { tv_sec := 0, tv_nsec := 0 } }
    let l := path_lookup path fs
    if l.1 ≠ 0 then (l.1, st0)
    else
      let inode := fs.root_ino l.2
      (0, { st_mode := inode.mode, st_nlink := inode.links, st_size := inode.size,
            st_blocks := divide_ceil A1FS_BLOCK_SIZE 512, st_mtim := inode.mtime })

/-! ## What the specification says of `offset_to_address` -/

/-- The extent records of an inode, in the order of its extent list. -/
def inode_extents (fs : fs_ctx) (ino : Nat) : List a1fs_extent :=
  (List.range (fs.root_ino ino).i_extents_count).map
    (fun k => read_extent fs.data_blk (blk_addr (fs.root_ino ino).s_extent_block + sizeof_extent * k))

/-- The `k`-th block of a file in extent order: the start of the containing extent plus the
index of the block inside that extent. -/
def nth_block : List a1fs_extent → Nat → Option Nat
  | [], _ => none
  | e :: es, k => if k < e.count then some (e.start + k) else nth_block es (k - e.count)

/-- The address the specification gives for `offset`: `b * 4096 + offset mod 4096`, with
`b` the `(offset div 4096)`-th block of the file. -/
def offset_to_address_spec (fs : fs_ctx) (ino offset : Nat) : Option Nat :=
  (nth_block (inode_extents fs ino) (offset / A1FS_BLOCK_SIZE)).map
    (fun b => b * A1FS_BLOCK_SIZE + offset % A1FS_BLOCK_SIZE)

/-! ## Scenarios -/

/-- An image whose bytes are all 0. -/
def zero_image : Mem := fun _ => 0

/-- The time stamp used in the scenarios. -/
def epoch : timespec := { tv_sec := 0, tv_nsec := 0 }

/-- The state mounted from a zeroed image of `size` bytes formatted with `n_inodes`
inodes. -/
def fresh_fs (size n_inodes : Nat) : Option fs_ctx :=
  (mkfs zero_image size n_inodes epoch (fun _ => 0)).bind
    (fun r => if r.1 then some (fs_ctx_init r.2) else none)

/-- The path `/a`. -/
def path_a : List Nat := [47, 97]

/-- The path `/f`. -/
def path_f : List Nat := [47, 102]

/-- The mode of a regular file, octal 0100644. -/
def mode_file : Nat := 0o100644

/-- The state after `create /f` on a fresh 1 MiB image with 64 inodes. -/
def fs_with_f : Option fs_ctx :=
  (fresh_fs 1048576 64).bind (fun fs => (a1fs_create path_f mode_file fs epoch).map (fun r => r.2))

/-- The counters of the superblock that count free inodes and free blocks. -/
def free_counts (fs : fs_ctx) : Nat × Nat :=
  (fs.sb.s_free_inodes_count, fs.sb.s_free_blocks_count)

/-- What is read of an inode for the growth claims: size, extent count, extent-list
block. -/
def inode_shape (fs : fs_ctx) (ino : Nat) : Nat × Nat × Nat :=
  ((fs.root_ino ino).size, (fs.root_ino ino).i_extents_count, (fs.root_ino ino).s_extent_block)

/-- The state mounted from a zeroed image. -/
def zero_fs : fs_ctx := fs_ctx_init zero_image

/-- The test `(bitmap[i / 8] & (1 << (i % 8))) == 0`: bit `i` is clear. -/
def bit_clear (bitmap : Mem) (i : Nat) : Bool := bitmap (i / 8) &&& (1 <<< (i % 8)) = 0

/-- The number of clear bits among the bits `0 .. n - 1` of a bitmap. -/
def clear_count (bitmap : Mem) : Nat → Nat
  | 0 => 0
  | n + 1 => clear_count bitmap n + (if bit_clear bitmap n then 1 else 0)

/-- The free-inode count equals the number of clear bits among the tracked bits of the
inode bitmap, one bit for each of the `s_inodes_count` inodes. -/
def inodes_consistent (fs : fs_ctx) : Bool :=
  fs.sb.s_free_inodes_count = clear_count fs.inode_bitmap fs.sb.s_inodes_count

/-- The free-block count equals the number of clear bits among the tracked bits of the
block bitmap, one bit for each of the `num_data_blk` data blocks. -/
def blocks_consistent (fs : fs_ctx) : Bool :=
  fs.sb.s_free_blocks_count = clear_count fs.block_bitmap (num_data_blk fs)

/-- A run of `size` clear bits begins at bit `j` and lies within the first `n` bits. -/
def clear_run (bitmap : Mem) (n size j : Nat) : Prop :=
  j + size ≤ n ∧ ∀ t, t < size → bit_clear bitmap (j + t) = true

/-- The byte offsets of the entry slots `i .. i + k - 1` of the block at byte `base`. -/
def block_slots (base : Nat) : Nat → Nat → List Nat
  | 0, _ => []
  | k + 1, i => (base + sizeof_dentry * i) :: block_slots base k (i + 1)

/-- The byte offsets of the entry slots of the blocks `j .. j + k - 1` of an extent, block
after block. -/
def extent_slots (extent_start : Nat) : Nat → Nat → List Nat
  | 0, _ => []
  | k + 1, j =>
    block_slots (blk_addr (extent_start + j)) (A1FS_BLOCK_SIZE / 256) 0
      ++ extent_slots extent_start k (j + 1)

/-- The byte offsets of the entry slots of the extents `i .. i + k - 1` of the extent list
at byte `ext`, extent after extent. -/
def dir_slots (m : Mem) (ext : Nat) : Nat → Nat → List Nat
  | 0, _ => []
  | k + 1, i =>
    extent_slots (read_extent m (ext + sizeof_extent * i)).start
        (i32 (read_extent m (ext + sizeof_extent * i)).count).toNat 0
      ++ dir_slots m ext k (i + 1)

/-- The entries of a directory in listing order, as byte offsets into the data region: the
first `size / 256` slots of its extents. -/
def dir_entries (fs : fs_ctx) (ino : Nat) : List Nat :=
  (dir_slots fs.data_blk (blk_addr (fs.root_ino ino).s_extent_block)
    (fs.root_ino ino).i_extents_count 0).take ((fs.root_ino ino).size / sizeof_dentry)

/-- The records (inode number, name) of a directory in listing order. -/
def dir_listing (fs : fs_ctx) (ino : Nat) : List a1fs_dentry :=
  (dir_entries fs ino).map (read_dentry fs.data_blk)

/-- The inode is a directory as `find_inode_from_dir` tests it: `mode & S_IFDIR`. -/
def is_dir (fs : fs_ctx) (ino : Nat) : Bool := (fs.root_ino ino).mode &&& S_IFDIR ≠ 0

/-! ## Sequences of calls -/

/-- A call of one of the operations that change the image. -/
inductive fs_op where
  | mkdir (path : List Nat)
  | rmdir (path : List Nat)
  | create (path : List Nat)
  | unlink (path : List Nat)
  | resize (path : List Nat) (size : Nat)
  | write (path : List Nat) (buf : List Nat) (offset : Nat)

/-- The effect of one call; directories are made with mode 0755 and files with mode
0100644, loops get the fuel 600, and the clock stands at `epoch`. -/
def apply_op (fs : fs_ctx) : fs_op → Option (Int × fs_ctx)
  | fs_op.mkdir path => a1fs_mkdir path 0o755 fs epoch
  | fs_op.rmdir path => a1fs_rmdir path fs epoch
  | fs_op.create path => a1fs_create path mode_file fs epoch
  | fs_op.unlink path => a1fs_unlink path fs epoch
  | fs_op.resize path size => a1fs_truncate 600 path size fs epoch
  | fs_op.write path buf offset => a1fs_write 600 path buf offset fs epoch

/-- The calls of a list one after the other: the return values, first call first, and the
state at the end.  `none`: one of the calls does not return. -/
def run_ops : List fs_op → fs_ctx → Option (List Int × fs_ctx)
  | [], fs => some ([], fs)
  | op :: ops, fs =>
    match apply_op fs op with
    | none => none
    | some r =>
      match run_ops ops r.2 with
      | none => none
      | some q => some (r.1 :: q.1, q.2)

/-- The calls of a list on a zeroed image of `size` bytes formatted with `n_inodes`
inodes. -/
def run_fresh (size n_inodes : Nat) (ops : List fs_op) : Option (List Int × fs_ctx) :=
  (fresh_fs size n_inodes).bind (run_ops ops)

/-- The path of entry `i` of a directory path `dir` (empty for the root): a name of two
letters. -/
def entry_path (dir : List Nat) (i : Nat) : List Nat := dir ++ [47, 97 + i / 16, 97 + i % 16]

/-- The path `/d`. -/
def path_d : List Nat := [47, 100]

/-- The path `/g`. -/
def path_g : List Nat := [47, 103]

/-- The path `/q`. -/
def path_q : List Nat := [47, 113]

/-- The path `/r`. -/
def path_r : List Nat := [47, 114]

/-- Sixteen `mkdir` calls in the root, then `mkdir /q`, `rmdir /q`, `mkdir /r`. -/
def ops_refill_root : List fs_op :=
  (List.range 16).map (fun i => fs_op.mkdir (entry_path [] i))
    ++ [fs_op.mkdir path_q, fs_op.rmdir path_q, fs_op.mkdir path_r]

/-- The calls that bring the directory `/d` to 32 entries in the blocks 7 and 5, with its
extent list in block 6: a file `/f` of three blocks, `/d` with a first entry, a file `/g`
of one byte, `/f` cut to two blocks, and 31 more entries in `/d`. -/
def ops_fill_d : List fs_op :=
  [fs_op.create path_f, fs_op.resize path_f 12288, fs_op.mkdir path_d,
    fs_op.create (entry_path path_d 0), fs_op.create path_g, fs_op.write path_g [1] 0,
    fs_op.resize path_f 8192]
    ++ (List.range 31).map (fun i => fs_op.create (entry_path path_d (i + 1)))

/-- The calls that leave a hole of one block at block 4: `/f` of two blocks, `/g` of one
byte, `/f` cut to one block. -/
def ops_hole : List fs_op :=
  [fs_op.create path_f, fs_op.resize path_f 8192, fs_op.create path_g,
    fs_op.write path_g [1] 0, fs_op.resize path_f 4096]

/-- The path `/a/b`. -/
def path_ab : List Nat := [47, 97, 47, 98]

/-- The path `/a/b/c`. -/
def path_abc : List Nat := [47, 97, 47, 98, 47, 99]

/-- The path `/f/c`. -/
def path_fc : List Nat := [47, 102, 47, 99]

/-- The path `/d/y`. -/
def path_dy : List Nat := [47, 100, 47, 121]

/-- A path of one component of 252 letters `a`, 253 bytes in all. -/
def path_long_name : List Nat := 47 :: List.replicate 252 97

/-- The state after the calls `ops_hole` on a fresh 1 MiB image with 64 inodes: of the 251
data blocks, block 4 and the blocks from 7 on are free. -/
def hole_fs : fs_ctx := ((run_fresh 1048576 64 ops_hole).map (fun r => r.2)).getD zero_fs

/-- The state after `mkdir /a`, `mkdir /a/b`, `create /f` on a fresh 1 MiB image with 64
inodes. -/
def tree_fs : fs_ctx :=
  ((run_fresh 1048576 64 [fs_op.mkdir path_a, fs_op.mkdir path_ab, fs_op.create path_f]).map
    (fun r => r.2)).getD zero_fs

/-- What is read of a directory: size, extent count and extent-list block; the starts of
its extents; their counts; the inode numbers of its entries in listing order. -/
def dir_summary (fs : fs_ctx) (ino : Nat) : List (List Nat) :=
  [[(fs.root_ino ino).size, (fs.root_ino ino).i_extents_count, (fs.root_ino ino).s_extent_block],
    (inode_extents fs ino).map (fun e => e.start), (inode_extents fs ino).map (fun e => e.count),
    (dir_listing fs ino).map (fun d => d.ino)]

/-- A `struct stat` of zeros. -/
def zero_stat : stat :=
  { st_mode := 0, st_nlink := 0, st_size := 0, st_blocks := 0, st_mtim := epoch }

/-! ## Scenarios of entry removal, reads and resizes -/

/-- Sixteen `mkdir` calls in the root: `/aa`, `/ab`, ..., `/ap`. -/
def ops_sixteen : List fs_op := (List.range 16).map (fun i => fs_op.mkdir (entry_path [] i))

/-- The records (inode number, name) of a directory in listing order, as pairs. -/
def listing_records (fs : fs_ctx) (ino : Nat) : List (Nat × List Nat) :=
  (dir_listing fs ino).map (fun d => (d.ino, d.name))

/-- The sum of the block counts of the extents of an inode. -/
def extent_blocks (fs : fs_ctx) (ino : Nat) : Nat :=
  ((inode_extents fs ino).map (fun e => e.count)).sum

/-- The number of blocks that hold `size` bytes: `size / 4096` rounded up. -/
def blocks_of_size (size : Nat) : Nat := (size + A1FS_BLOCK_SIZE - 1) / A1FS_BLOCK_SIZE

/-- The path `/a/x`. -/
def path_ax : List Nat := [47, 97, 47, 120]

/-- The path `/h`. -/
def path_h : List Nat := [47, 104]

/-- The state after `mkdir /a`, `create /a/x` on a fresh 1 MiB image with 64 inodes. -/
def dir_with_entry_fs : fs_ctx :=
  ((run_fresh 1048576 64 [fs_op.mkdir path_a, fs_op.create path_ax]).map
    (fun r => r.2)).getD zero_fs

/-- The state after `mkdir /a`, `create /a/x`, `unlink /a/x` on a fresh 1 MiB image with 64
inodes. -/
def dir_emptied_fs : fs_ctx :=
  ((run_fresh 1048576 64 [fs_op.mkdir path_a, fs_op.create path_ax, fs_op.unlink path_ax]).map
    (fun r => r.2)).getD zero_fs

/-- Ten bytes of data, 1 to 10. -/
def ten_bytes : List Nat := [1, 2, 3, 4, 5, 6, 7, 8, 9, 10]

/-- A caller buffer whose bytes are all 255. -/
def filled_buf : Mem := fun _ => 255

/-- The calls that leave the blocks 4, 5 and the blocks from 8 on free, 245 blocks in all,
with an empty file `/h`: `/f` of three blocks, `/g` of one byte, `/f` cut to one block,
`create /h`. -/
def ops_two_holes : List fs_op :=
  [fs_op.create path_f, fs_op.resize path_f 12288, fs_op.create path_g,
    fs_op.write path_g [1] 0, fs_op.resize path_f 4096, fs_op.create path_h]

/-- The first `n` bits of a bitmap, a 1 for a set bit. -/
def bitmap_bits (bitmap : Mem) (n : Nat) : List Nat :=
  (List.range n).map (fun i => if bit_set bitmap i then 1 else 0)

/-! ## The loop of `populate_extent_blk`, with the way it is left -/

/-- How a run of a loop ends: the function returns, a `memset` is handed a length that
comes from a negative number, or the iterations allowed were not enough. -/
inductive loop_end where
  | returned (r : Int × fs_ctx)
  | faulted
  | unfinished

/-- The loop of `populate_extent_blk` as in `populate_loop`, with at most `fuel`
iterations, telling a `memset` that cannot return from iterations that were not enough. -/
def populate_run (ino_i : Nat) : Nat → Nat → Nat → fs_ctx → loop_end
  | 0, _, _, _ => loop_end.unfinished
  | fuel + 1, num_db_needed, size_remain, fs =>
    if num_db_needed ≠ 0 then
      let r := search_blk_bitmap num_db_needed fs
      let extent := r.1
      let w := write_extent ino_i extent r.2
      if w.1 = -1 then loop_end.returned (-ENOSPC, w.2)
      else
        let num_db_needed1 := u32 ((num_db_needed : Int) - extent.count)
        if size_remain > u32 (extent.count * A1FS_BLOCK_SIZE) then
          match write_zero_to_blk ino_i extent.start 0 (i32 (u32 (extent.count * A1FS_BLOCK_SIZE)))
              w.2 with
          | none => loop_end.faulted
          | some fs1 =>
            populate_run ino_i fuel num_db_needed1
              (u32 ((size_remain : Int) - u32 (extent.count * A1FS_BLOCK_SIZE))) fs1
        else
          match write_zero_to_blk ino_i extent.start 0 (i32 size_remain) w.2 with
          | none => loop_end.faulted
          | some fs1 => loop_end.returned (0, fs1)
    else loop_end.returned (0, fs)

/-- What `populate_loop` gives for a run that ends in the given way. -/
def loop_end.result : loop_end → Option (Int × fs_ctx)
  | loop_end.returned r => some r
  | loop_end.faulted => none
  | loop_end.unfinished => none

/-- The number of iterations after which the extent count `c` of an inode has reached 512,
when each iteration stores `c + 1` as a `uint32_t`. -/
def extent_count_distance (c : Nat) : Nat :=
  if c ≤ 512 then 512 - c else if c < 4294967296 then 4294967296 + 512 - c else 4294967296

/-! ## Scenarios of full images, link counts and block ownership -/

/-- The calls that leave one free block and the empty directory `/a`: `mkdir /a`,
`create /f`, `/f` resized to 247 blocks. -/
def ops_one_free_block : List fs_op :=
  [fs_op.mkdir path_a, fs_op.create path_f, fs_op.resize path_f 1011712]

/-- The number of entries of a directory that are directories. -/
def subdir_count (fs : fs_ctx) (ino : Nat) : Nat :=
  ((dir_listing fs ino).filter (fun d => is_dir fs d.ino)).length

/-- The number of inodes in use that are directories. -/
def dir_total (fs : fs_ctx) : Nat :=
  ((List.range fs.sb.s_inodes_count).filter
    (fun i => bit_set fs.inode_bitmap i && is_dir fs i)).length

/-- The blocks an inode with data owns: its extent-list block, then the blocks of its
extents in extent order. -/
def owned_blocks (fs : fs_ctx) (ino : Nat) : List Nat :=
  if (fs.root_ino ino).size = 0 then []
  else
    (fs.root_ino ino).s_extent_block
      :: (inode_extents fs ino).flatMap (fun e => List.range' e.start e.count)

/-- The calls that put the extent-list block of `/g` behind the one data block of `/f` and
then grow `/f` by one byte: `/f` of 4096 bytes, `/g` of one byte, `/f` resized to 4097. -/
def ops_grow_into_neighbour : List fs_op :=
  [fs_op.create path_f, fs_op.resize path_f 4096, fs_op.create path_g,
    fs_op.write path_g [1] 0, fs_op.resize path_f 4097]

/-! ## The cap of the extent count along a run of calls -/

end A1fs

/-! ## The page replacement simulator (src/A3/part2) -/

namespace A3

/-- Modelled from the spec: `pagetable.h` is not among the sources.  The reference bit
`PAGE_REF` of the word `frame` of a page table entry, taken as the bit 0x4. -/
def PAGE_REF : Nat := 4

/-- Modelled from the spec: `pagetable.h` is not among the sources.  The shift
`PAGE_SHIFT` that takes the word `frame` of a page table entry to the frame number, taken
as 12. -/
def PAGE_SHIFT : Nat := 12

/-- Modelled from the spec: `sim.h` is not among the sources.  What `clock.c` reaches of
the simulator: `coremap i` is the word `coremap[i].pte->frame`, an `unsigned int`, each
frame with a page table entry of its own, and `clk_hand` the global of `clock.c`. -/
structure clock_state where
  coremap : Nat → Nat
  clk_hand : Nat

/-- The test `coremap[i].pte->frame & PAGE_REF` of frame `i`. -/
def ref_set (coremap : Nat → Nat) (i : Nat) : Bool := coremap i &&& PAGE_REF ≠ 0

/-- The assignment `frame &= ~PAGE_REF` on an `unsigned int`. -/
def clear_ref (frame : Nat) : Nat := frame &&& (4294967295 ^^^ PAGE_REF)

/-- The `while` loop of `clock_evict` with at most `fuel` evaluations of its test.
`none`: they were not enough. -/
def clock_loop (memsize : Nat) : Nat → clock_state → Option clock_state
  | 0, _ => none
  | fuel + 1, s =>
    if s.coremap s.clk_hand &&& PAGE_REF ≠ 0 then
      clock_loop memsize fuel
        { coremap := fun i => if i = s.clk_hand then clear_ref (s.coremap i) else s.coremap i
          clk_hand := (s.clk_hand + 1) % memsize }
    else some s

/-- The function `clock_evict()`: the return value and the state. -/
def clock_evict (fuel memsize : Nat) (s : clock_state) : Option (Nat × clock_state) :=
  (clock_loop memsize fuel s).map
    (fun s1 => (s1.clk_hand, { s1 with clk_hand := (s1.clk_hand + 1) % memsize }))

/-- The function `clock_ref(pte)` for the entry of frame `i`. -/
def clock_ref (i : Nat) (s : clock_state) : clock_state :=
  { s with coremap := fun j => if j = i then s.coremap j ||| PAGE_REF else s.coremap j }

/-- The function `clock_init()`. -/
def clock_init (s : clock_state) : clock_state := { s with clk_hand := 0 }

/-- A `list_entry` of list.h; a pointer to an entry is the index of the entry in
`lst_entries`, `none` for `NULL`. -/
structure list_entry where
  frame : Int
  next : Option Nat
  prev : Option Nat
deriving DecidableEq, Repr

/-- The list of lru.c: the `head` and `tail` of `linked_list` and the array
`lst_entries`; `coremap[i].lst_entry_ptr` points to `lst_entries[i]` from `lru_init` on. -/
structure lru_state where
  head : Option Nat
  tail : Option Nat
  lst_entries : Nat → list_entry

/-- An assignment to the entry `i` of `lst_entries`. -/
def set_entry (s : lru_state) (i : Nat) (e : list_entry) : lru_state :=
  { s with lst_entries := fun j => if j = i then e else s.lst_entries j }

/-- The function `list_entry_init(entry)`: the value stored. -/
def list_entry_init : list_entry := { frame := -1, next := none, prev := none }

/-- The function `list_add_head(linked_list, entry)`. -/
def list_add_head (s : lru_state) (entry : Nat) : lru_state :=
  match s.head with
  | none =>
    let s1 := { s with head := some entry, tail := some entry }
    let s2 := set_entry s1 entry { s1.lst_entries entry with prev := none }
    set_entry s2 entry { s2.lst_entries entry with next := none }
  | some hd =>
    let s1 := set_entry s entry { s.lst_entries entry with next := some hd }
    let s2 := set_entry s1 hd { s1.lst_entries hd with prev := some entry }
    let s3 := { s2 with head := some entry }
    set_entry s3 entry { s3.lst_entries entry with prev := none }

/-- The function `list_del(linked_list, entry)`. -/
def list_del (s : lru_state) (entry : Nat) : lru_state :=
  let e := s.lst_entries entry
  let s1 :=
    if e.frame ≠ -1 then
      match e.prev, e.next with
      | none, none => { s with head := none, tail := none }
      | none, some nx =>
        let s2 := { s with head := some nx }
        set_entry s2 nx { s2.lst_entries nx with prev := none }
      | some pv, none =>
        let s2 := { s with tail := some pv }
        set_entry s2 pv { s2.lst_entries pv with next := none }
      | some pv, some nx =>
        let s2 := set_entry s nx { s.lst_entries nx with prev := some pv }
        set_entry s2 pv { s2.lst_entries pv with next := (s2.lst_entries entry).next }
    else s
  set_entry s1 entry { s1.lst_entries entry with frame := -1 }

/-- The function `lru_evict()`: the return value and the state.  `none`: the list is
empty, `linked_list->tail` is `NULL`. -/
def lru_evict (s : lru_state) : Option (Int × lru_state) :=
  match s.tail with
  | none => none
  | some tl => some ((s.lst_entries tl).frame, list_del s tl)

/-- The function `lru_ref(pte)` for an entry whose word `frame` is `pte_frame`.  `none`:
the frame number is not below `memsize`, the size of `coremap` and `lst_entries`. -/
def lru_ref (memsize pte_frame : Nat) (s : lru_state) : Option lru_state :=
  let frame_idx := pte_frame >>> PAGE_SHIFT
  if memsize ≤ frame_idx then none
  else
    let s1 := list_del s frame_idx
    let s2 := set_entry s1 frame_idx { s1.lst_entries frame_idx with frame := frame_idx }
    some (list_add_head s2 frame_idx)

/-- The function `lru_init()`: an empty list and entries that are in no list. -/
def lru_init : lru_state := { head := none, tail := none, lst_entries := fun _ => list_entry_init }

/-- A call of `lru_ref`, with the word `frame` of the entry, or of `lru_evict`. -/
inductive lru_call where
  | ref (pte_frame : Nat)
  | evict
deriving DecidableEq, Repr

/-- The calls of a list one after the other: the values returned by the `lru_evict`
calls, first call first, and the state at the end.  `none`: a call cannot be made. -/
def run_lru (memsize : Nat) : List lru_call → lru_state → Option (List Int × lru_state)
  | [], s => some ([], s)
  | lru_call.ref p :: calls, s =>
    match lru_ref memsize p s with
    | none => none
    | some s1 => run_lru memsize calls s1
  | lru_call.evict :: calls, s =>
    match lru_evict s with
    | none => none
    | some r =>
      match run_lru memsize calls r.2 with
      | none => none
      | some q => some (r.1 :: q.1, q.2)

/-- The walk over the list from an entry along the `next` pointers, at most `fuel`
entries: the fields `frame` met. -/
def list_walk (lst_entries : Nat → list_entry) : Nat → Option Nat → List Int
  | 0, _ => []
  | _ + 1, none => []
  | fuel + 1, some e => (lst_entries e).frame :: list_walk lst_entries fuel (lst_entries e).next

/-- The walk over the list from an entry along the `prev` pointers, at most `fuel`
entries: the fields `frame` met. -/
def list_walk_back (lst_entries : Nat → list_entry) : Nat → Option Nat → List Int
  | 0, _ => []
  | _ + 1, none => []
  | fuel + 1, some e =>
    (lst_entries e).frame :: list_walk_back lst_entries fuel (lst_entries e).prev

/-! ## What the specification says of the list of referenced frames -/

/-- The frames in the order of their last reference, last referenced first, after a list
of calls that began with the frames `l`, and the frames taken out by the `lru_evict`
calls: a reference moves its frame to the front, and `lru_evict` takes out the frame at
the end, whose last reference is the oldest.  `none`: `lru_evict` is called when no frame
is left. -/
def recency_spec : List lru_call → List Nat → Option (List Nat × List Nat)
  | [], l => some ([], l)
  | lru_call.ref p :: calls, l =>
    recency_spec calls ((p >>> PAGE_SHIFT) :: l.filter (fun f => f ≠ p >>> PAGE_SHIFT))
  | lru_call.evict :: calls, l =>
    match l.getLast? with
    | none => none
    | some f =>
      match recency_spec calls l.dropLast with
      | none => none
      | some q => some (f :: q.1, q.2)

/-- The frames a list of calls refers to are below `memsize`. -/
def refs_below (memsize : Nat) (calls : List lru_call) : Prop :=
  ∀ p, lru_call.ref p ∈ calls → p >>> PAGE_SHIFT < memsize

/-! ## The list that the entries of `lst_entries` form -/

/-- The entries `l`, in this order, are linked to each other: the `prev` of the first is
`p`, the `next` of the last is `n`, and in between each entry points to its neighbours. -/
def linked (e : Nat → list_entry) : Option Nat → List Nat → Option Nat → Prop
  | _, [], _ => True
  | p, a :: r, n => (e a).prev = p ∧ (e a).next = r.head?.or n ∧ linked e (some a) r n

/-- The state holds the list of the frames `l`, each once: the entries of `l` are linked
from `head` to `tail`, with `frame` the number of the entry, and every other entry has the
`frame` -1. -/
def lru_repr (s : lru_state) (l : List Nat) : Prop :=
  l.Nodup ∧ (∀ i, (s.lst_entries i).frame = if i ∈ l then (i : Int) else -1) ∧
    s.head = l.head? ∧ s.tail = l.getLast? ∧ linked s.lst_entries none l none

/-! ## Scenarios of the simulator -/

/-- References to the frames 1, 2, 1, a call of `lru_evict`, a reference to frame 3. -/
def lru_example_calls : List lru_call :=
  [lru_call.ref 4096, lru_call.ref 8192, lru_call.ref 4100, lru_call.evict, lru_call.ref 12288]

/-- Three frames with the hand at frame 1: the reference bit is set in the frames 1 and 2
and clear in frame 0. -/
def clock_example : clock_state :=
  { coremap := fun i => if i = 0 then 1 else if i = 1 then 5 else 4, clk_hand := 1 }

end A3

namespace A1fs

/-! ## Loads and stores -/

/-- A 1 MiB image formatted with 64 inodes, whatever it held before: the superblock has the
magic constant, 63 free inodes and 251 free blocks, the regions start at blocks 2, 3, 4 and
5, byte 0 of the inode bitmap is 1 and byte 0 of the block bitmap is 0, and the root inode
is a directory with mode 0777, 2 links, size 0 and no extents. -/
theorem mkfs_one_mib_image (image : Mem) (now : timespec) (pad : Nat → Nat) :
    (mkfs image 1048576 64 now pad).map
        (fun r => (r.1, read_superblock r.2 A1FS_BLOCK_SIZE, r.2 (2 * A1FS_BLOCK_SIZE),
          r.2 (3 * A1FS_BLOCK_SIZE),
          [(read_inode r.2 (4 * A1FS_BLOCK_SIZE)).mode, (read_inode r.2 (4 * A1FS_BLOCK_SIZE)).links,
            (read_inode r.2 (4 * A1FS_BLOCK_SIZE)).size,
            (read_inode r.2 (4 * A1FS_BLOCK_SIZE)).i_extents_count])) =
      some (true,
        { magic := A1FS_MAGIC, size := 1048576, s_inodes_count := 64, s_blocks_count := 255,
          s_inode_bitmap := 2, s_block_bitmap := 3, s_first_inode_block := 4,
          s_first_data_block := 5, s_dir_count := 1, s_free_blocks_count := 251,
          s_free_inodes_count := 63 },
        1, 0, [S_IFDIR ||| 0o777, 2, 0, 0]) := by
  simp [mkfs, pos_ceil, u64, u32, i32, A1FS_BLOCK_SIZE, sizeof_inode, sizeof_superblock, memcpy,
    memset, inode_bytes, byte_of, S_IFDIR, read_superblock, read_inode, read64, read32,
    superblock_bytes, A1FS_MAGIC]

/-! ## The claims -/

/-- C1 (the code differs).  On a fresh zeroed 1 MiB image with 64 inodes: `create /f`,
write the 8 bytes 3 0 0 0 5 0 0 0 at offset 128, write the 8 bytes 9 0 0 0 9 0 0 0 at
offset 8320 (inside block 2 of the file).  All three calls succeed, and the read of 8 bytes
at offset 8320 that follows returns 8 and eight zero bytes, not the bytes written:
`find_offset` walks the extent list in steps of 64, 128, ... bytes, takes bytes 128..135 of
the first data block for an extent record, and the write lands on that record. -/
theorem write_then_read_returns_other_bytes :
    (fs_with_f.bind fun fs =>
      (a1fs_write 16 path_f [3, 0, 0, 0, 5, 0, 0, 0] 128 fs epoch).bind fun r1 =>
      (a1fs_write 16 path_f [9, 0, 0, 0, 9, 0, 0, 0] 8320 r1.2 epoch).bind fun r2 =>
      (a1fs_read 16 path_f (fun _ => 255) 8 8320 r2.2).map fun q =>
        (r1.1, r2.1, q.1, read_bytes q.2 0 8))
      = some (8, 8, 8, [0, 0, 0, 0, 0, 0, 0, 0]) := by decide!

/-- C2 (the code differs).  After `create /f` and a resize to 8192 bytes on a fresh image
the file has the single extent (start 3, count 2).  For offset 4096 the specification
gives the address of block 4, 16384; `find_offset` returns 12288, the start of block 3:
it adds the offset inside the block to the start of the extent and leaves out the index of
the block inside the extent. -/
theorem find_offset_ignores_block_index :
    (fs_with_f.bind fun fs =>
      (a1fs_truncate 16 path_f 8192 fs epoch).map fun r =>
        (r.1, inode_extents r.2 1, (r.2.root_ino 1).size, find_offset 16 1 r.2 4096,
          offset_to_address_spec r.2 1 4096))
      = some (0, [{ start := 3, count := 2 }], 8192, some 12288, some 16384) := by decide!

/-- C3 (the code differs).  On a fresh 1 MiB image formatted with 4 inodes (3 free inodes,
251 free blocks) `mkdir /a` returns 0 and `rmdir /a` then returns `-ENOTEMPTY`; the
free-block count is 249 afterwards.  `search_inode_bitmap` scans `s_inodes_count / 8` bytes,
none here, and returns inode 0, so the new directory is the root itself. -/
theorem mkdir_rmdir_four_inodes :
    ((fresh_fs 1048576 4).bind fun fs =>
      (a1fs_mkdir path_a 0o755 fs epoch).bind fun r1 =>
      (a1fs_rmdir path_a r1.2 epoch).map fun r2 =>
        (free_counts fs, r1.1, r2.1, free_counts r2.2))
      = some ((3, 251), 0, -39, (3, 249)) := by decide!

/-- C4 (the code differs).  On a fresh 1 MiB image with 64 inodes the calls `create /f`,
resize to 4096, resize to 4106, `unlink /f` all return 0; the free-block count is 251
before and 242 after.  The second resize passes the number of bytes, 10, to
`search_blk_bitmap_at_idx` as the number of blocks. -/
theorem create_resize_unlink_leaks_blocks :
    ((fresh_fs 1048576 64).bind fun fs =>
      (a1fs_create path_f mode_file fs epoch).bind fun r1 =>
      (a1fs_truncate 16 path_f 4096 r1.2 epoch).bind fun r2 =>
      (a1fs_truncate 16 path_f 4106 r2.2 epoch).bind fun r3 =>
      (a1fs_unlink path_f r3.2 epoch).map fun r4 =>
        ([r1.1, r2.1, r3.1, r4.1], free_counts fs, free_counts r4.2))
      = some ([0, 0, 0, 0], (63, 251), (63, 242)) := by decide!

/-- C5 (the code differs).  A file of 10 bytes is resized to 4106 bytes and back to 10.
Both calls return 0 and the size is 10 again, but the free-block count goes from 247 to
238: the extension takes 10 off the count for one new block, the truncation gives 1
back. -/
theorem extend_truncate_back_leaks_blocks :
    (fs_with_f.bind fun fs =>
      (a1fs_write 16 path_f [1, 2, 3, 4, 5, 6, 7, 8, 9, 10] 0 fs epoch).bind fun r1 =>
      (a1fs_truncate 16 path_f 4106 r1.2 epoch).bind fun r2 =>
      (a1fs_truncate 16 path_f 10 r2.2 epoch).map fun r3 =>
        ([r1.1, r2.1, r3.1],
          [(r1.2.root_ino 1).size, (r2.2.root_ino 1).size, (r3.2.root_ino 1).size],
          r1.2.sb.s_free_blocks_count, r3.2.sb.s_free_blocks_count))
      = some ([10, 0, 0], [10, 4106, 10], 247, 238) := by decide!

/-- C6 (the code differs).  On a fresh 32 KiB image with 64 inodes (3 data blocks), after
`create /f` one block is free.  A write of one byte to the empty file returns `-ENOSPC`;
before the call the inode has size 0, extent count 0, extent-list block 0 and the
free-block count is 1, after it the extent count is 512, the extent-list block is 2 and
the free-block count is 0.  `a1fs_write` returns the error of `extend_file` without
undoing anything. -/
theorem failed_write_keeps_partial_growth :
    ((fresh_fs 32768 64).bind fun fs =>
      (a1fs_create path_f mode_file fs epoch).bind fun r1 =>
      (a1fs_write 600 path_f [1] 0 r1.2 epoch).map fun r2 =>
        (r2.1, [inode_shape r1.2 1, inode_shape r2.2 1],
          [r1.2.sb.s_free_blocks_count, r2.2.sb.s_free_blocks_count]))
      = some (-28, [(0, 0, 0), (0, 512, 2)], [1, 0]) := by decide!

/-- C8 (the code differs).  `mkfs` succeeds on an image of 16384 bytes (4 blocks) with 64
inodes, whatever the image held before.  The superblock places the inode bitmap, the block
bitmap and the inode table all at block 2, so the root inode is stored over the bitmaps:
bit 1 of the inode bitmap is set, and bit 0 of the block bitmap is set while the
free-block count is 1, the number of data blocks. -/
theorem mkfs_small_image_bitmaps_overwritten (image : Mem) (now : timespec) (pad : Nat → Nat) :
    (mkfs image 16384 64 now pad).map
        (fun r => (r.1, read_superblock r.2 A1FS_BLOCK_SIZE,
          image_bit r.2 (2 * A1FS_BLOCK_SIZE) 1, image_bit r.2 (2 * A1FS_BLOCK_SIZE) 0)) =
      some (true,
        { magic := A1FS_MAGIC, size := 16384, s_inodes_count := 64, s_blocks_count := 3,
          s_inode_bitmap := 2, s_block_bitmap := 2, s_first_inode_block := 2,
          s_first_data_block := 3, s_dir_count := 1, s_free_blocks_count := 1,
          s_free_inodes_count := 63 },
        true, true) := by
  simp [mkfs, pos_ceil, u64, u32, i32, A1FS_BLOCK_SIZE, sizeof_inode, sizeof_superblock, memcpy,
    memset, inode_bytes, byte_of, S_IFDIR, read_superblock, read64, read32, superblock_bytes,
    A1FS_MAGIC, image_bit]
  decide

/-- C9 (the code differs).  For 32769 inodes the inode bitmap needs 2 blocks, blocks 2 and
3; on a 4 MiB image `mkfs` puts the block bitmap at block 3, the inode table at block 4 and
the first data block at 517, where the layout of the specification has 4, 5 and 518.  For
64 inodes on a 256 MiB image the inode bitmap needs 1 block and `mkfs` puts the block
bitmap at block 4, not 3.  `s_block_bitmap` is `2 + num_blk_bitmap`: the size of the block
bitmap stands where the size of the inode bitmap belongs. -/
theorem mkfs_block_bitmap_position (image : Mem) (now : timespec) (pad : Nat → Nat) :
    pos_ceil 32769 (8 * A1FS_BLOCK_SIZE) = 2 ∧
    (mkfs image 4194304 32769 now pad).map
        (fun r => (r.1, read_superblock r.2 A1FS_BLOCK_SIZE)) =
      some (true,
        { magic := A1FS_MAGIC, size := 4194304, s_inodes_count := 32769, s_blocks_count := 1023,
          s_inode_bitmap := 2, s_block_bitmap := 3, s_first_inode_block := 4,
          s_first_data_block := 517, s_dir_count := 1, s_free_blocks_count := 507,
          s_free_inodes_count := 32768 }) ∧
    pos_ceil 64 (8 * A1FS_BLOCK_SIZE) = 1 ∧
    (mkfs image 268435456 64 now pad).map
        (fun r => (r.1, read_superblock r.2 A1FS_BLOCK_SIZE)) =
      some (true,
        { magic := A1FS_MAGIC, size := 268435456, s_inodes_count := 64, s_blocks_count := 65535,
          s_inode_bitmap := 2, s_block_bitmap := 4, s_first_inode_block := 6,
          s_first_data_block := 7, s_dir_count := 1, s_free_blocks_count := 65529,
          s_free_inodes_count := 63 }) := by
  refine ⟨by decide, ?_, by decide, ?_⟩
  · simp [mkfs, pos_ceil, u64, u32, i32, A1FS_BLOCK_SIZE, sizeof_inode, sizeof_superblock, memcpy,
      memset, inode_bytes, byte_of, S_IFDIR, read_superblock, read64, read32, superblock_bytes,
      A1FS_MAGIC]
  · simp [mkfs, pos_ceil, u64, u32, i32, A1FS_BLOCK_SIZE, sizeof_inode, sizeof_superblock, memcpy,
      memset, inode_bytes, byte_of, S_IFDIR, read_superblock, read64, read32, superblock_bytes,
      A1FS_MAGIC]

/-- C10 (the code differs).  An image of 12288 bytes has 3 blocks; 64 inodes need the
reserved block, the superblock, 1 block of inode bitmap and 1 block of inode table, 4 blocks
before any block bitmap.  `mkfs` returns true all the same, with every store inside the
image: it compares the size in bytes with the number of blocks,
`size < (size_t)min_num_blks`.  The inode bitmap, the block bitmap and the inode table are
all placed at block 2, the last block of the image. -/
theorem mkfs_accepts_three_block_image (image : Mem) (now : timespec) (pad : Nat → Nat) :
    12288 / A1FS_BLOCK_SIZE = 3 ∧
    2 + pos_ceil 64 (8 * A1FS_BLOCK_SIZE) + pos_ceil (64 * sizeof_inode) A1FS_BLOCK_SIZE = 4 ∧
    (mkfs image 12288 64 now pad).map (fun r => (r.1, read_superblock r.2 A1FS_BLOCK_SIZE)) =
      some (true,
        { magic := A1FS_MAGIC, size := 12288, s_inodes_count := 64, s_blocks_count := 2,
          s_inode_bitmap := 2, s_block_bitmap := 2, s_first_inode_block := 2,
          s_first_data_block := 3, s_dir_count := 1, s_free_blocks_count := 0,
          s_free_inodes_count := 63 }) := by
  refine ⟨by decide, by decide, ?_⟩
  simp [mkfs, pos_ceil, u64, u32, i32, A1FS_BLOCK_SIZE, sizeof_inode, sizeof_superblock, memcpy,
    memset, inode_bytes, byte_of, S_IFDIR, read_superblock, read64, read32, superblock_bytes,
    A1FS_MAGIC]

/-! ## The allocators and the path resolver -/

theorem bit_clear_iff (bitmap : Mem) (i : Nat) :
    bit_clear bitmap i = true ↔ bitmap (i / 8) &&& (1 <<< (i % 8)) = 0 := by
  simp [bit_clear]

/-- The scan of `search_blk_bitmap`, started in the middle of a run that is too short and
with no run of `size` clear bits before it, stops at the first run of `size` clear bits. -/
theorem search_blk_scan_first_fit (bitmap : Mem) (size n : Nat) (hsize : 1 ≤ size) :
    ∀ (k i : Nat) (st : scan_state), i + k = n → st.start + st.count = i → st.count < size →
      (∀ t, st.start ≤ t → t < i → bit_clear bitmap t = true) →
      (∀ j, j < st.start → ¬ clear_run bitmap n size j) →
      (∃ j, clear_run bitmap n size j) →
      ∃ s, search_blk_scan bitmap size k i st = Sum.inl { start := s, count := size } ∧
        clear_run bitmap n size s ∧ ∀ j, j < s → ¬ clear_run bitmap n size j := by
  intro k
  induction k with
  | zero =>
    intro i st hik hst hcount _ hbelow hex
    obtain ⟨j, hj, _⟩ := hex
    exfalso
    by_cases hjs : j < st.start
    · exact hbelow j hjs ⟨hj, by assumption⟩
    · omega
  | succ k ih =>
    intro i st hik hst hcount hclear hbelow hex
    unfold search_blk_scan
    by_cases hbit : bitmap (i / 8) &&& (1 <<< (i % 8)) = 0
    · rw [if_pos hbit]
      by_cases hfull : size = st.count + 1
      · rw [if_pos hfull]
        refine ⟨st.start, ?_, ⟨by omega, ?_⟩, hbelow⟩
        · rw [hfull]
        · intro t ht
          by_cases hti : st.start + t < i
          · exact hclear _ (by omega) hti
          · have : st.start + t = i := by omega
            rw [this]
            exact (bit_clear_iff bitmap i).2 hbit
      · rw [if_neg hfull]
        apply ih (i + 1) { st with count := st.count + 1 } (by omega)
        · show st.start + (st.count + 1) = i + 1
          omega
        · show st.count + 1 < size
          omega
        · intro t ht1 ht2
          by_cases hti : t < i
          · exact hclear t ht1 hti
          · have : t = i := by omega
            rw [this]
            exact (bit_clear_iff bitmap i).2 hbit
        · exact hbelow
        · exact hex
    · rw [if_neg hbit]
      apply ih (i + 1) _ (by omega)
      · show i + 1 + 0 = i + 1
        rfl
      · show 0 < size
        omega
      · intro t ht1 ht2
        exfalso
        change i + 1 ≤ t at ht1
        omega
      · intro j hj hrun
        change j < i + 1 at hj
        by_cases hjs : j < st.start
        · exact hbelow j hjs hrun
        · obtain ⟨hjn, hall⟩ := hrun
          by_cases hin : j + size ≤ i
          · omega
          · have h1 := hall (i - j) (by omega)
            have h2 : j + (i - j) = i := by omega
            rw [h2] at h1
            exact hbit ((bit_clear_iff bitmap i).1 h1)
      · exact hex

theorem block_slots_length (base : Nat) : ∀ k i, (block_slots base k i).length = k := by
  intro k
  induction k with
  | zero => intro i; rfl
  | succ k ih => intro i; simp [block_slots, ih]

theorem extent_slots_length (extent_start : Nat) :
    ∀ k j, (extent_slots extent_start k j).length = A1FS_BLOCK_SIZE / 256 * k := by
  intro k
  induction k with
  | zero => intro j; rfl
  | succ k ih =>
    intro j
    simp only [extent_slots, List.length_append, block_slots_length, ih]
    ring

theorem mem_take_append_left {a : Nat} {l1 l2 : List Nat} {n : Nat} (h : a ∈ l1.take n) :
    a ∈ (l1 ++ l2).take n := by
  rw [List.take_append_eq_append_take]
  exact List.mem_append_left _ h

theorem mem_take_append_right {a : Nat} {l1 l2 : List Nat} {n n1 : Nat}
    (hn : n1 + l1.length = n) (h : a ∈ l2.take n1) : a ∈ (l1 ++ l2).take n := by
  rw [List.take_append_eq_append_take]
  have : n - l1.length = n1 := by omega
  rw [this]
  exact List.mem_append_right _ h

/-- What `scan_block` reports: a found entry is one of the first `n` slots scanned and has
the name; when the scan goes on, all `k` slots were counted. -/
theorem scan_block_sound (m : Mem) (name : List Nat) (base : Nat) :
    ∀ (k i n : Nat),
      (∀ a, scan_block m name base k i n = scan_result.found a →
        a ∈ (block_slots base k i).take n ∧ cstr_eq m (a + 4) name = true) ∧
      (∀ n1, scan_block m name base k i n = scan_result.next n1 → n1 + k = n) := by
  intro k
  induction k with
  | zero =>
    intro i n
    constructor
    · intro a h
      simp [scan_block] at h
    · intro n1 h
      simp only [scan_block, scan_result.next.injEq] at h
      omega
  | succ k ih =>
    intro i n
    unfold scan_block
    by_cases hn : n = 0
    · simp [hn]
    · rw [if_neg hn]
      by_cases hc : cstr_eq m (base + sizeof_dentry * i + 4) name = true
      · rw [if_pos hc]
        constructor
        · intro a h
          simp only [scan_result.found.injEq] at h
          subst h
          refine ⟨?_, hc⟩
          obtain ⟨n', rfl⟩ : ∃ n', n = n' + 1 := ⟨n - 1, by omega⟩
          simp [block_slots]
        · intro n1 h
          simp at h
      · rw [if_neg hc]
        obtain ⟨n', rfl⟩ : ∃ n', n = n' + 1 := ⟨n - 1, by omega⟩
        have ih' := ih (i + 1) n'
        simp only [Nat.add_sub_cancel]
        constructor
        · intro a h
          obtain ⟨h1, h2⟩ := ih'.1 a h
          refine ⟨?_, h2⟩
          simp only [block_slots, List.take_succ_cons]
          exact List.mem_cons_of_mem _ h1
        · intro n1 h
          have := ih'.2 n1 h
          omega

theorem scan_extent_sound (m : Mem) (name : List Nat) (extent_start : Nat) :
    ∀ (k j n : Nat),
      (∀ a, scan_extent m name extent_start k j n = scan_result.found a →
        a ∈ (extent_slots extent_start k j).take n ∧ cstr_eq m (a + 4) name = true) ∧
      (∀ n1, scan_extent m name extent_start k j n = scan_result.next n1 →
        n1 + (extent_slots extent_start k j).length = n) := by
  intro k
  induction k with
  | zero =>
    intro j n
    constructor
    · intro a h
      simp [scan_extent] at h
    · intro n1 h
      simp only [scan_extent, scan_result.next.injEq] at h
      simp [extent_slots, h]
  | succ k ih =>
    intro j n
    have hb := scan_block_sound m name (blk_addr (extent_start + j)) (A1FS_BLOCK_SIZE / 256) 0 n
    unfold scan_extent
    cases hres : scan_block m name (blk_addr (extent_start + j)) (A1FS_BLOCK_SIZE / 256) 0 n with
    | found a0 =>
      constructor
      · intro a h
        simp only [scan_result.found.injEq] at h
        subst h
        obtain ⟨h1, h2⟩ := hb.1 a0 hres
        exact ⟨mem_take_append_left h1, h2⟩
      · intro n1 h
        simp at h
    | stop =>
      constructor
      · intro a h
        simp at h
      · intro n1 h
        simp at h
    | next n0 =>
      have hn0 := hb.2 n0 hres
      have ih' := ih (j + 1) n0
      simp only
      constructor
      · intro a h
        obtain ⟨h1, h2⟩ := ih'.1 a h
        refine ⟨?_, h2⟩
        simp only [extent_slots]
        exact mem_take_append_right (by rw [block_slots_length]; exact hn0) h1
      · intro n1 h
        have := ih'.2 n1 h
        simp only [extent_slots, List.length_append, block_slots_length]
        omega

theorem scan_dir_sound (m : Mem) (name : List Nat) (ext : Nat) :
    ∀ (k i n : Nat) (a : Nat), scan_dir m name ext k i n = scan_result.found a →
      a ∈ (dir_slots m ext k i).take n ∧ cstr_eq m (a + 4) name = true := by
  intro k
  induction k with
  | zero =>
    intro i n a h
    simp [scan_dir] at h
  | succ k ih =>
    intro i n a h
    have he := scan_extent_sound m name (read_extent m (ext + sizeof_extent * i)).start
      (i32 (read_extent m (ext + sizeof_extent * i)).count).toNat 0 n
    unfold scan_dir at h
    simp only at h
    cases hres : scan_extent m name (read_extent m (ext + sizeof_extent * i)).start
        (i32 (read_extent m (ext + sizeof_extent * i)).count).toNat 0 n with
    | found a0 =>
      rw [hres] at h
      simp only [scan_result.found.injEq] at h
      subst h
      obtain ⟨h1, h2⟩ := he.1 a0 hres
      exact ⟨by simp only [dir_slots]; exact mem_take_append_left h1, h2⟩
    | stop =>
      rw [hres] at h
      simp at h
    | next n0 =>
      rw [hres] at h
      simp only at h
      obtain ⟨h1, h2⟩ := ih (i + 1) n0 a h
      refine ⟨?_, h2⟩
      simp only [dir_slots]
      exact mem_take_append_right (he.2 n0 hres) h1

theorem find_inode_from_dir_not_dir (ino_i : Nat) (file : List Nat) (fs : fs_ctx)
    (h : is_dir fs ino_i = false) : (find_inode_from_dir ino_i file fs).1 = -ENOTDIR := by
  have h0 : (fs.root_ino ino_i).mode &&& S_IFDIR = 0 := by
    simpa [is_dir] using h
  simp [find_inode_from_dir, h0]

theorem find_inode_from_dir_no_match (ino_i : Nat) (file : List Nat) (fs : fs_ctx)
    (h : is_dir fs ino_i = true)
    (hno : ∀ a, a ∈ dir_entries fs ino_i → cstr_eq fs.data_blk (a + 4) file = false) :
    (find_inode_from_dir ino_i file fs).1 = -ENOENT := by
  have h0 : ¬ (fs.root_ino ino_i).mode &&& S_IFDIR = 0 := by
    simpa [is_dir] using h
  unfold find_inode_from_dir
  simp only [if_neg h0]
  by_cases hs : (fs.root_ino ino_i).size = 0
  · simp [hs]
  · rw [if_neg hs]
    cases hres : scan_dir fs.data_blk file (blk_addr (fs.root_ino ino_i).s_extent_block)
        (fs.root_ino ino_i).i_extents_count 0 ((fs.root_ino ino_i).size / sizeof_dentry) with
    | found a =>
      obtain ⟨h1, h2⟩ := scan_dir_sound _ _ _ _ _ _ a hres
      have := hno a h1
      rw [h2] at this
      exact absurd this (by decide)
    | stop => rfl
    | next n => rfl

theorem path_lookup_loop_append (fs : fs_ctx) (post : List (List Nat)) :
    ∀ (pre : List (List Nat)) (i d : Nat), path_lookup_loop fs pre i = (0, d) →
      path_lookup_loop fs (pre ++ post) i = path_lookup_loop fs post d := by
  intro pre
  induction pre with
  | nil =>
    intro i d h
    simp only [path_lookup_loop, Prod.mk.injEq] at h
    simp [h.2]
  | cons file rest ih =>
    intro i d h
    simp only [path_lookup_loop, List.cons_append] at h ⊢
    by_cases hr : (find_inode_from_dir i file fs).1 ≠ 0
    · rw [if_pos hr] at h
      simp only [Prod.mk.injEq] at h
      exact absurd h.1 hr
    · rw [if_neg hr] at h ⊢
      exact ih _ _ h

/-! ## The claims C11 to C20 -/

/-- C11 (the code differs).  In the state `ops_hole` leaves behind, the free-block count,
245, equals the number of clear bits among the 251 tracked bits.  `search_blk_bitmap` for
245 blocks finds no run that long, returns the extent (start 4, count 1) and leaves a count
of 241 with 244 clear bits: it ends with `set_bitmap('d', extent->count, extent->start, fs)`,
the two arguments exchanged.  `search_blk_bitmap_at_idx(2, 1)` returns 0 although bit 2 is
set and leaves a count of 244 with 245 clear bits: its test `== 1` sees a set bit only at
bit 0 of a byte. -/
theorem allocators_break_free_block_count :
    (run_fresh 1048576 64 ops_hole).map (fun r =>
      ([blocks_consistent r.2, blocks_consistent (search_blk_bitmap 245 r.2).2,
          blocks_consistent (search_blk_bitmap_at_idx 2 1 r.2).2],
        (search_blk_bitmap 245 r.2).1, (search_blk_bitmap_at_idx 2 1 r.2).1,
        [r.2.sb.s_free_blocks_count, clear_count r.2.block_bitmap (num_data_blk r.2),
          (search_blk_bitmap 245 r.2).2.sb.s_free_blocks_count,
          clear_count (search_blk_bitmap 245 r.2).2.block_bitmap (num_data_blk r.2),
          (search_blk_bitmap_at_idx 2 1 r.2).2.sb.s_free_blocks_count,
          clear_count (search_blk_bitmap_at_idx 2 1 r.2).2.block_bitmap (num_data_blk r.2)]))
      = some ([true, false, false], { start := 4, count := 1 }, 0,
          [245, 245, 241, 244, 244, 245]) := by
  decide!

/-- C12 (the code differs).  On a fresh image formatted with 4 inodes the free-inode count
is 3 and consistent with the bitmap: bit 0 is set, bit 1 is clear.  `search_inode_bitmap`
returns 0, an index whose bit is set, sets no bit (bit 1 is still clear) and leaves the
count at 3: it scans `s_inodes_count / 8` bytes, none here. -/
theorem search_inode_bitmap_four_inodes :
    (fresh_fs 1048576 4).map (fun fs =>
      ([inodes_consistent fs, bit_clear fs.inode_bitmap 0, bit_clear fs.inode_bitmap 1,
          bit_clear (search_inode_bitmap fs).2.inode_bitmap 1],
        [fs.sb.s_inodes_count, fs.sb.s_free_inodes_count, (search_inode_bitmap fs).1,
          (search_inode_bitmap fs).2.sb.s_free_inodes_count]))
      = some ([true, false, true, true], [4, 3, 0, 3]) := by
  decide!

/-- C13.  When the tracked bits of the block bitmap hold a run of `size` clear bits, for
`size` at least 1, `search_blk_bitmap` returns an extent of count `size` that starts at a
run of `size` clear bits, all inside the tracked bits, and no such run starts at a lower
bit. -/
theorem search_blk_bitmap_first_fit (size : Nat) (fs : fs_ctx) (hsize : 1 ≤ size)
    (hrun : ∃ j, clear_run fs.block_bitmap (num_data_blk fs) size j) :
    ∃ s, (search_blk_bitmap size fs).1 = { start := s, count := size } ∧
      clear_run fs.block_bitmap (num_data_blk fs) size s ∧
      ∀ j, j < s → ¬ clear_run fs.block_bitmap (num_data_blk fs) size j := by
  obtain ⟨s, hs, hr, hl⟩ := search_blk_scan_first_fit fs.block_bitmap size (num_data_blk fs) hsize
    (num_data_blk fs) 0 { count := 0, start := 0, extent := { start := 0, count := 0 } }
    (by omega) rfl (by show 0 < size; omega) (by intro t _ ht; omega)
    (by intro j hj; exact absurd hj (Nat.not_lt_zero j)) hrun
  refine ⟨s, ?_, hr, hl⟩
  simp only [search_blk_bitmap, hs]


/-- C13 at a concrete input: in `hole_fs` the lowest run of 2 clear bits starts at bit 7,
behind the single clear bit 4. -/
theorem search_blk_bitmap_first_fit_witness :
    1 ≤ 2 ∧ clear_run hole_fs.block_bitmap (num_data_blk hole_fs) 2 7 ∧
    (search_blk_bitmap 2 hole_fs).1 = { start := 7, count := 2 } ∧
    ∃ s, (search_blk_bitmap 2 hole_fs).1 = { start := s, count := 2 } ∧
      clear_run hole_fs.block_bitmap (num_data_blk hole_fs) 2 s ∧
      ∀ j, j < s → ¬ clear_run hole_fs.block_bitmap (num_data_blk hole_fs) 2 j :=
  ⟨by decide, by unfold clear_run; exact ⟨by decide!, by decide!⟩, by decide!,
    search_blk_bitmap_first_fit 2 hole_fs (by decide)
      ⟨7, by unfold clear_run; exact ⟨by decide!, by decide!⟩⟩⟩

/-- C14 (the code differs).  In the state `ops_hole` leaves behind, 245 blocks are free:
block 4 and the 244 blocks from 7 to 250, the last tracked bit.  `search_blk_bitmap` for
245 blocks returns the extent (start 4, count 1), not the run of 244: a run is recorded
only when a set bit ends it. -/
theorem search_blk_bitmap_misses_trailing_run :
    (run_fresh 1048576 64 ops_hole).map (fun r =>
      (num_data_blk r.2, r.2.sb.s_free_blocks_count,
        (List.range 251).all (fun i => bit_clear r.2.block_bitmap i == decide (i = 4 ∨ 7 ≤ i)),
        (search_blk_bitmap 245 r.2).1))
      = some (251, 245, true, { start := 4, count := 1 }) := by
  decide!

/-- C15 (the code differs).  In the state `ops_hole` leaves behind, bit 2 of the block
bitmap is set (the extent-list block of `/f`).  `search_blk_bitmap_at_idx(2, 1)` returns 0
all the same and takes 1 off the free-block count, 245 to 244. -/
theorem search_blk_bitmap_at_idx_takes_set_bit :
    (run_fresh 1048576 64 ops_hole).map (fun r =>
      (bit_clear r.2.block_bitmap 2, (search_blk_bitmap_at_idx 2 1 r.2).1,
        [r.2.sb.s_free_blocks_count, (search_blk_bitmap_at_idx 2 1 r.2).2.sb.s_free_blocks_count]))
      = some (false, 0, [245, 244]) := by
  decide!

/-- C16.  When `search_blk_bitmap_at_idx` does not return 0 it returns -1 and the state,
block bitmap and free-block count included, is the state before the call. -/
theorem search_blk_bitmap_at_idx_failure (start size : Nat) (fs : fs_ctx)
    (h : (search_blk_bitmap_at_idx start size fs).1 ≠ 0) :
    (search_blk_bitmap_at_idx start size fs).1 = -1 ∧
    (search_blk_bitmap_at_idx start size fs).2 = fs := by
  unfold search_blk_bitmap_at_idx at h ⊢
  by_cases h1 : u32 (start + size) > num_data_blk fs
  · simp [h1]
  · rw [if_neg h1] at h ⊢
    by_cases h2 : at_idx_taken fs.block_bitmap (loop_count start size) start = true
    · simp [h2]
    · rw [if_neg h2] at h
      exact absurd rfl h

/-- C16 at concrete inputs: in `hole_fs` the range (0, 1) holds the set bit 0 and the range
(250, 2) passes the last data block; both calls fail and change nothing. -/
theorem search_blk_bitmap_at_idx_failure_witness :
    (search_blk_bitmap_at_idx 0 1 hole_fs).1 ≠ 0 ∧
    ((search_blk_bitmap_at_idx 0 1 hole_fs).1 = -1 ∧
      (search_blk_bitmap_at_idx 0 1 hole_fs).2 = hole_fs) ∧
    (search_blk_bitmap_at_idx 250 2 hole_fs).1 ≠ 0 ∧
    ((search_blk_bitmap_at_idx 250 2 hole_fs).1 = -1 ∧
      (search_blk_bitmap_at_idx 250 2 hole_fs).2 = hole_fs) :=
  ⟨by decide!, search_blk_bitmap_at_idx_failure 0 1 hole_fs (by decide!), by decide!,
    search_blk_bitmap_at_idx_failure 250 2 hole_fs (by decide!)⟩

/-- C17 (the code differs).  After `mkdir /a` and `mkdir /a/b` on a fresh image the lookup
of `/a/b` returns inode 2.  After sixteen `mkdir` calls in the root, `mkdir /q`, `rmdir /q`
and `mkdir /r`, all returning 0, the lookup of `/r` returns `-ENOENT`: `rm_last_dentry`
decrements a copy of the last extent record, the record keeps the count 2, and the entry
of `/r` goes to the third block of an extent of which the second block is empty. -/
theorem lookup_fails_after_refill :
    (run_fresh 1048576 64 [fs_op.mkdir path_a, fs_op.mkdir path_ab]).map
        (fun r => (r.1, path_lookup path_ab r.2)) = some ([0, 0], (0, 2)) ∧
    (run_fresh 1048576 64 ops_refill_root).map (fun r =>
      (r.1, (path_lookup path_r r.2).1, inode_extents r.2 0, (r.2.root_ino 0).size))
      = some (List.replicate 19 0, -2, [{ start := 1, count := 3 }], 4352) :=
  ⟨by decide!, by decide!⟩

/-- C18.  The lookup of `/` returns inode 0.  When the components before some component
of a path resolve to inode `d`, the lookup returns `-ENOTDIR` if `d` is not a directory,
and `-ENOENT` if `d` is a directory and the component equals the name of none of its
first `size / 256` entries. -/
theorem path_lookup_root_and_errors (fs : fs_ctx) :
    path_lookup [47] fs = (0, 0) ∧
    ∀ (body : List Nat) (pre : List (List Nat)) (file : List Nat) (rest : List (List Nat))
      (d : Nat),
      body ≠ [] → strsep_all body = pre ++ file :: rest → path_lookup_loop fs pre 0 = (0, d) →
      (is_dir fs d = false → (path_lookup (47 :: body) fs).1 = -ENOTDIR) ∧
      (is_dir fs d = true →
        (∀ a, a ∈ dir_entries fs d → cstr_eq fs.data_blk (a + 4) file = false) →
        (path_lookup (47 :: body) fs).1 = -ENOENT) := by
  refine ⟨by simp [path_lookup], ?_⟩
  intro body pre file rest d hbody hsplit hpre
  have hl : path_lookup (47 :: body) fs = path_lookup_loop fs (file :: rest) d := by
    simp only [path_lookup, if_neg hbody]
    rw [if_neg (by decide), hsplit, path_lookup_loop_append fs _ pre 0 d hpre]
  rw [hl]
  constructor
  · intro hd
    have := find_inode_from_dir_not_dir d file fs hd
    simp only [path_lookup_loop]
    rw [if_pos (by rw [this]; decide)]
    exact this
  · intro hd hno
    have := find_inode_from_dir_no_match d file fs hd hno
    simp only [path_lookup_loop]
    rw [if_pos (by rw [this]; decide)]
    exact this

/-- C18 at concrete inputs: after `mkdir /a`, `mkdir /a/b`, `create /f` the lookup of
`/a/b/c` returns `-ENOENT` (the directory `/a/b`, inode 2, is empty) and the lookup of
`/f/c` returns `-ENOTDIR` (`/f`, inode 3, is a file). -/
theorem path_lookup_root_and_errors_witness :
    path_lookup [47] tree_fs = (0, 0) ∧
    path_lookup_loop tree_fs [[97], [98]] 0 = (0, 2) ∧
    (path_lookup path_abc tree_fs).1 = -ENOENT ∧
    path_lookup_loop tree_fs [[102]] 0 = (0, 3) ∧
    (path_lookup path_fc tree_fs).1 = -ENOTDIR :=
  ⟨(path_lookup_root_and_errors tree_fs).1, by decide!,
    ((path_lookup_root_and_errors tree_fs).2 [97, 47, 98, 47, 99] [[97], [98]] [99] [] 2
      (by decide) (by decide) (by decide!)).2 (by decide!) (by decide!),
    by decide!,
    ((path_lookup_root_and_errors tree_fs).2 [102, 47, 99] [[102]] [99] [] 3
      (by decide) (by decide) (by decide!)).1 (by decide!)⟩

/-- C19 (the code differs).  On a fresh image `a1fs_getattr` of a path of 4096 bytes
returns `-ENAMETOOLONG`, but for the path of 253 bytes whose one component has 252 letters
it returns `-ENOENT`: the length of a component is tested nowhere. -/
theorem getattr_long_component_not_found :
    (fresh_fs 1048576 64).map (fun fs =>
      ((List.replicate 4096 47).length, (a1fs_getattr (List.replicate 4096 47) zero_stat fs).1,
        path_long_name.length, (a1fs_getattr path_long_name zero_stat fs).1))
      = some (4096, -36, 253, -2) := by
  decide!

/-- C20 (the code differs).  The calls `ops_fill_d` leave bitmaps and counts consistent and
the directory `/d` (inode 2) with 32 entries in the extents (7, 1) and (5, 1), its extent
list in block 6.  `create /d/y` returns 0.  To add the entry `allocate_blks_for_dir` calls
`search_blk_bitmap_at_idx(6, 1)`, which takes block 6 although its bit is set, and the
entry is written over the extent list: the extents read (36, 121) and (0, 0), and the 33
entries listed afterwards are not the 32 from before followed by the new one. -/
theorem add_entry_overwrites_extent_list :
    (run_fresh 1048576 64 ops_fill_d).bind (fun r =>
      (a1fs_create path_dy mode_file r.2 epoch).map (fun q =>
        (q.1, blocks_consistent r.2 && inodes_consistent r.2, dir_summary r.2 2,
          dir_summary q.2 2)))
      = some (0, true,
          [[8192, 2, 6], [7, 5], [1, 1],
            [3, 5, 6, 7, 8, 9, 10, 11, 12, 13, 14, 15, 16, 17, 18, 19, 20, 21, 22, 23, 24, 25, 26,
              27, 28, 29, 30, 31, 32, 33, 34, 35]],
          [[8448, 2, 6], [36, 0], [121, 0], List.replicate 33 0]) := by
  decide!

/-! ## Entry removal -/

/-- After the one pass of the clearing loop at bit `i`, bit `i` is clear. -/
theorem clear_bits_one_bit_clear (bitmap : Mem) (i : Nat) :
    bit_clear (clear_bits bitmap 1 i) i = true := by
  have hk : i % 8 < 8 := Nat.mod_lt _ (by norm_num)
  have h : ∀ k, k < 8 → (255 ^^^ (1 <<< k)) &&& (1 <<< k) = 0 := by decide
  simp only [clear_bits, bit_clear, if_pos, decide_eq_true_eq]
  rw [Nat.and_assoc, h _ hk]
  simp

/-- The function `rm_last_dentry` leaves the free-inode count as it is. -/
theorem rm_last_dentry_free_inodes (p : Nat) (g : fs_ctx) (now : timespec) :
    (rm_last_dentry p g now).sb.s_free_inodes_count = g.sb.s_free_inodes_count := by
  simp only [rm_last_dentry, set_inode, unset_bitmap, Char.reduceEq, if_false]
  split_ifs <;> rfl

/-- The function `replace_dentry` leaves the superblock as it is. -/
theorem replace_dentry_sb (p : Nat) (n : List Nat) (d : a1fs_dentry) (fs : fs_ctx) :
    (replace_dentry p n d fs).sb = fs.sb := by
  simp only [replace_dentry]
  split <;> rfl

/-- The function `replace_dentry` leaves the inode table as it is. -/
theorem replace_dentry_root_ino (p : Nat) (n : List Nat) (d : a1fs_dentry) (fs : fs_ctx) :
    (replace_dentry p n d fs).root_ino = fs.root_ino := by
  simp only [replace_dentry]
  split <;> rfl

/-- The function `rm_last_dentry` takes the 256 bytes of one record from the size. -/
theorem rm_last_dentry_size (p : Nat) (g : fs_ctx) (now : timespec) :
    ((rm_last_dentry p g now).root_ino p).size = u64 (((g.root_ino p).size : Int) - sizeof_dentry) := by
  simp only [rm_last_dentry, set_inode, unset_bitmap, Char.reduceEq, if_false, if_true]
  split_ifs <;> rfl

/-- The function `rm_last_dentry` takes one from the link count. -/
theorem rm_last_dentry_links (p : Nat) (g : fs_ctx) (now : timespec) :
    ((rm_last_dentry p g now).root_ino p).links = u32 (((g.root_ino p).links : Int) - 1) := by
  simp only [rm_last_dentry, set_inode, unset_bitmap, Char.reduceEq, if_false, if_true]
  split_ifs <;> rfl

/-! ## The claims C21 to C30 -/

/-- C21 (the code differs).  Sixteen `mkdir` calls on a fresh image leave the root with the
sixteen entries `aa` .. `ap` in one block, and `/ap` is found.  `rmdir /aa` returns 0, but
the fifteen entries left are not the originals without `aa` with `ap` in the first
position: for a directory of 16 entries `get_last_dentry` takes the index `16 % 16 = 0`
and reads `first_dentry[-1]`, the last 256 bytes of the block before (the extent list, all
zero), so the first position holds inode 0 with an empty name and `/ap` is not found. -/
theorem remove_entry_loses_last_of_sixteen :
    (run_fresh 1048576 64 ops_sixteen).bind (fun r =>
      (a1fs_rmdir (entry_path [] 0) r.2 epoch).map (fun q =>
        ([q.1, (path_lookup (entry_path [] 15) r.2).1, (path_lookup (entry_path [] 15) q.2).1],
          [listing_records r.2 0, listing_records q.2 0])))
      = some ([0, 0, -2],
          [[(1, [97, 97]), (2, [97, 98]), (3, [97, 99]), (4, [97, 100]), (5, [97, 101]),
            (6, [97, 102]), (7, [97, 103]), (8, [97, 104]), (9, [97, 105]), (10, [97, 106]),
            (11, [97, 107]), (12, [97, 108]), (13, [97, 109]), (14, [97, 110]),
            (15, [97, 111]), (16, [97, 112])],
          [(0, []), (2, [97, 98]), (3, [97, 99]), (4, [97, 100]), (5, [97, 101]),
            (6, [97, 102]), (7, [97, 103]), (8, [97, 104]), (9, [97, 105]), (10, [97, 106]),
            (11, [97, 107]), (12, [97, 108]), (13, [97, 109]), (14, [97, 110]),
            (15, [97, 111])]]) := by
  decide!

/-- C22 (the code differs).  After sixteen `mkdir` calls and `mkdir /q` the root has the
size 4352 and one extent of 2 blocks, which is `4352 / 4096` rounded up, and the bits of
the blocks 0, 1, 2 are set.  `rmdir /q` returns 0, the size is 4096 and the bit of block 2
is cleared, but the extent still counts 2 blocks where `4096 / 4096` is 1:
`rm_last_dentry` decrements the count in a local copy of the extent record. -/
theorem remove_entry_keeps_stale_extent_count :
    (run_fresh 1048576 64 (ops_sixteen ++ [fs_op.mkdir path_q])).bind (fun r =>
      (a1fs_rmdir path_q r.2 epoch).map (fun q =>
        (q.1,
          [[(r.2.root_ino 0).size, extent_blocks r.2 0, blocks_of_size (r.2.root_ino 0).size],
            bitmap_bits r.2.block_bitmap 4,
            [(q.2.root_ino 0).size, extent_blocks q.2 0, blocks_of_size (q.2.root_ino 0).size],
            bitmap_bits q.2.block_bitmap 4])))
      = some (0, [[4352, 2, 2], [1, 1, 1, 0], [4096, 2, 1], [1, 1, 0, 0]]) := by
  decide!

/-- C23.  Let a path split into the path of the parent and a name, and let both lookups
succeed, giving the inodes `c` of the directory and `p` of the parent, with the counters
in the range of their types and the last record of the parent inside the data region.
When the size of `c` is positive `a1fs_rmdir` returns `-ENOTEMPTY` and the state is the
one before.  When the size of `c` is 0 it returns 0, the bit of `c` in the inode bitmap
is clear, the free-inode count is one more, the size of `p` is 256 less and the link
count of `p` is one less. -/
theorem rmdir_not_empty_or_removed (path parent_path new_dir : List Nat) (fs : fs_ctx)
    (now : timespec)
    (hsplit : get_parent_child_str_from_path path = some (parent_path, new_dir))
    (hchild : (path_lookup path fs).1 = 0) (hparent : (path_lookup parent_path fs).1 = 0)
    (hlast : get_last_dentry (path_lookup parent_path fs).2 fs ≠ none)
    (hino : (path_lookup path fs).2 < 4294967295)
    (hfree : fs.sb.s_free_inodes_count < 4294967295)
    (hsize : 256 ≤ (fs.root_ino (path_lookup parent_path fs).2).size ∧
      (fs.root_ino (path_lookup parent_path fs).2).size < 18446744073709551616)
    (hlinks : 1 ≤ (fs.root_ino (path_lookup parent_path fs).2).links ∧
      (fs.root_ino (path_lookup parent_path fs).2).links < 4294967296) :
    (0 < (fs.root_ino (path_lookup path fs).2).size →
      a1fs_rmdir path fs now = some (-ENOTEMPTY, fs)) ∧
    ((fs.root_ino (path_lookup path fs).2).size = 0 →
      ∃ fs1, a1fs_rmdir path fs now = some (0, fs1) ∧
        bit_clear fs1.inode_bitmap (path_lookup path fs).2 = true ∧
        fs1.sb.s_free_inodes_count = fs.sb.s_free_inodes_count + 1 ∧
        (fs1.root_ino (path_lookup parent_path fs).2).size + 256
          = (fs.root_ino (path_lookup parent_path fs).2).size ∧
        (fs1.root_ino (path_lookup parent_path fs).2).links + 1
          = (fs.root_ino (path_lookup parent_path fs).2).links) := by
  obtain ⟨ld, hld⟩ := Option.ne_none_iff_exists'.mp hlast
  generalize hc : (path_lookup path fs).2 = c at *
  generalize hp : (path_lookup parent_path fs).2 = p at *
  have hcount : loop_count c 1 = 1 := by
    simp only [loop_count, u32]
    omega
  constructor
  · intro hpos
    simp only [a1fs_rmdir, hsplit, hchild, hparent, hc, hp]
    simp [hpos]
  · intro hzero
    have hnot : ¬ (fs.root_ino c).size > 0 := by omega
    simp only [a1fs_rmdir, hsplit, hchild, hparent, hc, hp, rm_dentry, hld]
    simp only [ne_eq, not_true_eq_false, or_self, if_false, hnot]
    refine ⟨_, rfl, ?_, ?_, ?_, ?_⟩
    · simp only [unset_bitmap, if_true, hcount]
      exact clear_bits_one_bit_clear _ c
    · simp only [unset_bitmap, if_true, Char.reduceEq, if_false]
      split_ifs <;>
        simp only [rm_last_dentry_free_inodes, replace_dentry_sb, u32] <;> omega
    · simp only [unset_bitmap, if_true, Char.reduceEq, if_false]
      split_ifs <;>
        simp only [rm_last_dentry_size, replace_dentry_root_ino, u64, sizeof_dentry] <;> omega
    · simp only [unset_bitmap, if_true, Char.reduceEq, if_false]
      split_ifs <;>
        simp only [rm_last_dentry_links, replace_dentry_root_ino, u32] <;> omega

/-- The directory `/a` that holds `/a/x` is not removed; after `unlink /a/x` it is. -/
theorem rmdir_not_empty_or_removed_witness :
    a1fs_rmdir path_a dir_with_entry_fs epoch = some (-ENOTEMPTY, dir_with_entry_fs) ∧
    ∃ fs1, a1fs_rmdir path_a dir_emptied_fs epoch = some (0, fs1) ∧
      bit_clear fs1.inode_bitmap (path_lookup path_a dir_emptied_fs).2 = true ∧
      fs1.sb.s_free_inodes_count = dir_emptied_fs.sb.s_free_inodes_count + 1 ∧
      (fs1.root_ino (path_lookup [47] dir_emptied_fs).2).size + 256
        = (dir_emptied_fs.root_ino (path_lookup [47] dir_emptied_fs).2).size ∧
      (fs1.root_ino (path_lookup [47] dir_emptied_fs).2).links + 1
        = (dir_emptied_fs.root_ino (path_lookup [47] dir_emptied_fs).2).links :=
  ⟨(rmdir_not_empty_or_removed path_a [47] [97] dir_with_entry_fs epoch (by decide!)
      (by decide!) (by decide!) (by decide!) (by decide!) (by decide!) (by decide!)
      (by decide!)).1 (by decide!),
    (rmdir_not_empty_or_removed path_a [47] [97] dir_emptied_fs epoch (by decide!)
      (by decide!) (by decide!) (by decide!) (by decide!) (by decide!) (by decide!)
      (by decide!)).2 (by decide!)⟩

/-- C24 (the code differs).  On the empty file `/f` a read of 4 bytes at offset 1 into a
buffer of bytes 255 returns 0 and leaves the bytes 0, 255, 255, 255: for a file of size 0
`a1fs_read` stores a zero in the first byte only, where the branch for an offset after the
end of a file with data clears the buffer. -/
theorem read_empty_file_keeps_buffer :
    (run_fresh 1048576 64 [fs_op.create path_f]).bind (fun r =>
      (a1fs_read 16 path_f filled_buf 4 1 r.2).map (fun q =>
        ((r.2.root_ino 1).size, q.1, read_bytes q.2 0 4)))
      = some (0, 0, [0, 255, 255, 255]) := by
  decide!

/-- C25 (the code differs).  The file `/f` holds the 10 bytes 1 .. 10.  A read of 4096
bytes at offset 0 returns 4096, not 10: the end of the data is taken from `find_last_blk`,
the end of the last block of the last extent, not from the size.  A read of 20 bytes at
offset 0 gives the `memset` the length `20 - 4096` and does not return. -/
theorem read_across_end_returns_block_rest :
    (run_fresh 1048576 64 [fs_op.create path_f, fs_op.write path_f ten_bytes 0]).bind (fun r =>
      (a1fs_read 16 path_f filled_buf 4096 0 r.2).map (fun q =>
        (r.1, (r.2.root_ino 1).size, q.1, read_bytes q.2 0 12,
          (a1fs_read 16 path_f filled_buf 20 0 r.2).isNone)))
      = some ([0, 10], 10, 4096, [1, 2, 3, 4, 5, 6, 7, 8, 9, 10, 0, 0], true) := by
  decide!

set_option maxHeartbeats 1000000 in
/-- C26 (the code differs).  `a1fs_write` calls `extend_file` with the `uint32_t`
difference `size + offset - inode->size` before it tests whether the write ends after the
end of the file.  On a file of 4096 bytes with one extent a write of 10 bytes at offset 0
returns 10 and leaves 512 extents recorded; on a file of 100 bytes the same write gives a
`memset` a negative length and does not return. -/
theorem write_inside_file_fills_extent_list :
    (run_fresh 40960 8 [fs_op.create path_f, fs_op.resize path_f 4096]).bind (fun r =>
      (a1fs_write 600 path_f ten_bytes 0 r.2 epoch).map (fun q =>
        (r.1, q.1,
          [(r.2.root_ino 1).size, (r.2.root_ino 1).i_extents_count,
            (q.2.root_ino 1).size, (q.2.root_ino 1).i_extents_count])))
      = some ([0, 0], 10, [4096, 1, 4096, 512]) ∧
    (run_fresh 1048576 64 [fs_op.create path_f, fs_op.resize path_f 100]).map (fun r =>
      (r.1, (r.2.root_ino 1).size, (a1fs_write 600 path_f ten_bytes 0 r.2 epoch).isNone))
      = some ([0, 0], 100, true) :=
  ⟨by decide!, by decide!⟩

/-- C27 (the code differs).  The file `/f` holds the 10 bytes 1 .. 10 and is resized to
8192 bytes, with return value 0.  A read of 10 bytes at offset 4096, inside the range that
the resize added, returns the bytes 1 .. 10: `find_offset` gives the address of the first
block of the file for an offset in its second block. -/
theorem read_after_growth_returns_old_bytes :
    (run_fresh 1048576 64
        [fs_op.create path_f, fs_op.write path_f ten_bytes 0, fs_op.resize path_f 8192]).bind
      (fun r => (a1fs_read 16 path_f filled_buf 10 4096 r.2).map (fun q =>
        (r.1, (r.2.root_ino 1).size, q.1, read_bytes q.2 0 10)))
      = some ([0, 10, 0], 8192, 10, [1, 2, 3, 4, 5, 6, 7, 8, 9, 10]) := by
  decide!

/-- C28 (the code differs).  The calls `ops_two_holes` leave 245 free blocks, counted and
in the bitmap, in the runs 4 .. 5 and 8 .. 250, and the empty file `/h` (inode 3).  The
resize of `/h` to 999424 bytes, 244 blocks, returns 0 with the size 999424 and extents of
244 blocks, but the free-block count is 4294967292 and not 0: no run holds 244 blocks, and
for the run of one block `search_blk_bitmap` calls `set_bitmap` with start and count
exchanged, which takes 5 from the count.  On a fresh image the resize of a new file to
10000 bytes gives 3 blocks and takes 4 from the count. -/
theorem growth_over_two_holes_breaks_free_count :
    (run_fresh 1048576 64 ops_two_holes).bind (fun r =>
      (a1fs_truncate 600 path_h 999424 r.2 epoch).map (fun q =>
        (q.1,
          [[(r.2.root_ino 3).size, r.2.sb.s_free_blocks_count,
              clear_count r.2.block_bitmap (num_data_blk r.2), blocks_of_size 999424],
            [(q.2.root_ino 3).size, extent_blocks q.2 3, q.2.sb.s_free_blocks_count]])))
      = some (0, [[0, 245, 245, 244], [999424, 244, 4294967292]]) ∧
    (run_fresh 1048576 64 [fs_op.create path_f, fs_op.resize path_f 10000]).map (fun r =>
      (r.1, [(r.2.root_ino 1).size, extent_blocks r.2 1, r.2.sb.s_free_blocks_count]))
      = some ([0, 0], [10000, 3, 245]) :=
  ⟨by decide!, by decide!⟩

/-- C29 (the code differs).  The file `/f` holds 10 bytes in one extent.  The resize to 0
returns 0, sets the size 0, clears the bits of the blocks 2 and 3 and brings the
free-block count back to 249, but the extent count stays 1: `delete_file_data` does not
reset it.  The next write of 10 bytes leaves the extent count 2, with the new extent
(3, 1) in the second record after the old one. -/
theorem resize_to_zero_keeps_extent_count :
    (run_fresh 1048576 64
        [fs_op.create path_f, fs_op.write path_f ten_bytes 0, fs_op.resize path_f 0]).bind
      (fun r => (a1fs_write 600 path_f ten_bytes 0 r.2 epoch).map (fun q =>
        (r.1, q.1,
          [[(r.2.root_ino 1).size, (r.2.root_ino 1).i_extents_count, r.2.sb.s_free_blocks_count],
            bitmap_bits r.2.block_bitmap 4,
            [(q.2.root_ino 1).size, (q.2.root_ino 1).i_extents_count],
            (inode_extents q.2 1).map (fun e => e.start),
            (inode_extents q.2 1).map (fun e => e.count)])))
      = some ([0, 10, 0], 10, [[0, 1, 249], [1, 1, 0, 0], [10, 2], [3, 3], [1, 1]]) := by
  decide!

/-- C30 (the code differs).  The file `/f` (inode 1) has 8192 bytes in the two extents
(3, 1) and (4, 1).  `truncate_file` by 4096 bytes sets the size 4096 and adds 1 to the
free-block count, but the bit of block 4 stays set and the inode keeps two extents with
the counts 1 and 1: the last extent is taken at `first_extent + (count - 1) * sizeof
(a1fs_extent)`, record 8 of the list and not record 1. -/
theorem truncate_two_extents_frees_nothing :
    (run_fresh 1048576 64
        [fs_op.create path_f, fs_op.write path_f ten_bytes 0, fs_op.resize path_f 8192]).map
      (fun r =>
        (r.1,
          [[(r.2.root_ino 1).size, (r.2.root_ino 1).i_extents_count, r.2.sb.s_free_blocks_count],
            (inode_extents r.2 1).map (fun e => e.start),
            (inode_extents r.2 1).map (fun e => e.count),
            bitmap_bits r.2.block_bitmap 6],
          [[((truncate_file 1 r.2 4096).root_ino 1).size,
              ((truncate_file 1 r.2 4096).root_ino 1).i_extents_count,
              (truncate_file 1 r.2 4096).sb.s_free_blocks_count],
            (inode_extents (truncate_file 1 r.2 4096) 1).map (fun e => e.start),
            (inode_extents (truncate_file 1 r.2 4096) 1).map (fun e => e.count),
            bitmap_bits (truncate_file 1 r.2 4096).block_bitmap 6]))
      = some ([0, 10, 0], [[8192, 2, 246], [3, 4], [1, 1], [1, 1, 1, 1, 1, 0]],
          [[4096, 2, 247], [3, 4], [1, 1], [1, 1, 1, 1, 1, 0]]) := by
  decide!

/-! ## The loop of `populate_extent_blk` and the split of a path -/

/-- The loop `populate_loop` gives what the run `populate_run` ends with. -/
theorem populate_loop_eq_run (ino_i : Nat) :
    ∀ (fuel num_db_needed size_remain : Nat) (fs : fs_ctx),
      populate_loop ino_i fuel num_db_needed size_remain fs
        = (populate_run ino_i fuel num_db_needed size_remain fs).result := by
  intro fuel
  induction fuel with
  | zero =>
    intro n sr fs
    rfl
  | succ fuel ih =>
    intro n sr fs
    simp only [populate_loop, populate_run]
    split_ifs
    · rfl
    · split <;> simp [loop_end.result, ih]
    · split <;> simp [loop_end.result]
    · rfl

/-- The function `search_blk_bitmap` leaves the inode table as it is. -/
theorem search_blk_bitmap_root_ino (size : Nat) (fs : fs_ctx) :
    (search_blk_bitmap size fs).2.root_ino = fs.root_ino := by
  simp only [search_blk_bitmap, set_bitmap]
  split <;> simp

/-- The function `write_extent` returns -1 for an inode with 512 extents. -/
theorem write_extent_full (ino_i : Nat) (extent : a1fs_extent) (fs : fs_ctx)
    (h : (fs.root_ino ino_i).i_extents_count = 512) : (write_extent ino_i extent fs).1 = -1 := by
  simp [write_extent, h]

/-- The function `write_extent` stores the extent count plus one as a `uint32_t`
when the inode has not 512 extents. -/
theorem write_extent_count (ino_i : Nat) (extent : a1fs_extent) (fs : fs_ctx)
    (h : (fs.root_ino ino_i).i_extents_count ≠ 512) :
    ((write_extent ino_i extent fs).2.root_ino ino_i).i_extents_count
      = u32 ((fs.root_ino ino_i).i_extents_count + 1) := by
  simp [write_extent, h, set_inode]

/-- The function `write_zero_to_blk` leaves the extent count as it is. -/
theorem write_zero_to_blk_count (ino_i blk : Nat) (start length : Int) (fs fs1 : fs_ctx)
    (h : write_zero_to_blk ino_i blk start length fs = some fs1) :
    (fs1.root_ino ino_i).i_extents_count = (fs.root_ino ino_i).i_extents_count := by
  simp only [write_zero_to_blk] at h
  split_ifs at h
  simp only [Option.some.injEq] at h
  rw [← h]
  simp [set_inode]

/-- One more extent brings the count nearer to 512. -/
theorem extent_count_distance_step (c : Nat) (h : c ≠ 512) :
    extent_count_distance (u32 ((c + 1 : Nat) : Int)) < extent_count_distance c := by
  simp only [extent_count_distance, u32]
  split_ifs <;> omega

/-- The loop is left within as many iterations as the extent count is away from
512, and one more. -/
theorem populate_run_finishes (ino_i : Nat) :
    ∀ (n fuel num_db_needed size_remain : Nat) (fs : fs_ctx),
      extent_count_distance (fs.root_ino ino_i).i_extents_count ≤ n → n < fuel →
      populate_run ino_i fuel num_db_needed size_remain fs ≠ loop_end.unfinished := by
  intro n
  induction n with
  | zero =>
    intro fuel nd sr fs hd hf
    obtain ⟨f, rfl⟩ : ∃ f, fuel = f + 1 := ⟨fuel - 1, by omega⟩
    have hc : (fs.root_ino ino_i).i_extents_count = 512 := by
      simp only [extent_count_distance] at hd
      split_ifs at hd <;> omega
    have hc1 : ((search_blk_bitmap nd fs).2.root_ino ino_i).i_extents_count = 512 := by
      rw [search_blk_bitmap_root_ino, hc]
    simp only [populate_run]
    split_ifs with h1 h2
    · simp
    · exact absurd (write_extent_full ino_i _ _ hc1) h2
    · exact absurd (write_extent_full ino_i _ _ hc1) h2
    · simp
  | succ n ih =>
    intro fuel nd sr fs hd hf
    obtain ⟨f, rfl⟩ : ∃ f, fuel = f + 1 := ⟨fuel - 1, by omega⟩
    simp only [populate_run]
    have hstep : ∀ fs1 : fs_ctx,
        (fs1.root_ino ino_i).i_extents_count
          = ((write_extent ino_i (search_blk_bitmap nd fs).1
              (search_blk_bitmap nd fs).2).2.root_ino ino_i).i_extents_count →
        (write_extent ino_i (search_blk_bitmap nd fs).1 (search_blk_bitmap nd fs).2).1 ≠ -1 →
        extent_count_distance (fs1.root_ino ino_i).i_extents_count ≤ n := by
      intro fs1 he hw
      have hc : ((search_blk_bitmap nd fs).2.root_ino ino_i).i_extents_count ≠ 512 := by
        intro hc
        exact hw (write_extent_full ino_i _ _ hc)
      rw [he, write_extent_count ino_i _ _ hc, search_blk_bitmap_root_ino]
      rw [search_blk_bitmap_root_ino] at hc
      have := extent_count_distance_step _ hc
      push_cast at this ⊢
      omega
    split_ifs with h1 h2 h3
    · simp
    · split
      · simp
      · rename_i fs1 hz
        exact ih f _ _ fs1 (hstep fs1 (write_zero_to_blk_count _ _ _ _ _ _ hz) h2) (by omega)
    · split <;> simp
    · simp

/-- The extent count is at most 2^32 iterations away from 512. -/
theorem extent_count_distance_le (c : Nat) : extent_count_distance c ≤ 4294967296 := by
  simp only [extent_count_distance]
  split_ifs <;> omega

/-- The last `/` of a path that goes on without `/` is found at its index. -/
theorem strrchr_slash_append (pre child : List Nat) (hchild : 47 ∉ child) :
    strrchr_slash (pre ++ 47 :: child) = some pre.length := by
  have hnone : List.findIdx? (fun x => x == 47) child.reverse = none := by
    rw [List.findIdx?_eq_none_iff]
    intro x hx
    have : x ≠ 47 := by
      rintro rfl
      exact hchild (List.mem_reverse.mp hx)
    simpa using this
  simp only [strrchr_slash, List.indexOf?, List.reverse_append, List.reverse_cons,
    List.append_assoc, List.singleton_append, List.findIdx?_append, hnone, Option.none_or,
    List.findIdx?_cons, beq_self_eq_true, if_true, Option.map_some', List.length_reverse,
    List.length_append, List.length_cons]
  congr 1
  omega

/-- The parent and the child of a path, split at its last `/`. -/
theorem parent_child_of_last_slash (pre child : List Nat) (hchild : 47 ∉ child) :
    get_parent_child_str_from_path (pre ++ 47 :: child)
      = some (if pre = [] then [47] else pre, child) := by
  simp only [get_parent_child_str_from_path, strrchr_slash_append pre child hchild]
  cases pre with
  | nil => simp
  | cons c cs =>
    have h1 : List.drop ((c :: cs).length + 1) (c :: cs ++ 47 :: child) = child := by
      simp
    have h2 : List.take (c :: cs).length (c :: cs ++ 47 :: child) = c :: cs :=
      List.take_left (c :: cs) (47 :: child)
    simp only [h1, List.length_cons, Nat.add_one_ne_zero, if_false]
    rw [← List.length_cons c cs, h2]
    simp

/-! ## The claims C31 to C38 -/

/-- C31 (the code differs).  The calls `ops_one_free_block` leave the empty directory
`/a` (inode 1) and one free block, block 250, counted and in the bitmap; the bits of the
blocks 0 and 1, the extent list and the entries of the root, are set.  An entry in `/a`
needs two blocks, but `create /a/x` returns 0: `a1fs_create` only tests that the free
blocks are not fewer than 1.  `/a` gets block 250 for its extent list, the second
`search_blk_bitmap` finds no block and leaves the extent (0, 0), and the entry is written to
block 0, over the extent list of the root, whose extent now reads (3, 120) and whose two
entries read as inode 0. -/
theorem create_in_empty_dir_takes_used_block :
    (run_fresh 1048576 64 ops_one_free_block).bind (fun r =>
      (a1fs_create path_ax mode_file r.2 epoch).map (fun q =>
        (r.1 ++ [q.1],
          [[(r.2.root_ino 1).size, r.2.sb.s_free_inodes_count, r.2.sb.s_free_blocks_count,
              clear_count r.2.block_bitmap (num_data_blk r.2)],
            bitmap_bits r.2.block_bitmap 2],
          [dir_summary r.2 0, dir_summary q.2 0, dir_summary q.2 1])))
      = some ([0, 0, 0, 0], [[0, 61, 1, 1], [1, 1]],
          [[[512, 1, 0], [1], [1], [1, 2]], [[512, 1, 0], [3], [120], [0, 0]],
            [[256, 1, 250], [0], [0], []]]) := by
  decide!

/-- C32 (the code differs).  After `create /f` on a fresh image the root has the link
count 3 and no subdirectory, where 2 plus the number of subdirectories is 2:
`write_dentry` adds one to the link count of the directory for every entry, files
included.  The file has the link count 1. -/
theorem create_file_raises_parent_links :
    (run_fresh 1048576 64 [fs_op.create path_f]).map (fun r =>
      (r.1, [(r.2.root_ino 0).links, subdir_count r.2 0, (r.2.root_ino 1).links],
        [is_dir r.2 0, is_dir r.2 1]))
      = some ([0], [3, 0, 1], [true, false]) := by
  decide!

/-- C33 (the code differs).  A fresh image has the directory count 1 and one directory.
After `mkdir /a` and `rmdir /a`, both returning 0, the directory count is 2 and the root is
the one directory: `a1fs_rmdir` does not change `s_dir_count`. -/
theorem rmdir_keeps_dir_count :
    (run_fresh 1048576 64 []).map (fun r => [r.2.sb.s_dir_count, dir_total r.2])
      = some [1, 1] ∧
    (run_fresh 1048576 64 [fs_op.mkdir path_a, fs_op.rmdir path_a]).map (fun r =>
      (r.1, [r.2.sb.s_dir_count, dir_total r.2])) = some ([0, 0], [2, 1]) :=
  ⟨by decide!, by decide!⟩

/-- C34 (the code differs).  In the state after `ops_two_holes` the blocks 4, 5 and
8 .. 250 are free and the free-block count is 245.  `search_blk_bitmap` for 244 blocks finds
no run of that length and returns the extent (4, 2); the bits 4 and 5 are set afterwards,
but the free-block count is 241, four less and not two: the function ends with
`set_bitmap('d', extent->count, extent->start, fs)`, start and count exchanged. -/
theorem search_blk_bitmap_fallback_count :
    (run_fresh 1048576 64 ops_two_holes).map (fun r =>
      [[(search_blk_bitmap 244 r.2).1.start, (search_blk_bitmap 244 r.2).1.count],
        bitmap_bits r.2.block_bitmap 10,
        bitmap_bits (search_blk_bitmap 244 r.2).2.block_bitmap 10,
        [r.2.sb.s_free_blocks_count, (search_blk_bitmap 244 r.2).2.sb.s_free_blocks_count]])
      = some [[4, 2], [1, 1, 1, 1, 0, 0, 1, 1, 0, 0], [1, 1, 1, 1, 1, 1, 1, 1, 0, 0],
          [245, 241]] := by
  decide!

/-- C35 (the code differs).  After the calls `ops_grow_into_neighbour`, which return 0,
0, 0, 1, 0, the root owns the blocks 0, 1, the file `/f` (inode 1) the blocks 2, 3, 4 and
the file `/g` (inode 2) the blocks 4, 0: block 4, the extent list of `/g`, is also the
second data block of `/f`, and the extent of `/g` reads block 0, the extent list of the
root.  `search_blk_bitmap_at_idx` is asked for the last block of `/f` and not the block
after it, and takes it although its bit is set; the zero written to the new block of `/f`
falls on the start of the extent of `/g`. -/
theorem grown_file_owns_neighbour_block :
    (run_fresh 1048576 64 ops_grow_into_neighbour).map (fun r =>
      (r.1, [owned_blocks r.2 0, owned_blocks r.2 1, owned_blocks r.2 2]))
      = some ([0, 0, 0, 1, 0], [[0, 1], [2, 3, 4], [4, 0]]) := by
  decide!

/-- C36 (the code differs).  The file `/f` holds the 10 bytes 1 .. 10.  The write of the
bytes 11, 12, 13 at offset 4096 returns 3.  The read of 10 bytes at offset 0 returned
1 .. 10 before and returns 11, 12, 13, 4, .. 10 afterwards: `find_offset` gives the address
of the first block of the file for the offset 4096. -/
theorem write_second_block_changes_first :
    (run_fresh 1048576 64 [fs_op.create path_f, fs_op.write path_f ten_bytes 0]).bind (fun r =>
      (a1fs_write 600 path_f [11, 12, 13] 4096 r.2 epoch).bind (fun q =>
        (a1fs_read 16 path_f filled_buf 10 0 r.2).bind (fun b =>
          (a1fs_read 16 path_f filled_buf 10 0 q.2).map (fun a =>
            (r.1 ++ [q.1, b.1, a.1], [read_bytes b.2 0 10, read_bytes a.2 0 10])))))
      = some ([0, 10, 3, 10, 10],
          [[1, 2, 3, 4, 5, 6, 7, 8, 9, 10], [11, 12, 13, 4, 5, 6, 7, 8, 9, 10]]) := by
  decide!

/-- C37.  For every state, inode and size the loop of `populate_extent_blk` is left
within 2^32 iterations, and within `512 - c` iterations and the one that returns when the
inode has `c ≤ 512` extents: with more iterations allowed the run does not end unfinished,
it returns or hands a `memset` a negative length, and `populate_extent_blk` gives what the
run ends with.  An iteration that neither returns nor faults stores one more extent. -/
theorem populate_extent_blk_terminates (ino_i size : Nat) (fs : fs_ctx) (fuel : Nat)
    (hfuel : 4294967296 < fuel ∨
      ((fs.root_ino ino_i).i_extents_count ≤ 512 ∧
        512 - (fs.root_ino ino_i).i_extents_count < fuel)) :
    populate_run ino_i fuel (divide_ceil size A1FS_BLOCK_SIZE) size fs ≠ loop_end.unfinished ∧
    populate_extent_blk fuel ino_i size fs
      = (populate_run ino_i fuel (divide_ceil size A1FS_BLOCK_SIZE) size fs).result := by
  refine ⟨?_, populate_loop_eq_run ino_i fuel _ size fs⟩
  rcases hfuel with h | ⟨h1, h2⟩
  · exact populate_run_finishes ino_i 4294967296 fuel _ size fs (extent_count_distance_le _) h
  · apply populate_run_finishes ino_i (512 - (fs.root_ino ino_i).i_extents_count) fuel _ size fs
      _ h2
    simp only [extent_count_distance, if_pos h1]
    exact Nat.le_refl _

/-- The loop for 10000 bytes on inode 1 of the state `hole_fs`, with 513 iterations
allowed. -/
theorem populate_extent_blk_terminates_witness :
    populate_run 1 513 (divide_ceil 10000 A1FS_BLOCK_SIZE) 10000 hole_fs ≠ loop_end.unfinished ∧
    populate_extent_blk 513 1 10000 hole_fs
      = (populate_run 1 513 (divide_ceil 10000 A1FS_BLOCK_SIZE) 10000 hole_fs).result :=
  populate_extent_blk_terminates 1 10000 hole_fs 513 (Or.inr ⟨by decide!, by decide!⟩)

/-- C38 (counterexample).  For the path `//x` the parent is `/` and the child is `x`,
and `"/" ++ child` is `/x`, not the path. -/
theorem parent_child_double_slash :
    get_parent_child_str_from_path [47, 47, 120] = some ([47], [120]) ∧
      [47] ++ [120] ≠ [47, 47, 120] := by
  decide

/-- C38 (amended).  A path that begins with `/` and does not end with `/` is
`pre ++ "/" ++ child` with no `/` in `child`, and `child` is not empty.
`get_parent_child_str_from_path` returns the child `child` and the parent `pre`, or `/`
when `pre` is empty, that is when the last `/` is the first character.  The path is
`"/" ++ child` when the last `/` is the first character and `parent ++ "/" ++ child`
otherwise. -/
theorem parent_child_split (p : List Nat) (habs : p.head? = some 47)
    (hend : p.getLast? ≠ some 47) :
    ∃ pre child, p = pre ++ 47 :: child ∧ 47 ∉ child ∧ child ≠ [] ∧
      get_parent_child_str_from_path p = some (if pre = [] then [47] else pre, child) ∧
      p = (if pre = [] then [47] ++ child
           else (if pre = [] then [47] else pre) ++ [47] ++ child) := by
  have hmem : 47 ∈ p.reverse := by
    cases p with
    | nil => simp at habs
    | cons c cs =>
      simp only [List.head?_cons, Option.some.injEq] at habs
      simp [habs]
  obtain ⟨as, bs, hrev, has⟩ := List.eq_append_cons_of_mem hmem
  have hp : p = bs.reverse ++ 47 :: as.reverse := by
    have := congrArg List.reverse hrev
    simpa using this
  have hchild : 47 ∉ as.reverse := by simpa using has
  refine ⟨bs.reverse, as.reverse, hp, hchild, ?_, ?_, ?_⟩
  · intro h0
    apply hend
    rw [hp, h0]
    simp
  · rw [hp]
    exact parent_child_of_last_slash _ _ hchild
  · rw [hp]
    by_cases h : bs.reverse = []
    · simp [h]
    · simp [h]

/-- The path `/a/b` splits into `/a` and `b`. -/
theorem parent_child_split_witness :
    ∃ pre child, path_ab = pre ++ 47 :: child ∧ 47 ∉ child ∧ child ≠ [] ∧
      get_parent_child_str_from_path path_ab = some (if pre = [] then [47] else pre, child) ∧
      path_ab = (if pre = [] then [47] ++ child
           else (if pre = [] then [47] else pre) ++ [47] ++ child) :=
  parent_child_split path_ab (by decide) (by decide)

/-! ## The cap of the extent count along a run of calls -/

end A1fs

namespace A3

/-! ## The clock hand and the list of referenced frames -/

/-- After `frame &= ~PAGE_REF` the reference bit is clear. -/
theorem clear_ref_not_set (x : Nat) : clear_ref x &&& PAGE_REF = 0 := by
  have h : (4294967295 ^^^ PAGE_REF) &&& PAGE_REF = 0 := by decide
  simp only [clear_ref]
  rw [Nat.and_assoc, h]
  simp

/-- The assignment `frame &= ~PAGE_REF` clears the reference bit of an `unsigned int` and
keeps its other bits. -/
theorem testBit_clear_ref (x j : Nat) (hx : x < 4294967296) :
    (clear_ref x).testBit j = (x.testBit j && !PAGE_REF.testBit j) := by
  simp only [clear_ref, Nat.testBit_and, Nat.testBit_xor]
  by_cases hj : j < 32
  · have h1 : Nat.testBit 4294967295 j = true := by
      have := Nat.testBit_two_pow_sub_one 32 j
      simpa [hj] using this
    rw [h1]
    cases PAGE_REF.testBit j <;> simp
  · have h2 : x.testBit j = false := by
      apply Nat.testBit_eq_false_of_lt
      calc x < 2 ^ 32 := hx
        _ ≤ 2 ^ j := Nat.pow_le_pow_right (by norm_num) (by omega)
    rw [h2]
    simp

/-- Fewer than `m` steps forward from a position do not lead back to it. -/
theorem add_mod_ne_self (m h d : Nat) (hh : h < m) (hd0 : 0 < d) (hd : d < m) :
    (h + d) % m ≠ h := by
  intro he
  have h1 : (h + d) % m = (h + 0) % m := by
    rw [he, Nat.add_zero, Nat.mod_eq_of_lt hh]
  have h2 : d % m = 0 % m := Nat.ModEq.add_left_cancel' h h1
  rw [Nat.mod_eq_of_lt hd, Nat.zero_mod] at h2
  omega

/-- A step of the hand and `t` more are `t + 1` steps. -/
theorem succ_mod_add_mod (m h t : Nat) : ((h + 1) % m + t) % m = (h + (t + 1)) % m := by
  rw [Nat.mod_add_mod]
  congr 1
  omega

/-- The loop passes the `k` frames from the hand on when their reference bits are set:
it clears their bits, keeps the words of the other frames and moves the hand by `k`. -/
theorem clock_loop_pass (m : Nat) :
    ∀ (k : Nat) (s : clock_state) (fuel : Nat), s.clk_hand < m → k ≤ m → k ≤ fuel →
      (∀ t, t < k → s.coremap ((s.clk_hand + t) % m) &&& PAGE_REF ≠ 0) →
      ∃ s1, clock_loop m fuel s = clock_loop m (fuel - k) s1 ∧
        s1.clk_hand = (s.clk_hand + k) % m ∧
        (∀ i, (∃ t, t < k ∧ i = (s.clk_hand + t) % m) → s1.coremap i = clear_ref (s.coremap i)) ∧
        (∀ i, (¬ ∃ t, t < k ∧ i = (s.clk_hand + t) % m) → s1.coremap i = s.coremap i) := by
  intro k
  induction k with
  | zero =>
    intro s fuel hh _ _ _
    refine ⟨s, rfl, ?_, ?_, ?_⟩
    · rw [Nat.add_zero, Nat.mod_eq_of_lt hh]
    · rintro i ⟨t, ht, _⟩
      omega
    · intro i _
      rfl
  | succ k ih =>
    intro s fuel hh hk hfuel hset
    obtain ⟨fuel1, rfl⟩ : ∃ f, fuel = f + 1 := ⟨fuel - 1, by omega⟩
    have h0 : s.coremap s.clk_hand &&& PAGE_REF ≠ 0 := by
      have := hset 0 (by omega)
      rwa [Nat.add_zero, Nat.mod_eq_of_lt hh] at this
    have hm : 0 < m := by omega
    have hstep : clock_loop m (fuel1 + 1) s = clock_loop m fuel1
        { coremap := fun i => if i = s.clk_hand then clear_ref (s.coremap i) else s.coremap i
          clk_hand := (s.clk_hand + 1) % m } := by
      rw [clock_loop, if_pos h0]
    obtain ⟨s1, hrun, hhand, hpass, hrest⟩ := ih
      { coremap := fun i => if i = s.clk_hand then clear_ref (s.coremap i) else s.coremap i
        clk_hand := (s.clk_hand + 1) % m } fuel1 (Nat.mod_lt _ hm) (by omega) (by omega)
      (by
        intro t ht
        show (if (((s.clk_hand + 1) % m + t) % m) = s.clk_hand then _ else _) &&& PAGE_REF ≠ 0
        rw [succ_mod_add_mod, if_neg (add_mod_ne_self m s.clk_hand (t + 1) hh (by omega) (by omega))]
        exact hset (t + 1) (by omega))
    simp only [succ_mod_add_mod] at hhand hpass hrest
    refine ⟨s1, ?_, ?_, ?_, ?_⟩
    · rw [hstep, hrun]
      congr 1
      omega
    · rw [hhand]
    · rintro i ⟨t, ht, hi⟩
      by_cases hp : ∃ t, t < k ∧ i = (s.clk_hand + (t + 1)) % m
      · rw [hpass i hp]
        obtain ⟨t1, ht1, hi1⟩ := hp
        have hne : i ≠ s.clk_hand := by
          rw [hi1]
          exact add_mod_ne_self m s.clk_hand (t1 + 1) hh (by omega) (by omega)
        simp only [if_neg hne]
      · rw [hrest i hp]
        cases t with
        | zero =>
          have hi0 : i = s.clk_hand := by
            rw [hi, Nat.add_zero, Nat.mod_eq_of_lt hh]
          simp only [if_pos hi0]
        | succ t1 =>
          exact absurd ⟨t1, by omega, hi⟩ hp
    · intro i hnp
      have hp : ¬ ∃ t, t < k ∧ i = (s.clk_hand + (t + 1)) % m := by
        rintro ⟨t, ht, hi⟩
        exact hnp ⟨t + 1, by omega, hi⟩
      have hne : i ≠ s.clk_hand := by
        intro hi
        exact hnp ⟨0, by omega, by rw [hi, Nat.add_zero, Nat.mod_eq_of_lt hh]⟩
      rw [hrest i hp]
      simp only [if_neg hne]

/-- Entries with the same pointers are linked in the same way. -/
theorem linked_congr (e e1 : Nat → list_entry) :
    ∀ (l : List Nat) (p n : Option Nat),
      (∀ i, i ∈ l → (e1 i).prev = (e i).prev ∧ (e1 i).next = (e i).next) →
      linked e p l n → linked e1 p l n := by
  intro l
  induction l with
  | nil => intro p n _ _; trivial
  | cons a r ih =>
    intro p n h hl
    obtain ⟨h1, h2, h3⟩ := hl
    have ha := h a (List.mem_cons_self a r)
    exact ⟨by rw [ha.1, h1], by rw [ha.2, h2],
      ih (some a) n (fun i hi => h i (List.mem_cons_of_mem a hi)) h3⟩

/-- A list is linked when its two parts are, the first ending where the second
begins. -/
theorem linked_append (e : Nat → list_entry) :
    ∀ (l1 l2 : List Nat) (p n : Option Nat),
      linked e p (l1 ++ l2) n ↔
        linked e p l1 (l2.head?.or n) ∧ linked e (l1.getLast?.or p) l2 n := by
  intro l1
  induction l1 with
  | nil =>
    intro l2 p n
    simp [linked]
  | cons a r ih =>
    intro l2 p n
    have hlast : (a :: r).getLast?.or p = r.getLast?.or (some a) := by
      cases r with
      | nil => simp
      | cons b t =>
        obtain ⟨x, hx⟩ : ∃ x, (b :: t).getLast? = some x :=
          ⟨_, List.getLast?_eq_getLast _ (List.cons_ne_nil b t)⟩
        rw [List.getLast?_cons_cons, hx]
        rfl
    have hhead : (r ++ l2).head?.or n = r.head?.or (l2.head?.or n) := by
      cases r with
      | nil => simp
      | cons b t => simp
    rw [List.cons_append]
    constructor
    · rintro ⟨h1, h2, h3⟩
      rw [hlast]
      rw [hhead] at h2
      exact ⟨⟨h1, h2, ((ih l2 (some a) n).mp h3).1⟩, ((ih l2 (some a) n).mp h3).2⟩
    · rintro ⟨⟨h1, h2, h3⟩, h4⟩
      rw [hlast] at h4
      exact ⟨h1, by rw [hhead]; exact h2, (ih l2 (some a) n).mpr ⟨h3, h4⟩⟩

/-- The `next` of the last entry can be changed. -/
theorem linked_change_end (e e1 : Nat → list_entry) (n1 : Option Nat) :
    ∀ (l : List Nat) (p n : Option Nat), l.Nodup →
      (∀ i, i ∈ l → (e1 i).prev = (e i).prev) →
      (∀ i, i ∈ l → l.getLast? ≠ some i → (e1 i).next = (e i).next) →
      (∀ i, l.getLast? = some i → (e1 i).next = n1) →
      linked e p l n → linked e1 p l n1 := by
  intro l
  induction l with
  | nil => intro p n _ _ _ _ _; trivial
  | cons a r ih =>
    intro p n hnd hprev hnext hlast hl
    obtain ⟨h1, h2, h3⟩ := hl
    have hnd2 := List.nodup_cons.mp hnd
    refine ⟨by rw [hprev a (List.mem_cons_self a r), h1], ?_, ?_⟩
    · cases r with
      | nil =>
        simpa using hlast a (by simp)
      | cons b t =>
        have hne : (a :: b :: t).getLast? ≠ some a := by
          rw [List.getLast?_cons_cons]
          intro h
          exact hnd2.1 (List.mem_of_getLast?_eq_some h)
        rw [hnext a (List.mem_cons_self a _) hne, h2]
        simp
    · cases r with
      | nil => trivial
      | cons b t =>
        apply ih (some a) n hnd2.2
        · intro i hi
          exact hprev i (List.mem_cons_of_mem a hi)
        · intro i hi hne
          exact hnext i (List.mem_cons_of_mem a hi) (by rwa [List.getLast?_cons_cons])
        · intro i hi
          exact hlast i (by rwa [List.getLast?_cons_cons])
        · exact h3

/-- The `prev` of the first entry can be changed. -/
theorem linked_change_start (e e1 : Nat → list_entry) (p1 : Option Nat)
    (l : List Nat) (p n : Option Nat) (hnd : l.Nodup)
    (hnext : ∀ i, i ∈ l → (e1 i).next = (e i).next)
    (hprev : ∀ i, i ∈ l → l.head? ≠ some i → (e1 i).prev = (e i).prev)
    (hfirst : ∀ i, l.head? = some i → (e1 i).prev = p1)
    (hl : linked e p l n) : linked e1 p1 l n := by
  cases l with
  | nil => trivial
  | cons a r =>
    obtain ⟨_, h2, h3⟩ := hl
    have hnd2 := List.nodup_cons.mp hnd
    refine ⟨hfirst a (by simp), by rw [hnext a (List.mem_cons_self a r), h2], ?_⟩
    apply linked_congr e e1 r (some a) n _ h3
    intro i hi
    refine ⟨hprev i (List.mem_cons_of_mem a hi) ?_, hnext i (List.mem_cons_of_mem a hi)⟩
    simp only [List.head?_cons, ne_eq, Option.some.injEq]
    rintro rfl
    exact hnd2.1 hi

/-- The pointers of an entry inside a linked list. -/
theorem linked_split (e : Nat → list_entry) (l1 l2 : List Nat) (a : Nat)
    (h : linked e none (l1 ++ a :: l2) none) :
    linked e none l1 (some a) ∧ (e a).prev = l1.getLast? ∧ (e a).next = l2.head? ∧
      linked e (some a) l2 none := by
  have h1 := (linked_append e l1 (a :: l2) none none).mp h
  obtain ⟨h2, h3, h4, h5⟩ := h1
  refine ⟨by simpa using h2, by simpa using h3, by simpa using h4, h5⟩

/-- Without the frame `a`, a list that holds it once is the part before it and the
part behind it. -/
theorem filter_ne_split (l1 l2 : List Nat) (a : Nat) (h1 : a ∉ l1) (h2 : a ∉ l2) :
    (l1 ++ a :: l2).filter (fun f => f ≠ a) = l1 ++ l2 := by
  have e1 : l1.filter (fun f => !decide (f = a)) = l1 := by
    rw [List.filter_eq_self]
    intro x hx
    have : x ≠ a := by rintro rfl; exact h1 hx
    simpa using this
  have e2 : l2.filter (fun f => !decide (f = a)) = l2 := by
    rw [List.filter_eq_self]
    intro x hx
    have : x ≠ a := by rintro rfl; exact h2 hx
    simpa using this
  simp [List.filter_append, List.filter_cons, e1, e2]

/-- A list that does not hold the frame `a` is the same without it. -/
theorem filter_ne_absent (l : List Nat) (a : Nat) (h : a ∉ l) :
    l.filter (fun f => f ≠ a) = l := by
  rw [List.filter_eq_self]
  intro x hx
  have : x ≠ a := by rintro rfl; exact h hx
  simpa using this

/-- The function `list_del` on an entry that is not in the list. -/
theorem list_del_absent (s : lru_state) (l : List Nat) (a : Nat) (hr : lru_repr s l)
    (ha : a ∉ l) : lru_repr (list_del s a) l := by
  obtain ⟨hnd, hfr, hhd, htl, hlk⟩ := hr
  have hf : (s.lst_entries a).frame = -1 := by rw [hfr a, if_neg ha]
  simp only [list_del, hf, ne_eq, not_true_eq_false, if_false]
  refine ⟨hnd, ?_, hhd, htl, ?_⟩
  · intro i
    simp only [set_entry]
    by_cases hi : i = a
    · subst hi
      simp [ha]
    · simp only [if_neg hi]
      exact hfr i
  · apply linked_congr s.lst_entries _ l none none _ hlk
    intro i _
    simp only [set_entry]
    split_ifs <;> simp_all

/-- The function `list_del` on an entry of the list takes it out. -/
theorem list_del_present (s : lru_state) (l1 l2 : List Nat) (a : Nat)
    (hr : lru_repr s (l1 ++ a :: l2)) : lru_repr (list_del s a) (l1 ++ l2) := by
  obtain ⟨hnd, hfr, hhd, htl, hlk⟩ := hr
  obtain ⟨nd1, nd2, hdisj⟩ := List.nodup_append.mp hnd
  obtain ⟨ha2, nd2⟩ := List.nodup_cons.mp nd2
  have ha1 : a ∉ l1 := fun h => hdisj h (List.mem_cons_self a l2)
  have h12 : ∀ x, x ∈ l1 → x ∉ l2 := fun x h1 h2 => hdisj h1 (List.mem_cons_of_mem a h2)
  have ha12 : a ∉ l1 ++ l2 := by
    simp only [List.mem_append, not_or]
    exact ⟨ha1, ha2⟩
  have hf : (s.lst_entries a).frame ≠ -1 := by
    rw [hfr a, if_pos (by simp)]
    omega
  obtain ⟨hk1, hprev, hnext, hk2⟩ := linked_split _ _ _ _ hlk
  have hfr1 : ∀ i, i ≠ a → (s.lst_entries i).frame = if i ∈ l1 ++ l2 then (i : Int) else -1 := by
    intro i hi
    rw [hfr i]
    simp [hi]
  rcases List.eq_nil_or_concat l1 with rfl | ⟨L, pv, hL⟩
  · cases l2 with
    | nil =>
      simp only [List.getLast?_nil, List.head?_nil] at hprev hnext
      simp only [list_del, hf, ne_eq, not_false_eq_true, if_true, hprev, hnext]
      refine ⟨List.nodup_nil, ?_, rfl, rfl, trivial⟩
      intro i
      simp only [set_entry]
      rcases eq_or_ne i a with rfl | hi
      · rw [if_pos rfl, if_neg ha12]
      · rw [if_neg hi]
        exact hfr1 i hi
    | cons nx R =>
      simp only [List.getLast?_nil, List.head?_cons] at hprev hnext
      have hnxa : nx ≠ a := by
        rintro rfl
        exact ha2 (List.mem_cons_self _ _)
      simp only [list_del, hf, ne_eq, not_false_eq_true, if_true, hprev, hnext]
      refine ⟨nd2, ?_, rfl, ?_, ?_⟩
      · intro i
        simp only [set_entry]
        rcases eq_or_ne i a with rfl | hi
        · rw [if_pos rfl, if_neg ha12]
        · rw [if_neg hi]
          refine Eq.trans ?_ (hfr1 i hi)
          split_ifs with h
          · rw [h]
          · rfl
      · simp only [set_entry]
        rw [htl]
        simp [List.getLast?_cons_cons]
      · simp only [List.nil_append]
        apply linked_change_start s.lst_entries _ none (nx :: R) (some a) none nd2 _ _ _ hk2
        · intro i hi
          have hia : i ≠ a := by rintro rfl; exact ha2 hi
          simp only [set_entry, if_neg hia]
          split_ifs with h
          · rw [h]
          · rfl
        · intro i hi hne
          have hia : i ≠ a := by rintro rfl; exact ha2 hi
          have hin : i ≠ nx := by
            rintro rfl
            simp at hne
          simp only [set_entry, if_neg hia, if_neg hin]
        · intro i hi
          simp only [List.head?_cons, Option.some.injEq] at hi
          subst hi
          simp only [set_entry, if_neg hnxa, if_true]
  · rw [List.concat_eq_append] at hL
    subst hL
    have hpvl : (L ++ [pv]).getLast? = some pv := by simp
    have hpva : pv ≠ a := by
      rintro rfl
      exact ha1 (by simp)
    have hhead : ∀ (t : List Nat), (L ++ [pv] ++ t).head? = (L ++ [pv]).head? := by
      intro t
      cases L <;> simp
    cases l2 with
    | nil =>
      simp only [hpvl, List.head?_nil] at hprev hnext
      simp only [list_del, hf, ne_eq, not_false_eq_true, if_true, hprev, hnext]
      refine ⟨by simpa using nd1, ?_, ?_, ?_, ?_⟩
      · intro i
        simp only [set_entry]
        rcases eq_or_ne i a with rfl | hi
        · rw [if_pos rfl, if_neg ha12]
        · rw [if_neg hi]
          refine Eq.trans ?_ (hfr1 i hi)
          split_ifs with h
          · rw [h]
          · rfl
      · simp only [set_entry]
        rw [hhd, hhead, hhead]
      · simp only [set_entry, List.append_nil, hpvl]
      · simp only [List.append_nil]
        apply linked_change_end s.lst_entries _ none (L ++ [pv]) none (some a) nd1 _ _ _ hk1
        · intro i hi
          have hia : i ≠ a := by rintro rfl; exact ha1 hi
          simp only [set_entry, if_neg hia]
          split_ifs with h
          · rw [h]
          · rfl
        · intro i hi hne
          have hia : i ≠ a := by rintro rfl; exact ha1 hi
          have hin : i ≠ pv := by
            rintro rfl
            exact hne hpvl
          simp only [set_entry, if_neg hia, if_neg hin]
        · intro i hi
          rw [hpvl, Option.some.injEq] at hi
          subst hi
          simp only [set_entry, if_neg hpva, if_true]
    | cons nx R =>
      simp only [hpvl, List.head?_cons] at hprev hnext
      have hnxa : nx ≠ a := by
        rintro rfl
        exact ha2 (List.mem_cons_self _ _)
      have hpvnx : pv ≠ nx := by
        rintro rfl
        exact h12 pv (by simp) (List.mem_cons_self _ _)
      have han : a ≠ nx := fun h => hnxa h.symm
      have hapv : a ≠ pv := fun h => hpva h.symm
      simp only [list_del, hf, ne_eq, not_false_eq_true, if_true, hprev, hnext, set_entry,
        if_neg han, if_neg hpvnx, if_neg hapv]
      refine ⟨?_, ?_, ?_, ?_, ?_⟩
      · exact List.nodup_append.mpr ⟨nd1, nd2, fun x h1 h2 => h12 x h1 h2⟩
      · intro i
        dsimp only
        rcases eq_or_ne i a with rfl | hi
        · rw [if_pos rfl, if_neg ha12]
        · rw [if_neg hi]
          refine Eq.trans ?_ (hfr1 i hi)
          split_ifs with h h1
          · rw [h]
          · rw [h1]
          · rfl
      · dsimp only
        rw [hhd, hhead, hhead]
      · dsimp only
        rw [htl]
        simp [List.getLast?_append, List.getLast?_cons_cons]
      · dsimp only
        apply (linked_append _ (L ++ [pv]) (nx :: R) none none).mpr
        constructor
        · simp only [List.head?_cons, Option.or]
          apply linked_change_end s.lst_entries _ (some nx) (L ++ [pv]) none (some a) nd1 _ _ _ hk1
          · intro i hi
            have hia : i ≠ a := by rintro rfl; exact ha1 hi
            have hin : i ≠ nx := by
              rintro rfl
              exact h12 i hi (List.mem_cons_self _ _)
            simp only [if_neg hia, if_neg hin]
            split_ifs with h
            · rw [h]
            · rfl
          · intro i hi hne
            have hia : i ≠ a := by rintro rfl; exact ha1 hi
            have hin : i ≠ pv := by
              rintro rfl
              exact hne hpvl
            have hinx : i ≠ nx := by
              rintro rfl
              exact h12 i hi (List.mem_cons_self _ _)
            simp only [if_neg hia, if_neg hin, if_neg hinx]
          · intro i hi
            rw [hpvl, Option.some.injEq] at hi
            subst hi
            simp only [if_neg hpva, if_true]
        · simp only [hpvl, Option.or]
          apply linked_change_start s.lst_entries _ (some pv) (nx :: R) (some a) none nd2 _ _ _ hk2
          · intro i hi
            have hia : i ≠ a := by rintro rfl; exact ha2 hi
            have hip : i ≠ pv := by
              rintro rfl
              exact h12 i (by simp) hi
            simp only [if_neg hia, if_neg hip]
            split_ifs with h
            · rw [h]
            · rfl
          · intro i hi hne
            have hia : i ≠ a := by rintro rfl; exact ha2 hi
            have hip : i ≠ pv := by
              rintro rfl
              exact h12 i (by simp) hi
            have hin : i ≠ nx := by
              rintro rfl
              simp at hne
            simp only [if_neg hia, if_neg hip, if_neg hin]
          · intro i hi
            simp only [List.head?_cons, Option.some.injEq] at hi
            subst hi
            simp only [if_neg hnxa, if_neg hpvnx.symm, if_true]

/-- The function `list_del` leaves the list without the entry. -/
theorem list_del_repr (s : lru_state) (l : List Nat) (a : Nat) (hr : lru_repr s l) :
    lru_repr (list_del s a) (l.filter (fun f => f ≠ a)) := by
  by_cases ha : a ∈ l
  · obtain ⟨l1, l2, rfl, h1⟩ := List.eq_append_cons_of_mem ha
    have h2 : a ∉ l2 := by
      have hnd := hr.1
      have := (List.nodup_append.mp hnd).2.1
      exact (List.nodup_cons.mp this).1
    rw [filter_ne_split l1 l2 a h1 h2]
    exact list_del_present s l1 l2 a hr
  · rw [filter_ne_absent l a ha]
    exact list_del_absent s l a hr ha

/-- The function `list_add_head`, after the `frame` of the entry is set, puts an entry
that is not in the list at its front. -/
theorem list_add_head_repr (s : lru_state) (l : List Nat) (a : Nat) (hr : lru_repr s l)
    (ha : a ∉ l) :
    lru_repr (list_add_head (set_entry s a { s.lst_entries a with frame := a }) a) (a :: l) := by
  obtain ⟨hnd, hfr, hhd, htl, hlk⟩ := hr
  cases l with
  | nil =>
    simp only [List.head?_nil] at hhd
    simp only [list_add_head, set_entry, hhd]
    refine ⟨by simp, ?_, rfl, rfl, ?_⟩
    · intro i
      dsimp only
      rcases eq_or_ne i a with rfl | hi
      · simp
      · simp only [if_neg hi]
        rw [hfr i]
        simp [hi]
    · simp [linked]
  | cons hd r =>
    simp only [List.head?_cons] at hhd
    have hhda : hd ≠ a := by
      rintro rfl
      exact ha (List.mem_cons_self _ _)
    have hahd : a ≠ hd := fun h => hhda h.symm
    simp only [list_add_head, set_entry, hhd]
    refine ⟨List.nodup_cons.mpr ⟨ha, hnd⟩, ?_, rfl, ?_, ?_⟩
    · intro i
      dsimp only
      rcases eq_or_ne i a with rfl | hi
      · simp [hahd]
      · simp only [if_neg hi]
        have := hfr i
        simp only [List.mem_cons, hi, false_or] at this ⊢
        split_ifs at this ⊢ with h1 h2 <;> simp_all
    · dsimp only
      rw [htl]
      simp [List.getLast?_cons_cons]
    · dsimp only
      refine ⟨by simp, by simp [hahd], ?_⟩
      apply linked_change_start s.lst_entries _ (some a) (hd :: r) none none hnd _ _ _ hlk
      · intro i hi
        have hia : i ≠ a := by rintro rfl; exact ha hi
        simp only [if_neg hia]
        split_ifs with h
        · rw [h]
        · rfl
      · intro i hi hne
        have hia : i ≠ a := by rintro rfl; exact ha hi
        have hin : i ≠ hd := by
          rintro rfl
          simp at hne
        simp only [if_neg hia, if_neg hin]
      · intro i hi
        simp only [List.head?_cons, Option.some.injEq] at hi
        subst hi
        simp [hhda]

/-- Without its last frame, a list of different frames is the list of the frames
before. -/
theorem filter_ne_last (l : List Nat) (f : Nat) (hnd : l.Nodup) (hl : l.getLast? = some f) :
    l.filter (fun x => x ≠ f) = l.dropLast := by
  rcases List.eq_nil_or_concat l with rfl | ⟨L, b, hL⟩
  · simp at hl
  · rw [List.concat_eq_append] at hL
    subst hL
    have hb : b = f := by simpa using hl
    subst hb
    have hnot : b ∉ L := by
      have := List.nodup_append.mp hnd
      intro h
      exact this.2.2 h (List.mem_singleton_self b)
    have := filter_ne_split L [] b hnot (List.not_mem_nil b)
    simpa using this

/-- The function `lru_evict` returns the last frame of the list and takes it out. -/
theorem lru_evict_repr (s : lru_state) (l : List Nat) (f : Nat) (hr : lru_repr s l)
    (hl : l.getLast? = some f) :
    ∃ s1, lru_evict s = some ((f : Int), s1) ∧ lru_repr s1 l.dropLast := by
  have hmem : f ∈ l := List.mem_of_getLast?_eq_some hl
  have hframe : (s.lst_entries f).frame = f := by rw [hr.2.1 f, if_pos hmem]
  refine ⟨list_del s f, ?_, ?_⟩
  · simp only [lru_evict, hr.2.2.2.1, hl, hframe]
  · rw [← filter_ne_last l f hr.1 hl]
    exact list_del_repr s l f hr

/-- The function `lru_ref` moves the frame to the front of the list. -/
theorem lru_ref_repr (memsize p : Nat) (s : lru_state) (l : List Nat) (hr : lru_repr s l)
    (hp : p >>> PAGE_SHIFT < memsize) :
    ∃ s1, lru_ref memsize p s = some s1 ∧
      lru_repr s1 ((p >>> PAGE_SHIFT) :: l.filter (fun f => f ≠ p >>> PAGE_SHIFT)) := by
  have hnot : p >>> PAGE_SHIFT ∉ l.filter (fun f => f ≠ p >>> PAGE_SHIFT) := by
    simp [List.mem_filter]
  refine ⟨_, ?_, list_add_head_repr _ _ _ (list_del_repr s l (p >>> PAGE_SHIFT) hr) hnot⟩
  simp only [lru_ref, if_neg (Nat.not_le.mpr hp)]

/-- After `lru_init` the list is empty. -/
theorem lru_init_repr : lru_repr lru_init [] := by
  refine ⟨List.nodup_nil, ?_, rfl, rfl, trivial⟩
  intro i
  simp [lru_init, list_entry_init]

/-- A list of calls takes the list where the specification takes it and returns the
frames the specification takes out. -/
theorem run_lru_repr (memsize : Nat) :
    ∀ (calls : List lru_call) (s : lru_state) (l evicted frames : List Nat),
      lru_repr s l → refs_below memsize calls →
      recency_spec calls l = some (evicted, frames) →
      ∃ s1, run_lru memsize calls s = some (evicted.map Int.ofNat, s1) ∧ lru_repr s1 frames := by
  intro calls
  induction calls with
  | nil =>
    intro s l evicted frames hr _ hspec
    simp only [recency_spec, Option.some.injEq, Prod.mk.injEq] at hspec
    obtain ⟨rfl, rfl⟩ := hspec
    exact ⟨s, rfl, hr⟩
  | cons c calls ih =>
    intro s l evicted frames hr hbelow hspec
    have hbelow1 : refs_below memsize calls := fun p hp => hbelow p (List.mem_cons_of_mem c hp)
    cases c with
    | ref p =>
      simp only [recency_spec] at hspec
      obtain ⟨s1, h1, hr1⟩ := lru_ref_repr memsize p s l hr (hbelow p (List.mem_cons_self _ _))
      obtain ⟨s2, h2, hr2⟩ := ih s1 _ evicted frames hr1 hbelow1 hspec
      exact ⟨s2, by simp only [run_lru, h1, h2], hr2⟩
    | evict =>
      simp only [recency_spec] at hspec
      cases hl : l.getLast? with
      | none => simp [hl] at hspec
      | some f =>
        simp only [hl] at hspec
        cases hrest : recency_spec calls l.dropLast with
        | none => simp [hrest] at hspec
        | some q =>
          simp only [hrest, Option.some.injEq, Prod.mk.injEq] at hspec
          obtain ⟨rfl, rfl⟩ := hspec
          obtain ⟨s1, h1, hr1⟩ := lru_evict_repr s l f hr hl
          obtain ⟨s2, h2, hr2⟩ := ih s1 _ q.1 q.2 hr1 hbelow1 hrest
          exact ⟨s2, by simp [run_lru, h1, h2], hr2⟩

/-- The walk from the first entry of a linked list meets its entries in order. -/
theorem list_walk_linked (e : Nat → list_entry) :
    ∀ (l : List Nat) (p : Option Nat) (fuel : Nat), l.length ≤ fuel → linked e p l none →
      list_walk e fuel l.head? = l.map (fun i => (e i).frame) := by
  intro l
  induction l with
  | nil =>
    intro p fuel _ _
    cases fuel <;> rfl
  | cons a r ih =>
    intro p fuel hf hl
    obtain ⟨f, rfl⟩ : ∃ f, fuel = f + 1 := ⟨fuel - 1, by simp at hf; omega⟩
    obtain ⟨_, h2, h3⟩ := hl
    simp only [List.head?_cons, list_walk, List.map_cons, h2, Option.or_none]
    rw [ih (some a) f (by simpa using hf) h3]

/-- The walk back from the last entry of a linked list meets its entries in reverse
order. -/
theorem list_walk_back_linked (e : Nat → list_entry) :
    ∀ (l : List Nat) (n : Option Nat) (fuel : Nat), l.length ≤ fuel → linked e none l n →
      list_walk_back e fuel l.getLast? = l.reverse.map (fun i => (e i).frame) := by
  intro l
  induction l using List.reverseRecOn with
  | nil =>
    intro n fuel _ _
    cases fuel <;> rfl
  | append_singleton r a ih =>
    intro n fuel hf hl
    obtain ⟨f, rfl⟩ : ∃ f, fuel = f + 1 := ⟨fuel - 1, by simp at hf; omega⟩
    obtain ⟨h1, h2, _, _⟩ := (linked_append e r [a] none n).mp hl
    simp only [List.head?_cons, Option.or] at h1
    simp only [Option.or_none] at h2
    simp only [List.getLast?_append, List.getLast?_singleton, Option.or, list_walk_back,
      List.reverse_append, List.reverse_singleton, List.singleton_append, List.map_cons, h2]
    rw [ih (some a) f (by simpa using hf) h1]

/-! ## The claims C39 and C40 -/

/-- C39.  Let `memsize` be positive, the hand below `memsize` and the words of the
frames `unsigned int` values.  Then `clock_evict` returns within `memsize + 1` evaluations
of its loop test.  With `k` the number of frames from the hand on, cyclically, whose
reference bit is set before the first frame whose bit is clear (`k = memsize` when all are
set), it returns the frame `(hand + k) % memsize`, the hand is one further afterwards, the
`k` frames passed have the reference bit cleared and their other bits as before, and the
words of all other frames are as before. -/
theorem clock_evict_first_clear (memsize : Nat) (s : clock_state) (hmem : 0 < memsize)
    (hhand : s.clk_hand < memsize) (hword : ∀ i, s.coremap i < 4294967296) :
    ∃ k s1, k ≤ memsize ∧
      (∀ t, t < k → ref_set s.coremap ((s.clk_hand + t) % memsize) = true) ∧
      (k < memsize → ref_set s.coremap ((s.clk_hand + k) % memsize) = false) ∧
      clock_evict (memsize + 1) memsize s = some ((s.clk_hand + k) % memsize, s1) ∧
      s1.clk_hand = ((s.clk_hand + k) % memsize + 1) % memsize ∧
      (∀ i, (∃ t, t < k ∧ i = (s.clk_hand + t) % memsize) →
        ∀ j, (s1.coremap i).testBit j = ((s.coremap i).testBit j && !PAGE_REF.testBit j)) ∧
      (∀ i, (¬ ∃ t, t < k ∧ i = (s.clk_hand + t) % memsize) → s1.coremap i = s.coremap i) := by
  have hex : ∃ t, memsize ≤ t ∨ ref_set s.coremap ((s.clk_hand + t) % memsize) = false :=
    ⟨memsize, Or.inl (Nat.le_refl _)⟩
  have hk := Nat.find_spec hex
  have hmin := fun t => @Nat.find_min _ _ hex t
  have hle : Nat.find hex ≤ memsize := Nat.find_min' hex (Or.inl (Nat.le_refl _))
  generalize Nat.find hex = k at hk hmin hle
  have hset : ∀ t, t < k → s.coremap ((s.clk_hand + t) % memsize) &&& PAGE_REF ≠ 0 := by
    intro t ht
    have := hmin t ht
    simp only [not_or, ref_set, decide_eq_false_iff_not, not_not] at this
    exact this.2
  obtain ⟨s1, hrun, hh1, hpass, hrest⟩ :=
    clock_loop_pass memsize k s (memsize + 1) hhand hle (by omega) hset
  have hclear : s1.coremap s1.clk_hand &&& PAGE_REF = 0 := by
    rw [hh1]
    by_cases hkm : k < memsize
    · have hnp : ¬ ∃ t, t < k ∧ (s.clk_hand + k) % memsize = (s.clk_hand + t) % memsize := by
        rintro ⟨t, ht, he⟩
        have h2 : k % memsize = t % memsize := Nat.ModEq.add_left_cancel' s.clk_hand he
        rw [Nat.mod_eq_of_lt hkm, Nat.mod_eq_of_lt (by omega)] at h2
        omega
      rw [hrest _ hnp]
      rcases hk with hk | hk
      · omega
      · simpa [ref_set] using hk
    · have hkeq : k = memsize := by omega
      rw [hpass _ ⟨0, by omega, by rw [hkeq, Nat.add_mod_right, Nat.add_zero]⟩]
      exact clear_ref_not_set _
  obtain ⟨f, hf⟩ : ∃ f, memsize + 1 - k = f + 1 := ⟨memsize - k, by omega⟩
  have hloop : clock_loop memsize (memsize + 1) s = some s1 := by
    rw [hrun, hf, clock_loop, if_neg (by simpa using hclear)]
  refine ⟨k, { s1 with clk_hand := (s1.clk_hand + 1) % memsize }, hle, ?_, ?_, ?_, ?_, ?_, ?_⟩
  · intro t ht
    simpa [ref_set] using hset t ht
  · intro hkm
    rcases hk with hk | hk
    · omega
    · exact hk
  · simp only [clock_evict, hloop, Option.map_some', hh1]
  · simp only [hh1]
  · intro i hp j
    show (s1.coremap i).testBit j = _
    rw [hpass i hp, testBit_clear_ref _ _ (hword i)]
  · intro i hnp
    exact hrest i hnp

/-- Three frames, the hand at frame 1, the bit set in the frames 1 and 2: frame 0 is
returned, the hand is at 1, and the words 1, 5, 4 are 1, 1, 0 afterwards. -/
theorem clock_evict_first_clear_witness :
    (∃ k s1, k ≤ 3 ∧
      (∀ t, t < k → ref_set clock_example.coremap ((clock_example.clk_hand + t) % 3) = true) ∧
      (k < 3 → ref_set clock_example.coremap ((clock_example.clk_hand + k) % 3) = false) ∧
      clock_evict (3 + 1) 3 clock_example = some ((clock_example.clk_hand + k) % 3, s1) ∧
      s1.clk_hand = ((clock_example.clk_hand + k) % 3 + 1) % 3 ∧
      (∀ i, (∃ t, t < k ∧ i = (clock_example.clk_hand + t) % 3) →
        ∀ j, (s1.coremap i).testBit j
          = ((clock_example.coremap i).testBit j && !PAGE_REF.testBit j)) ∧
      (∀ i, (¬ ∃ t, t < k ∧ i = (clock_example.clk_hand + t) % 3) →
        s1.coremap i = clock_example.coremap i)) ∧
    (clock_evict 4 3 clock_example).map
        (fun r => (r.1, r.2.clk_hand, [r.2.coremap 0, r.2.coremap 1, r.2.coremap 2]))
      = some (0, 1, [1, 1, 0]) :=
  ⟨clock_evict_first_clear 3 clock_example (by decide) (by decide)
      (by
        intro i
        simp only [clock_example]
        split_ifs <;> decide),
    by decide⟩

/-- C40.  Let a list of calls of `lru_ref` and `lru_evict` after `lru_init` refer to
frames below `memsize`, and let `lru_evict` only be called when a frame is left, so that
the specification gives the frames `evicted` taken out and the frames `frames` left, last
referenced first.  Then every call returns, the `lru_evict` calls return `evicted`, the
frames left are different from each other, the walk from `head` along `next` meets exactly
`frames` in this order and ends, and the walk from `tail` along `prev` meets them in
reverse order. -/
theorem lru_list_in_recency_order (memsize : Nat) (calls : List lru_call)
    (evicted frames : List Nat) (hbelow : refs_below memsize calls)
    (hspec : recency_spec calls [] = some (evicted, frames)) :
    ∃ s, run_lru memsize calls lru_init = some (evicted.map Int.ofNat, s) ∧
      frames.Nodup ∧
      (∀ fuel, frames.length ≤ fuel →
        list_walk s.lst_entries fuel s.head = frames.map Int.ofNat) ∧
      (∀ fuel, frames.length ≤ fuel →
        list_walk_back s.lst_entries fuel s.tail = frames.reverse.map Int.ofNat) := by
  obtain ⟨s, hrun, hnd, hfr, hhd, htl, hlk⟩ :=
    run_lru_repr memsize calls lru_init [] evicted frames lru_init_repr hbelow hspec
  have hmap : ∀ l : List Nat, (∀ i, i ∈ l → i ∈ frames) →
      l.map (fun i => (s.lst_entries i).frame) = l.map Int.ofNat := by
    intro l hl
    apply List.map_congr_left
    intro i hi
    rw [hfr i, if_pos (hl i hi)]
    rfl
  refine ⟨s, hrun, hnd, ?_, ?_⟩
  · intro fuel hf
    rw [hhd, list_walk_linked s.lst_entries frames none fuel hf hlk]
    exact hmap frames (fun i hi => hi)
  · intro fuel hf
    rw [htl, list_walk_back_linked s.lst_entries frames none fuel hf hlk]
    exact hmap frames.reverse (fun i hi => List.mem_reverse.mp hi)

/-- References to the frames 1, 2, 1, then `lru_evict`, which returns 2, then a
reference to frame 3: the list holds 3, 1. -/
theorem lru_list_in_recency_order_witness :
    refs_below 4 lru_example_calls ∧
    recency_spec lru_example_calls [] = some ([2], [3, 1]) ∧
    (∃ s, run_lru 4 lru_example_calls lru_init = some ([2].map Int.ofNat, s) ∧
      [3, 1].Nodup ∧
      (∀ fuel, [3, 1].length ≤ fuel →
        list_walk s.lst_entries fuel s.head = [3, 1].map Int.ofNat) ∧
      (∀ fuel, [3, 1].length ≤ fuel →
        list_walk_back s.lst_entries fuel s.tail = [3, 1].reverse.map Int.ofNat)) ∧
    (run_lru 4 lru_example_calls lru_init).map
        (fun r => (r.1, list_walk r.2.lst_entries 4 r.2.head,
          list_walk_back r.2.lst_entries 4 r.2.tail))
      = some ([2], [3, 1], [1, 3]) :=
  have hb : refs_below 4 lru_example_calls := by
    intro p hp
    simp only [lru_example_calls, List.mem_cons, lru_call.ref.injEq, List.mem_singleton,
      List.not_mem_nil, or_false, false_or, reduceCtorEq] at hp
    rcases hp with rfl | rfl | rfl | rfl <;> decide
  ⟨hb, by decide, lru_list_in_recency_order 4 lru_example_calls [2] [3, 1] hb (by decide),
    by decide⟩

end A3
